import Mathlib

/-!
# Verification of the Local-minutes streaming ASR / online diarization engine

Shallow embedding of `backend/diar/online_cluster.py` (the variable-K online
speaker clusterer `VarKClustering` and the intra-segment `StreamingDiarizer`)
and of `backend/asr/stream_jp.py` (the `RealtimeASR` streaming engine).

Modelling conventions:
* Machine floats are modelled as exact rationals (`ℚ`).  The only
  float operations the control flow of the source depends on are
  comparisons and field arithmetic, which `ℚ` reproduces exactly.
* The external numeric kernels (numpy vector arithmetic, the speaker
  embedding backend, the sherpa ASR decoder, `np.sqrt` inside the RMS
  computation) are abstracted as parameters (`EmbOps`, `Oracles`); the
  clusterer and engine logic never inspects vectors except through these
  operations, mirroring how the Python code treats them.
* `time.monotonic()` is modelled by an explicit `now : ℚ` argument; all
  monotonic reads inside one call observe the same instant.
* Python `dict` (insertion ordered) is modelled as an association list;
  `dict[k] = v` replaces in place or appends (`alSet`), matching iteration
  order.  Python truthiness of optional strings is modelled by `pyTruthy`.
-/

namespace LocalMinutes

/-! ## Python semantics helpers -/

/-- Truthiness of an optional Python string: `None` and `""` are falsy. -/
def pyTruthy : Option String → Bool
  | none => false
  | some s => !(s == "")

/-- Python `a or b` for an optional string `a` and default `b`. -/
def pyOrS : Option String → String → String
  | none, b => b
  | some s, b => if s == "" then b else s

/-- Lookup in an insertion-ordered association list (Python `dict.get`). -/
def alGet {α : Type} (l : List (String × α)) (k : String) : Option α :=
  (l.find? (fun p => p.1 == k)).map Prod.snd

/-- Python `dict[k] = v`: replace in place if the key exists, else append. -/
def alSet {α : Type} : List (String × α) → String → α → List (String × α)
  | [], k, v => [(k, v)]
  | p :: rest, k, v => if p.1 == k then (k, v) :: rest else p :: alSet rest k v

/-- Python `del dict[k]` (keys are unique in all reachable dicts). -/
def alDel {α : Type} : List (String × α) → String → List (String × α)
  | [], _ => []
  | p :: rest, k => if p.1 == k then rest else p :: alDel rest k

/-- `defaultdict(float)` accumulation: `d[k] += v`. -/
def alAdd (l : List (String × ℚ)) (k : String) (v : ℚ) : List (String × ℚ) :=
  alSet l k (((alGet l k).getD 0) + v)

/-- Python `max(items, key=value)`: the first item attaining the maximum. -/
def pyMaxBySnd {α : Type} : List (α × ℚ) → Option (α × ℚ)
  | [] => none
  | p :: rest =>
    match pyMaxBySnd rest with
    | none => some p
    | some q => if q.2 > p.2 then some q else some p

/-- One insertion step of a stable descending sort by value. -/
def insertDescBySnd {α : Type} (p : α × ℚ) : List (α × ℚ) → List (α × ℚ)
  | [] => [p]
  | q :: rest => if q.2 > p.2 then q :: insertDescBySnd p rest else p :: q :: rest

/-- Python `sorted(items, key=value, reverse=True)` (stable). -/
def sortDescBySnd {α : Type} : List (α × ℚ) → List (α × ℚ)
  | [] => []
  | p :: rest => insertDescBySnd p (sortDescBySnd rest)

/-- Python `round` on a rational: nearest integer, ties to even. -/
def pyRound (q : ℚ) : ℤ :=
  let f := ⌊q⌋
  let r := q - (f : ℚ)
  if r < 1/2 then f
  else if r > 1/2 then f + 1
  else if f % 2 = 0 then f else f + 1

/-- Sorted insertion keeping a single copy of each element. -/
def insertAscDedup (n : ℕ) : List ℕ → List ℕ
  | [] => [n]
  | m :: rest =>
    if m < n then m :: insertAscDedup n rest
    else if m = n then m :: rest
    else n :: m :: rest

/-- Python `sorted(set(l))` for natural-number labels. -/
def sortedUniq (l : List ℕ) : List ℕ := l.foldr insertAscDedup []

/-- `np.clip(x, lo, hi)`. -/
def clampQ (x lo hi : ℚ) : ℚ := min hi (max lo x)

/-- Ascending insertion sort on rationals (used by median / percentile). -/
def insertQ (x : ℚ) : List ℚ → List ℚ
  | [] => [x]
  | y :: rest => if y ≤ x then y :: insertQ x rest else x :: y :: rest

def qsortAsc (l : List ℚ) : List ℚ := l.foldr insertQ []

/-- `np.median`. -/
def npMedian (l : List ℚ) : ℚ :=
  let s := qsortAsc l
  let n := s.length
  if n = 0 then 0
  else if n % 2 = 1 then s.getD (n / 2) 0
  else (s.getD (n / 2 - 1) 0 + s.getD (n / 2) 0) / 2

/-- `np.percentile(l, 95)` with numpy's default linear interpolation. -/
def npPercentile95 (l : List ℚ) : ℚ :=
  let s := qsortAsc l
  let n := s.length
  if n = 0 then 0
  else
    let h : ℚ := ((n - 1 : ℕ) : ℚ) * (95/100)
    let lo := (⌊h⌋).toNat
    let frac := h - (⌊h⌋ : ℚ)
    let a := s.getD lo 0
    let b := s.getD (lo + 1) a
    a + frac * (b - a)

/-- Bounded-deque append (`collections.deque(maxlen=n)`): dropping the oldest
element once the bound is reached. -/
def dequePush {α : Type} (maxlen : ℕ) (l : List α) (x : α) : List α :=
  if maxlen = 0 then []
  else if l.length ≥ maxlen then l.tail ++ [x] else l ++ [x]

/-! ## The external embedding vector space

The numpy operations applied to embedding vectors.  `cos` models
`cosine(a, b)`, `l2` models `l2_norm(x)`, `mix a x b y` models the linear
combination `a*x + b*y`, and `dist` models the row-wise Euclidean norm
`np.linalg.norm(y - x)` used by `silhouette_like`.  The clusterer's control
flow consumes vectors only through these operations. -/
structure EmbOps (E : Type) where
  cos : E → E → ℚ
  l2 : E → E
  mix : ℚ → E → ℚ → E → E
  dist : E → E → ℚ

/-! ## VarKClustering (backend/diar/online_cluster.py) -/

/-- Configuration attributes of `VarKClustering.__init__` (environment
driven; the values below in `defaultClusterCfg` are the documented
defaults). -/
structure ClusterCfg where
  mode : String
  k_max : ℕ
  boot_sec : ℚ
  freeze_sec : ℚ
  min_short : ℚ
  min_switch : ℚ
  short_alt : ℚ
  short_delta : ℚ
  sim_base : ℚ
  soft_min : ℚ
  margin_strong : ℚ
  sticky_sec : ℚ
  ahc_thr : ℚ
  new_min_sec : ℚ
  new_cooldown : ℚ
  same_spk_sim : ℚ
  switch_delta : ℚ
  prune_sec : ℚ
  sr : ℕ
deriving DecidableEq

/-- The documented environment defaults of `VarKClustering.__init__`. -/
def defaultClusterCfg : ClusterCfg where
  mode := "auto"
  k_max := 3
  boot_sec := 35
  freeze_sec := 8
  min_short := 9/20
  min_switch := 3/5
  short_alt := 18/25
  short_delta := 2/25
  sim_base := 37/50
  soft_min := 31/50
  margin_strong := 1/10
  sticky_sec := 3
  ahc_thr := 41/50
  new_min_sec := 12/5
  new_cooldown := 6
  same_spk_sim := 199/200
  switch_delta := 3/2000
  prune_sec := 3
  sr := 16000

/-- Mutable attributes of a `VarKClustering` instance. -/
structure ClusterState (E : Type) where
  start_t : ℚ
  last_new_t : ℚ
  centroids : List (String × E)
  durations : List (String × ℚ)
  boot : List (ℚ × ℚ × E)
  last_spk : Option String
  streak_n : ℕ
  streak_dur : ℚ
  last_switch_ts : ℚ
deriving DecidableEq

/-- `VarKClustering.__init__` state (constructed at monotonic instant `t0`). -/
def initCluster {E : Type} (t0 : ℚ) : ClusterState E where
  start_t := t0
  last_new_t := t0
  centroids := []
  durations := []
  boot := []
  last_spk := none
  streak_n := 0
  streak_dur := 0
  last_switch_ts := t0

variable {E : Type}

/-- `VarKClustering._update_centroid`. -/
def updateCentroid (cfg : ClusterCfg) (ops : EmbOps E) (st : ClusterState E)
    (spk : String) (vec : E) (conf : ℚ) : ClusterState E :=
  let vec := ops.l2 vec
  match alGet st.centroids spk with
  | none => { st with centroids := alSet st.centroids spk vec }
  | some base =>
    let confTerm := max 0 (conf - cfg.soft_min)
    let alpha := (6/100 : ℚ) * max (1/4) (min 1 (confTerm / max (1/1000000) (1 - cfg.soft_min)))
    { st with centroids := alSet st.centroids spk (ops.l2 (ops.mix (1 - alpha) base alpha vec)) }

/-- One iteration of the `for spk, dur in list(self.durations.items())` loop of
`VarKClustering._prune_short_clusters`.  The `none` fallbacks are unreachable
in reachable states (Python would raise `KeyError`). -/
def pruneStep (cfg : ClusterCfg) (ops : EmbOps E) (keep : String)
    (st : ClusterState E) (item : String × ℚ) : ClusterState E :=
  if item.1 == keep || item.2 ≥ cfg.prune_sec then st
  else if st.centroids.length ≤ 1 then st
  else
    let candidates := st.centroids.filter (fun p => p.1 ≠ item.1)
    if candidates.isEmpty then st
    else
      match alGet st.centroids item.1 with
      | none => st
      | some sv =>
        match pyMaxBySnd (candidates.map (fun p => (p.1, ops.cos sv p.2))) with
        | none => st
        | some tgt =>
          match alGet st.centroids tgt.1 with
          | none => st
          | some tv =>
            { st with
              centroids := alDel (alSet st.centroids tgt.1 (ops.l2 (ops.mix 1 tv 1 sv))) item.1,
              durations := alDel st.durations item.1 }

/-- `VarKClustering._prune_short_clusters` (iterates over a snapshot of
`durations.items()` while mutating the live state). -/
def pruneShortClusters (cfg : ClusterCfg) (ops : EmbOps E)
    (st : ClusterState E) (keep : String) : ClusterState E :=
  if cfg.mode ≠ "auto" then st
  else st.durations.foldl (pruneStep cfg ops keep) st

/-- `np.where(labels == lab)[0][0]`: first index carrying the label. -/
def firstIdxWith (labels : List ℕ) (lab : ℕ) : ℕ := labels.findIdx (· = lab)

/-- The doubly-nested best-pair search of `ahc_cosine`: the first pair of
distinct labels (in sorted order) at strictly minimal `1 - cosine` distance. -/
def ahcBestPair [Inhabited E] (ops : EmbOps E) (embs : List E) (labels : List ℕ) :
    Option (ℕ × ℕ) :=
  let uniq := sortedUniq labels
  let pairs := (List.range uniq.length).flatMap (fun i =>
    match uniq.get? i with
    | none => []
    | some li => (uniq.drop (i + 1)).map (fun lj => (li, lj)))
  let best := pairs.foldl (fun (acc : Option (ℕ × ℕ) × ℚ) pr =>
    let i := firstIdxWith labels pr.1
    let j := firstIdxWith labels pr.2
    let d := 1 - ops.cos (embs.getD i default) (embs.getD j default)
    if d < acc.2 then (some pr, d) else acc) (none, 1000000000)
  best.1

/-- The merge loop of `ahc_cosine` (`while len(set(labels)) > k`); each merge
reduces the number of distinct labels, so `embs.length` steps of fuel
reproduce the unbounded Python loop.  The in-loop break can only fire when no
pair of distinct labels exists (the threshold conjunct is unreachable while
the distinct count still exceeds `k`). -/
def ahcMergeLoop [Inhabited E] (ops : EmbOps E) (embs : List E) (k : ℕ) :
    ℕ → List ℕ → List ℕ
  | 0, labels => labels
  | fuel + 1, labels =>
    if (sortedUniq labels).length ≤ k then labels
    else
      match ahcBestPair ops embs labels with
      | none => labels
      | some pr =>
        ahcMergeLoop ops embs k fuel (labels.map (fun l => if l = pr.2 then pr.1 else l))

/-- `ahc_cosine(embs, k, thr)`.  The `thr` parameter is kept for fidelity: in
the source it occurs only in a break conjunct that cannot fire inside the
loop. -/
def ahcCosine [Inhabited E] (ops : EmbOps E) (embs : List E) (k : ℕ) (_thr : ℚ) : List ℕ :=
  if embs.isEmpty then []
  else
    let labels := List.range embs.length
    let final := ahcMergeLoop ops embs k embs.length labels
    let uniq := sortedUniq final
    final.map (fun lab => uniq.findIdx (· = lab))

/-- `silhouette_like(embs, labels)`. -/
def silhouetteLike (ops : EmbOps E) (embs : List E) (labels : List ℕ) : ℚ :=
  let n := embs.length
  if n < 2 || (sortedUniq labels).length == 1 then -1
  else
    let items := embs.zip labels
    let acc := items.foldl (fun (acc : ℚ × ℕ) it =>
      let same := (items.filter (fun p => p.2 = it.2)).map Prod.fst
      if same.length ≤ 1 then acc
      else
        let a := (same.map (fun y => ops.dist y it.1)).sum / (same.length : ℚ)
        let b := (sortedUniq labels).foldl (fun b lj =>
          if lj = it.2 then b
          else
            let other := (items.filter (fun p => p.2 = lj)).map Prod.fst
            min b ((other.map (fun y => ops.dist y it.1)).sum / (other.length : ℚ)))
          1000000000
        (acc.1 + (b - a) / max a (max b (1/1000000000000)), acc.2 + 1)) (0, 0)
    acc.1 / (max (acc.2 : ℚ) 1)

/-- `sum` then scale: the mean vector of a nonempty member list. -/
def embMean [Inhabited E] (ops : EmbOps E) (l : List E) : E :=
  match l with
  | [] => default
  | x :: rest =>
    let s := rest.foldl (fun a y => ops.mix 1 a 1 y) x
    ops.mix (1 / (l.length : ℚ)) s 0 s

/-- `VarKClustering._bootstrap_if_needed` (the fresh `time.monotonic()` calls
inside it observe the same instant `now` as the enclosing `assign`). -/
def bootstrapIfNeeded [Inhabited E] (cfg : ClusterCfg) (ops : EmbOps E)
    (st : ClusterState E) (now : ℚ) : ClusterState E :=
  if cfg.mode ≠ "auto" then st
  else if !st.centroids.isEmpty || now - st.start_t < cfg.boot_sec then st
  else if st.boot.length < 6 then
    match st.boot with
    | [] => { st with boot := [] }
    | item :: _ => { st with centroids := [("S1", ops.l2 item.2.2)], boot := [] }
  else
    let embs := st.boot.map (fun item => item.2.2)
    let kRange := (List.range (min cfg.k_max embs.length)).map (· + 1)
    let best := kRange.foldl (fun (acc : ℚ × List ℕ × ℕ) k =>
      let labels := ahcCosine ops embs k cfg.ahc_thr
      let score := silhouetteLike ops embs labels
      if score > acc.1 then (score, labels, (sortedUniq labels).length) else acc)
      (-1, List.replicate embs.length 0, 1)
    let seeded := (List.range best.2.2).foldl (fun cent idx =>
      let members := ((embs.zip best.2.1).filter (fun p => p.2 = idx)).map Prod.fst
      if members.isEmpty then cent
      else alSet cent ("S" ++ toString (cent.length + 1)) (ops.l2 (embMean ops members))) []
    { st with centroids := seeded, boot := [], last_new_t := now }

/-- `VarKClustering._can_make_new`. -/
def canMakeNew (cfg : ClusterCfg) (st : ClusterState E) (now : ℚ) : Bool :=
  if cfg.mode == "fixed2" then st.centroids.length < 2
  else if cfg.mode == "fixedk" then st.centroids.length < cfg.k_max
  else if cfg.mode == "auto" then
    if st.centroids.length ≥ cfg.k_max then false
    else if now - st.start_t < cfg.freeze_sec then false
    else if now - st.last_new_t < cfg.new_cooldown then false
    else true
  else false

/-- One call of `VarKClustering.assign`.  `wavLen` is `wav.size`; `emb` is the
embedding backend's answer for this window before normalization (`none`
models a raised exception, a missing vector or a non-finite vector inside
`_embed_wav`). -/
structure AssignInput (E : Type) where
  wavLen : ℕ
  startTs : Option ℚ
  endTs : Option ℚ
  emb : Option E
deriving DecidableEq

/-- `VarKClustering._embed_wav`: `none` on empty audio or backend
unavailability, otherwise the L2-normalized vector. -/
def embedWav (ops : EmbOps E) (inp : AssignInput E) : Option E :=
  if inp.wavLen = 0 then none else inp.emb.map ops.l2

/-- The `duration` computed at the top of `assign`. -/
def assignDuration (cfg : ClusterCfg) (inp : AssignInput E) : ℚ :=
  match inp.startTs, inp.endTs with
  | some s, some e =>
    let d := max 0 (e - s)
    if d ≤ 0 then (inp.wavLen : ℚ) / (cfg.sr : ℚ) else d
  | _, _ => (inp.wavLen : ℚ) / (cfg.sr : ℚ)

/-- The similarity dict `{spk: cosine(vec, c) for spk, c in centroids}`. -/
def simsOf (ops : EmbOps E) (st : ClusterState E) (vec : E) : List (String × ℚ) :=
  st.centroids.map (fun p => (p.1, ops.cos vec p.2))

/-- `best = max(sims, key=sims.get)` together with its similarity. -/
def bestPairOf (ops : EmbOps E) (st : ClusterState E) (vec : E) : String × ℚ :=
  (pyMaxBySnd (simsOf ops st vec)).getD ("S1", -1)

def bestLabelOf (ops : EmbOps E) (st : ClusterState E) (vec : E) : String :=
  (bestPairOf ops st vec).1

def bestSimOf (ops : EmbOps E) (st : ClusterState E) (vec : E) : ℚ :=
  (bestPairOf ops st vec).2

/-- `second = sorted_sims[1][1] if len(sorted_sims) > 1 else -1.0`. -/
def secondSimOf (ops : EmbOps E) (st : ClusterState E) (vec : E) : ℚ :=
  match (sortDescBySnd (simsOf ops st vec)).get? 1 with
  | some p => p.2
  | none => -1

def marginOf (ops : EmbOps E) (st : ClusterState E) (vec : E) : ℚ :=
  bestSimOf ops st vec - secondSimOf ops st vec

/-- `last_sim = sims.get(last, -1.0) if last else -1.0`. -/
def lastSimOf (ops : EmbOps E) (st : ClusterState E) (vec : E) : ℚ :=
  match st.last_spk with
  | none => -1
  | some l => if l = "" then -1 else ((alGet (simsOf ops st vec) l).getD (-1))

/-- `self.boot.append(...)` on a `deque(maxlen=512)`. -/
def pushBoot (l : List (ℚ × ℚ × E)) (x : ℚ × ℚ × E) : List (ℚ × ℚ × E) :=
  dequePush 512 l x

/-- The shared merge tail of the short, switch-guard and steady branches of
`assign`: EMA-update the chosen centroid, accumulate its attributed
duration, make it the active label, and refresh the switch timestamp when
the label changed (`if chosen != last`). -/
def mergeOnto (cfg : ClusterCfg) (ops : EmbOps E) (st : ClusterState E)
    (chosen : String) (vec : E) (conf duration now : ℚ) : ClusterState E :=
  let st1 := updateCentroid cfg ops st chosen vec conf
  let st2 := { st1 with durations := alAdd st1.durations chosen duration,
                        last_spk := some chosen }
  if st.last_spk ≠ some chosen then { st2 with last_switch_ts := now } else st2

/-- The steady-state part of `VarKClustering.assign` (everything after the
`if not self.centroids` initial-cluster branch; only entered with at least
one cluster). -/
def assignSteady [Inhabited E] (cfg : ClusterCfg) (ops : EmbOps E) (st : ClusterState E)
    (vec : E) (duration now : ℚ) : String × ClusterState E :=
  let best := bestLabelOf ops st vec
  let best_sim := bestSimOf ops st vec
  let margin := marginOf ops st vec
  let last := st.last_spk
  let last_sim := lastSimOf ops st vec
  if duration < cfg.min_short then
    let chosen :=
      match last with
      | none => best
      | some l =>
        if l = "" then best
        else if best ≠ l ∧ best_sim ≥ cfg.short_alt ∧ best_sim - last_sim ≥ cfg.short_delta
        then best else l
    (chosen, mergeOnto cfg ops st chosen vec best_sim duration now)
  else if duration < cfg.min_switch ∧ pyTruthy last then
    let chosen :=
      if best_sim ≥ max cfg.sim_base cfg.short_alt ∧ best_sim - last_sim ≥ cfg.short_delta
      then best else last.getD ""
    (chosen, mergeOnto cfg ops st chosen vec best_sim duration now)
  else
    let since_switch := now - st.last_switch_ts
    let chosen :=
      match last with
      | none => best
      | some l =>
        if l = "" then best
        else if best = l then best
        else if best_sim ≥ cfg.same_spk_sim ∧ last_sim ≥ cfg.same_spk_sim then l
        else if best_sim - last_sim < cfg.switch_delta ∨ margin < cfg.switch_delta then
          (if since_switch < cfg.sticky_sec then l else best)
        else if since_switch < cfg.sticky_sec then l
        else best
    let st := { st with streak_n := 0, streak_dur := 0 }
    let dur_gate := duration ≥ cfg.new_min_sec
    let cooldown_ok := now - st.last_new_t ≥ cfg.new_cooldown
    let can_new := canMakeNew cfg st now ∧ dur_gate ∧ cooldown_ok
    let sim_gate := best_sim < cfg.same_spk_sim
    let margin_gate := margin ≥ cfg.margin_strong ∨ st.centroids.length < 2
    if can_new ∧ sim_gate ∧ margin_gate then
      let newName := "S" ++ toString (st.centroids.length + 1)
      (newName, { st with
        centroids := alSet st.centroids newName vec,
        durations := alSet st.durations newName duration,
        last_spk := some newName,
        last_new_t := now,
        last_switch_ts := now })
    else
      (chosen, pruneShortClusters cfg ops
        (mergeOnto cfg ops st chosen vec best_sim duration now) chosen)

/-- `VarKClustering.assign(wav, start_ts, end_ts)` at monotonic instant
`now`, returning the resolved label and the successor state. -/
def assign [Inhabited E] (cfg : ClusterCfg) (ops : EmbOps E) (st : ClusterState E)
    (inp : AssignInput E) (now : ℚ) : String × ClusterState E :=
  if inp.wavLen = 0 then (pyOrS st.last_spk "S1", st)
  else
    let duration := assignDuration cfg inp
    match embedWav ops inp with
    | none => (pyOrS st.last_spk "S1", st)
    | some vec =>
      let st :=
        if cfg.mode == "auto" && st.centroids.isEmpty then
          let st := { st with boot := pushBoot st.boot (inp.startTs.getD 0, inp.endTs.getD 0, vec) }
          if now - st.start_t ≥ cfg.boot_sec then bootstrapIfNeeded cfg ops st now else st
        else st
      if st.centroids.isEmpty then
        ("S1", { st with
          centroids := alSet st.centroids "S1" vec,
          durations := alAdd st.durations "S1" duration,
          last_spk := some "S1",
          last_switch_ts := now })
      else assignSteady cfg ops st vec duration now

/-- A sequence of `assign` calls (each with its observed monotonic instant). -/
def runAssign [Inhabited E] (cfg : ClusterCfg) (ops : EmbOps E) :
    ClusterState E → List (AssignInput E × ℚ) → ClusterState E
  | st, [] => st
  | st, (inp, now) :: rest => runAssign cfg ops (assign cfg ops st inp now).2 rest

/-! ## Association-list lemmas -/

/-- The key list of an association list. -/
def keysOf {α : Type} (l : List (String × α)) : List String := l.map Prod.fst

theorem length_alSet_le {α : Type} (l : List (String × α)) (k : String) (v : α) :
    (alSet l k v).length ≤ l.length + 1 := by
  induction l with
  | nil => simp [alSet]
  | cons p rest ih =>
    by_cases h : p.1 == k
    · simp [alSet, h]
    · simp only [alSet, h, Bool.false_eq_true, if_false, List.length_cons]
      omega

theorem mem_keys_alSet {α : Type} (l : List (String × α)) (k : String) (v : α) (x : String) :
    x ∈ keysOf (alSet l k v) ↔ x = k ∨ x ∈ keysOf l := by
  induction l with
  | nil => simp [alSet, keysOf]
  | cons p rest ih =>
    simp only [alSet]
    by_cases h : p.1 == k
    · have hk : p.1 = k := by simpa using h
      rw [if_pos h]
      simp only [keysOf, List.map_cons, List.mem_cons]
      rw [hk]
      tauto
    · rw [if_neg h]
      simp only [keysOf, List.map_cons, List.mem_cons] at ih ⊢
      rw [ih]
      tauto

theorem length_alSet_of_mem {α : Type} (l : List (String × α)) (k : String) (v : α)
    (h : k ∈ keysOf l) : (alSet l k v).length = l.length := by
  induction l with
  | nil => simp [keysOf] at h
  | cons p rest ih =>
    by_cases hp : p.1 == k
    · simp [alSet, hp]
    · have hp' : p.1 ≠ k := by simpa using hp
      have hk : k ∈ keysOf rest := by
        simp only [keysOf, List.map_cons, List.mem_cons] at h
        rcases h with h | h
        · exact absurd h.symm hp'
        · exact h
      simp only [alSet, hp, Bool.false_eq_true, if_false, List.length_cons, ih hk]

theorem alSet_ne_nil {α : Type} (l : List (String × α)) (k : String) (v : α) :
    alSet l k v ≠ [] := by
  cases l with
  | nil => simp [alSet]
  | cons p rest =>
    by_cases h : p.1 == k <;> simp [alSet, h]

theorem length_alDel_le {α : Type} (l : List (String × α)) (k : String) :
    (alDel l k).length ≤ l.length := by
  induction l with
  | nil => simp [alDel]
  | cons p rest ih =>
    by_cases h : p.1 == k
    · simp only [alDel, h, if_true, List.length_cons]
      omega
    · simp only [alDel, h, Bool.false_eq_true, if_false, List.length_cons]
      omega

theorem length_alDel_ge {α : Type} (l : List (String × α)) (k : String) :
    l.length - 1 ≤ (alDel l k).length := by
  induction l with
  | nil => simp [alDel]
  | cons p rest ih =>
    by_cases h : p.1 == k
    · simp only [alDel, h, if_true, List.length_cons]
      omega
    · simp only [alDel, h, Bool.false_eq_true, if_false, List.length_cons]
      omega

theorem mem_keys_alDel_of_ne {α : Type} (l : List (String × α)) (k x : String)
    (hx : x ∈ keysOf l) (hne : x ≠ k) : x ∈ keysOf (alDel l k) := by
  induction l with
  | nil => simp [keysOf] at hx
  | cons p rest ih =>
    simp only [keysOf, List.map_cons, List.mem_cons] at hx
    by_cases h : p.1 == k
    · simp only [alDel, h, if_true]
      rcases hx with rfl | hx
      · exact absurd (by simpa using h) hne
      · exact hx
    · simp only [alDel, h, Bool.false_eq_true, if_false, keysOf, List.map_cons, List.mem_cons]
      rcases hx with rfl | hx
      · exact Or.inl rfl
      · exact Or.inr (ih hx)

theorem alGet_eq_none_of_not_mem {α : Type} (l : List (String × α)) (k : String)
    (h : k ∉ keysOf l) : alGet l k = none := by
  induction l with
  | nil => simp [alGet]
  | cons p rest ih =>
    simp only [keysOf, List.map_cons, List.mem_cons, not_or] at h
    have hp : (p.1 == k) = false := by
      simp only [beq_eq_false_iff_ne, ne_eq]
      exact fun hc => h.1 (hc ▸ rfl)
    simp only [alGet, List.find?] at ih ⊢
    rw [hp]
    exact ih h.2

theorem mem_keys_of_alGet_isSome {α : Type} (l : List (String × α)) (k : String)
    (h : (alGet l k).isSome) : k ∈ keysOf l := by
  by_contra hc
  rw [alGet_eq_none_of_not_mem l k hc] at h
  simp at h

theorem pyMaxBySnd_mem {α : Type} : ∀ (l : List (α × ℚ)) (p : α × ℚ),
    pyMaxBySnd l = some p → p ∈ l
  | [], p, h => by simp [pyMaxBySnd] at h
  | q :: rest, p, h => by
    unfold pyMaxBySnd at h
    cases hr : pyMaxBySnd rest with
    | none =>
      rw [hr] at h
      dsimp only at h
      injection h with h
      exact h ▸ List.mem_cons_self q rest
    | some r =>
      rw [hr] at h
      dsimp only at h
      by_cases hc : r.2 > q.2
      · rw [if_pos hc] at h
        injection h with h
        exact h ▸ List.mem_cons_of_mem q (pyMaxBySnd_mem rest r hr)
      · rw [if_neg hc] at h
        injection h with h
        exact h ▸ List.mem_cons_self q rest

theorem pyMaxBySnd_isSome {α : Type} (l : List (α × ℚ)) (h : l ≠ []) :
    (pyMaxBySnd l).isSome := by
  cases l with
  | nil => exact absurd rfl h
  | cons q rest =>
    simp only [pyMaxBySnd]
    cases pyMaxBySnd rest with
    | none => simp
    | some r =>
      by_cases hc : r.2 > q.2 <;> simp [hc]

/-! ## Clusterer invariant (reachable states) -/

/-- Invariant of all states of `VarKClustering` reachable (in `auto` mode)
from the freshly constructed state:
the cluster count stays within `k_max`, the most recently assigned label
always denotes an existing cluster, and while no cluster exists yet the
bootstrap buffer holds at most the current call's sample (the code creates
the first cluster in the very call that buffers the first embedding). -/
def ClusterInv (cfg : ClusterCfg) (st : ClusterState E) : Prop :=
  st.centroids.length ≤ cfg.k_max ∧
  (∀ l, st.last_spk = some l → l ≠ "" → l ∈ keysOf st.centroids) ∧
  (st.centroids = [] → st.boot = [] ∧ st.last_spk = none)

theorem bestLabel_mem (ops : EmbOps E) (st : ClusterState E) (vec : E)
    (h : st.centroids ≠ []) : bestLabelOf ops st vec ∈ keysOf st.centroids := by
  have hs : simsOf ops st vec ≠ [] := by
    simp only [simsOf, ne_eq, List.map_eq_nil_iff]
    exact h
  obtain ⟨p, hp⟩ := Option.isSome_iff_exists.mp (pyMaxBySnd_isSome _ hs)
  have hmem := pyMaxBySnd_mem _ _ hp
  simp only [bestLabelOf, bestPairOf, hp, Option.getD_some]
  simp only [simsOf, List.mem_map] at hmem
  obtain ⟨q, hq, hqe⟩ := hmem
  simp only [keysOf, List.mem_map]
  exact ⟨q, hq, by rw [← hqe]⟩

theorem alGet_isSome_of_mem {α : Type} (l : List (String × α)) (k : String)
    (h : k ∈ keysOf l) : (alGet l k).isSome := by
  induction l with
  | nil => simp [keysOf] at h
  | cons p rest ih =>
    simp only [keysOf, List.map_cons, List.mem_cons] at h
    by_cases hp : p.1 == k
    · simp [alGet, List.find?, hp]
    · rcases h with rfl | h
      · simp at hp
      · simp only [alGet, List.find?, hp] at ih ⊢
        exact ih h

/-- On an existing key, `_update_centroid` only replaces the stored centroid:
the cluster count, key set and all other fields are unchanged. -/
theorem updateCentroid_keys (cfg : ClusterCfg) (ops : EmbOps E) (st : ClusterState E)
    (spk : String) (vec : E) (conf : ℚ) (h : spk ∈ keysOf st.centroids) :
    (updateCentroid cfg ops st spk vec conf).centroids.length = st.centroids.length ∧
    (∀ x, x ∈ keysOf (updateCentroid cfg ops st spk vec conf).centroids ↔
      x ∈ keysOf st.centroids) ∧
    (updateCentroid cfg ops st spk vec conf).last_spk = st.last_spk ∧
    (updateCentroid cfg ops st spk vec conf).durations = st.durations := by
  obtain ⟨base, hbase⟩ := Option.isSome_iff_exists.mp (alGet_isSome_of_mem _ _ h)
  unfold updateCentroid
  rw [hbase]
  refine ⟨length_alSet_of_mem _ _ _ h, fun x => ?_, rfl, rfl⟩
  rw [mem_keys_alSet]
  constructor
  · rintro (rfl | hx)
    · exact h
    · exact hx
  · exact Or.inr

/-- One prune iteration never renames the active label, never increases the
cluster count, never empties the cluster set, and keeps the `keep` cluster. -/
theorem pruneStep_props (cfg : ClusterCfg) (ops : EmbOps E) (keep : String)
    (st : ClusterState E) (item : String × ℚ) :
    (pruneStep cfg ops keep st item).last_spk = st.last_spk ∧
    (pruneStep cfg ops keep st item).centroids.length ≤ st.centroids.length ∧
    (1 ≤ st.centroids.length → 1 ≤ (pruneStep cfg ops keep st item).centroids.length) ∧
    (keep ∈ keysOf st.centroids → keep ∈ keysOf (pruneStep cfg ops keep st item).centroids) := by
  unfold pruneStep
  split
  · exact ⟨rfl, le_refl _, fun h => h, fun h => h⟩
  · rename_i h1
    split
    · exact ⟨rfl, le_refl _, fun h => h, fun h => h⟩
    · rename_i h2
      dsimp only
      split
      · exact ⟨rfl, le_refl _, fun h => h, fun h => h⟩
      · rename_i h3
        split
        · exact ⟨rfl, le_refl _, fun h => h, fun h => h⟩
        · rename_i sv hsv
          split
          · exact ⟨rfl, le_refl _, fun h => h, fun h => h⟩
          · rename_i tgt htgt
            split
            · exact ⟨rfl, le_refl _, fun h => h, fun h => h⟩
            · rename_i tv htv
              have htgtmem : tgt.1 ∈ keysOf st.centroids := by
                have hmem := pyMaxBySnd_mem _ _ htgt
                simp only [List.mem_map] at hmem
                obtain ⟨q, hq, hqe⟩ := hmem
                have hq' : q ∈ st.centroids := List.mem_of_mem_filter hq
                simp only [keysOf, List.mem_map]
                exact ⟨q, hq', by rw [← hqe]⟩
              have hitem : item.1 ≠ keep := by
                intro hc
                apply h1
                simp [hc]
              have hlen2 : 2 ≤ st.centroids.length := by omega
              have hsetlen := length_alSet_of_mem st.centroids tgt.1
                (ops.l2 (ops.mix 1 tv 1 sv)) htgtmem
              refine ⟨rfl, ?_, ?_, ?_⟩
              · calc (alDel (alSet st.centroids tgt.1 (ops.l2 (ops.mix 1 tv 1 sv))) item.1).length
                    ≤ (alSet st.centroids tgt.1 (ops.l2 (ops.mix 1 tv 1 sv))).length :=
                      length_alDel_le _ _
                  _ = st.centroids.length := hsetlen
              · intro _
                have hge := length_alDel_ge
                  (alSet st.centroids tgt.1 (ops.l2 (ops.mix 1 tv 1 sv))) item.1
                rw [hsetlen] at hge
                have h1le : 1 ≤ st.centroids.length - 1 := by omega
                exact le_trans h1le hge
              · intro hkeep
                apply mem_keys_alDel_of_ne
                · rw [mem_keys_alSet]
                  exact Or.inr hkeep
                · exact fun hc => hitem hc.symm

/-- The prune pass (a fold of `pruneStep` over the durations snapshot)
inherits the per-step properties. -/
theorem pruneFold_props (cfg : ClusterCfg) (ops : EmbOps E) (keep : String) :
    ∀ (snapshot : List (String × ℚ)) (st : ClusterState E),
    (snapshot.foldl (pruneStep cfg ops keep) st).last_spk = st.last_spk ∧
    (snapshot.foldl (pruneStep cfg ops keep) st).centroids.length ≤ st.centroids.length ∧
    (1 ≤ st.centroids.length →
      1 ≤ (snapshot.foldl (pruneStep cfg ops keep) st).centroids.length) ∧
    (keep ∈ keysOf st.centroids →
      keep ∈ keysOf (snapshot.foldl (pruneStep cfg ops keep) st).centroids)
  | [], st => ⟨rfl, le_refl _, fun h => h, fun h => h⟩
  | item :: rest, st => by
    obtain ⟨s1, s2, s3, s4⟩ := pruneStep_props cfg ops keep st item
    obtain ⟨r1, r2, r3, r4⟩ := pruneFold_props cfg ops keep rest (pruneStep cfg ops keep st item)
    refine ⟨?_, ?_, ?_, ?_⟩
    · simpa [s1] using r1
    · exact le_trans r2 s2
    · intro h
      exact r3 (s3 h)
    · intro h
      exact r4 (s4 h)

theorem pruneShortClusters_props (cfg : ClusterCfg) (ops : EmbOps E)
    (st : ClusterState E) (keep : String) :
    (pruneShortClusters cfg ops st keep).last_spk = st.last_spk ∧
    (pruneShortClusters cfg ops st keep).centroids.length ≤ st.centroids.length ∧
    (1 ≤ st.centroids.length → 1 ≤ (pruneShortClusters cfg ops st keep).centroids.length) ∧
    (keep ∈ keysOf st.centroids → keep ∈ keysOf (pruneShortClusters cfg ops st keep).centroids) := by
  unfold pruneShortClusters
  split
  · exact ⟨rfl, le_refl _, fun h => h, fun h => h⟩
  · exact pruneFold_props cfg ops keep st.durations st

/-- Field characterization of `mergeOnto` on an existing key. -/
theorem mergeOnto_props (cfg : ClusterCfg) (ops : EmbOps E) (st : ClusterState E)
    (chosen : String) (vec : E) (conf duration now : ℚ)
    (hmem : chosen ∈ keysOf st.centroids) :
    (mergeOnto cfg ops st chosen vec conf duration now).centroids.length =
      st.centroids.length ∧
    (∀ x, x ∈ keysOf (mergeOnto cfg ops st chosen vec conf duration now).centroids ↔
      x ∈ keysOf st.centroids) ∧
    (mergeOnto cfg ops st chosen vec conf duration now).last_spk = some chosen := by
  obtain ⟨h1, h2, _, _⟩ := updateCentroid_keys cfg ops st chosen vec conf hmem
  unfold mergeOnto
  by_cases hif : st.last_spk ≠ some chosen
  · rw [if_pos hif]
    exact ⟨h1, h2, rfl⟩
  · rw [if_neg hif]
    exact ⟨h1, h2, rfl⟩

/-- `ClusterInv` is preserved by `mergeOnto` onto an existing cluster. -/
theorem mergeOnto_inv (cfg : ClusterCfg) (ops : EmbOps E) (st : ClusterState E)
    (chosen : String) (vec : E) (conf duration now : ℚ)
    (hmem : chosen ∈ keysOf st.centroids) (hlen : st.centroids.length ≤ cfg.k_max)
    (hne : st.centroids ≠ []) :
    ClusterInv cfg (mergeOnto cfg ops st chosen vec conf duration now) ∧
    (mergeOnto cfg ops st chosen vec conf duration now).centroids ≠ [] := by
  obtain ⟨h1, h2, h3⟩ := mergeOnto_props cfg ops st chosen vec conf duration now hmem
  have hpos : 0 < st.centroids.length := List.length_pos.mpr hne
  have hne2 : (mergeOnto cfg ops st chosen vec conf duration now).centroids ≠ [] := by
    intro hc
    rw [hc] at h1
    simp at h1
    omega
  refine ⟨⟨?_, ?_, ?_⟩, hne2⟩
  · rw [h1]; exact hlen
  · intro l hl _
    rw [h3] at hl
    injection hl with hl
    rw [h2, ← hl]
    exact hmem
  · intro hc
    exact absurd hc hne2

/-- The prune pass after `mergeOnto` also preserves the invariant. -/
theorem mergePrune_inv (cfg : ClusterCfg) (ops : EmbOps E) (st : ClusterState E)
    (chosen : String) (vec : E) (conf duration now : ℚ)
    (hmem : chosen ∈ keysOf st.centroids) (hlen : st.centroids.length ≤ cfg.k_max)
    (hne : st.centroids ≠ []) :
    ClusterInv cfg (pruneShortClusters cfg ops
      (mergeOnto cfg ops st chosen vec conf duration now) chosen) ∧
    (pruneShortClusters cfg ops
      (mergeOnto cfg ops st chosen vec conf duration now) chosen).centroids ≠ [] := by
  obtain ⟨h1, h2, h3⟩ := mergeOnto_props cfg ops st chosen vec conf duration now hmem
  obtain ⟨p1, p2, p3, p4⟩ := pruneShortClusters_props cfg ops
    (mergeOnto cfg ops st chosen vec conf duration now) chosen
  have hpos : 0 < st.centroids.length := List.length_pos.mpr hne
  have hpos2 : 1 ≤ (pruneShortClusters cfg ops
      (mergeOnto cfg ops st chosen vec conf duration now) chosen).centroids.length := by
    apply p3
    omega
  have hne2 : (pruneShortClusters cfg ops
      (mergeOnto cfg ops st chosen vec conf duration now) chosen).centroids ≠ [] := by
    intro hc
    rw [hc] at hpos2
    simp at hpos2
  refine ⟨⟨?_, ?_, ?_⟩, hne2⟩
  · omega
  · intro l hl _
    rw [p1, h3] at hl
    injection hl with hl
    subst hl
    exact p4 ((h2 chosen).mpr hmem)
  · intro hc
    exact absurd hc hne2

/-- In `auto` mode a positive `_can_make_new` verdict certifies the cluster
cap, the post-start freeze window and the new-speaker cooldown. -/
theorem canMakeNew_auto (cfg : ClusterCfg) (st : ClusterState E) (now : ℚ)
    (hmode : cfg.mode = "auto") (h : canMakeNew cfg st now = true) :
    st.centroids.length < cfg.k_max ∧ cfg.freeze_sec ≤ now - st.start_t ∧
    cfg.new_cooldown ≤ now - st.last_new_t := by
  unfold canMakeNew at h
  rw [hmode] at h
  simp only [show (("auto" : String) == "fixed2") = false by decide,
    show (("auto" : String) == "fixedk") = false by decide,
    show (("auto" : String) == "auto") = true by decide,
    Bool.false_eq_true, if_false, if_true] at h
  by_cases h1 : st.centroids.length ≥ cfg.k_max
  · rw [if_pos h1] at h
    simp at h
  · rw [if_neg h1] at h
    by_cases h2 : now - st.start_t < cfg.freeze_sec
    · rw [if_pos h2] at h
      simp at h
    · rw [if_neg h2] at h
      by_cases h3 : now - st.last_new_t < cfg.new_cooldown
      · rw [if_pos h3] at h
        simp at h
      · exact ⟨by omega, le_of_not_lt h2, le_of_not_lt h3⟩

/-- The steady-state branch preserves the invariant (mode `auto`). -/
theorem assignSteady_inv [Inhabited E] (cfg : ClusterCfg) (ops : EmbOps E)
    (st : ClusterState E) (vec : E) (duration now : ℚ)
    (hne : st.centroids ≠ []) (hlen : st.centroids.length ≤ cfg.k_max)
    (hlast : ∀ l, st.last_spk = some l → l ≠ "" → l ∈ keysOf st.centroids)
    (hmode : cfg.mode = "auto") :
    ClusterInv cfg (assignSteady cfg ops st vec duration now).2 ∧
    (assignSteady cfg ops st vec duration now).2.centroids ≠ [] := by
  have hbest : bestLabelOf ops st vec ∈ keysOf st.centroids := bestLabel_mem ops st vec hne
  unfold assignSteady
  by_cases hshort : duration < cfg.min_short
  · rw [if_pos hshort]
    dsimp only
    have hchosen : (match st.last_spk with
        | none => bestLabelOf ops st vec
        | some l =>
          if l = "" then bestLabelOf ops st vec
          else if bestLabelOf ops st vec ≠ l ∧ bestSimOf ops st vec ≥ cfg.short_alt ∧
              bestSimOf ops st vec - lastSimOf ops st vec ≥ cfg.short_delta
          then bestLabelOf ops st vec else l) ∈ keysOf st.centroids := by
      cases hl : st.last_spk with
      | none => exact hbest
      | some l =>
        dsimp only
        by_cases he : l = ""
        · rw [if_pos he]
          exact hbest
        · rw [if_neg he]
          by_cases hc : bestLabelOf ops st vec ≠ l ∧ bestSimOf ops st vec ≥ cfg.short_alt ∧
              bestSimOf ops st vec - lastSimOf ops st vec ≥ cfg.short_delta
          · rw [if_pos hc]
            exact hbest
          · rw [if_neg hc]
            exact hlast l hl he
    exact mergeOnto_inv cfg ops st _ vec _ duration now hchosen hlen hne
  · rw [if_neg hshort]
    by_cases hswitch : duration < cfg.min_switch ∧ pyTruthy st.last_spk
    · rw [if_pos hswitch]
      dsimp only
      have hchosen : (if bestSimOf ops st vec ≥ max cfg.sim_base cfg.short_alt ∧
          bestSimOf ops st vec - lastSimOf ops st vec ≥ cfg.short_delta
          then bestLabelOf ops st vec else st.last_spk.getD "") ∈ keysOf st.centroids := by
        by_cases hc : bestSimOf ops st vec ≥ max cfg.sim_base cfg.short_alt ∧
            bestSimOf ops st vec - lastSimOf ops st vec ≥ cfg.short_delta
        · rw [if_pos hc]
          exact hbest
        · rw [if_neg hc]
          cases hl : st.last_spk with
          | none => rw [hl] at hswitch; simp [pyTruthy] at hswitch
          | some l =>
            have hle : l ≠ "" := by
              rw [hl] at hswitch
              simpa [pyTruthy] using hswitch.2
            simpa using hlast l hl hle
      exact mergeOnto_inv cfg ops st _ vec _ duration now hchosen hlen hne
    · rw [if_neg hswitch]
      dsimp only
      set stR : ClusterState E :=
        { st with streak_n := 0, streak_dur := 0 } with hstR
      have hRcent : stR.centroids = st.centroids := rfl
      have hRlast : stR.last_spk = st.last_spk := rfl
      have hRnew : stR.last_new_t = st.last_new_t := rfl
      have hchosen : (match st.last_spk with
          | none => bestLabelOf ops st vec
          | some l =>
            if l = "" then bestLabelOf ops st vec
            else if bestLabelOf ops st vec = l then bestLabelOf ops st vec
            else if bestSimOf ops st vec ≥ cfg.same_spk_sim ∧
                lastSimOf ops st vec ≥ cfg.same_spk_sim then l
            else if bestSimOf ops st vec - lastSimOf ops st vec < cfg.switch_delta ∨
                marginOf ops st vec < cfg.switch_delta then
              (if now - st.last_switch_ts < cfg.sticky_sec then l else bestLabelOf ops st vec)
            else if now - st.last_switch_ts < cfg.sticky_sec then l
            else bestLabelOf ops st vec) ∈ keysOf st.centroids := by
        cases hl : st.last_spk with
        | none => exact hbest
        | some l =>
          dsimp only
          by_cases he : l = ""
          · rw [if_pos he]; exact hbest
          · rw [if_neg he]
            have hlm : l ∈ keysOf st.centroids := hlast l hl he
            by_cases h1 : bestLabelOf ops st vec = l
            · rw [if_pos h1]; exact hbest
            · rw [if_neg h1]
              by_cases h2 : bestSimOf ops st vec ≥ cfg.same_spk_sim ∧
                  lastSimOf ops st vec ≥ cfg.same_spk_sim
              · rw [if_pos h2]; exact hlm
              · rw [if_neg h2]
                by_cases h3 : bestSimOf ops st vec - lastSimOf ops st vec < cfg.switch_delta ∨
                    marginOf ops st vec < cfg.switch_delta
                · rw [if_pos h3]
                  by_cases h4 : now - st.last_switch_ts < cfg.sticky_sec
                  · rw [if_pos h4]; exact hlm
                  · rw [if_neg h4]; exact hbest
                · rw [if_neg h3]
                  by_cases h4 : now - st.last_switch_ts < cfg.sticky_sec
                  · rw [if_pos h4]; exact hlm
                  · rw [if_neg h4]; exact hbest
      by_cases hnew : (canMakeNew cfg stR now ∧ duration ≥ cfg.new_min_sec ∧
          now - stR.last_new_t ≥ cfg.new_cooldown) ∧ bestSimOf ops st vec < cfg.same_spk_sim ∧
          (marginOf ops st vec ≥ cfg.margin_strong ∨ stR.centroids.length < 2)
      · rw [if_pos hnew]
        obtain ⟨hlt, _, _⟩ := canMakeNew_auto cfg stR now hmode (by
          have := hnew.1.1
          simpa using this)
        rw [hRcent] at hlt
        have hlen2 := length_alSet_le st.centroids
          ("S" ++ toString (st.centroids.length + 1)) vec
        refine ⟨⟨?_, ?_, ?_⟩, ?_⟩
        · simpa using by omega
        · intro l hl _
          injection hl with hl
          subst hl
          simpa using (mem_keys_alSet st.centroids _ vec _).mpr (Or.inl rfl)
        · intro hc
          exact absurd hc (by simpa using alSet_ne_nil st.centroids _ vec)
        · simpa using alSet_ne_nil st.centroids _ vec
      · rw [if_neg hnew]
        exact mergePrune_inv cfg ops stR _ vec _ duration now hchosen hlen hne

/-- When the bootstrap expires with a single buffered sample (fewer than the
minimum 6), exactly one cluster is seeded from it. -/
theorem bootstrap_single [Inhabited E] (cfg : ClusterCfg) (ops : EmbOps E)
    (st : ClusterState E) (now : ℚ) (x : ℚ × ℚ × E)
    (hmode : cfg.mode = "auto") (hc : st.centroids = []) (hb : st.boot = [x])
    (helapsed : ¬(now - st.start_t < cfg.boot_sec)) :
    bootstrapIfNeeded cfg ops st now =
      { st with centroids := [("S1", ops.l2 x.2.2)], boot := [] } := by
  unfold bootstrapIfNeeded
  rw [if_neg (by simp [hmode])]
  rw [if_neg (by simp [hc, helapsed])]
  rw [if_pos (by rw [hb]; norm_num)]
  rw [hb]

/-- `assign` on empty audio or an unavailable embedding returns the fallback
label and leaves the whole state unchanged. -/
theorem assign_unavailable [Inhabited E] (cfg : ClusterCfg) (ops : EmbOps E)
    (st : ClusterState E) (inp : AssignInput E) (now : ℚ)
    (h : inp.wavLen = 0 ∨ inp.emb = none) :
    assign cfg ops st inp now = (pyOrS st.last_spk "S1", st) := by
  unfold assign
  by_cases hw : inp.wavLen = 0
  · rw [if_pos hw]
  · rw [if_neg hw]
    have he : embedWav ops inp = none := by
      rcases h with h | h
      · exact absurd h hw
      · simp [embedWav, h]
    rw [he]

/-- With at least one cluster, `assign` reduces to the steady-state logic. -/
theorem assign_nonempty [Inhabited E] (cfg : ClusterCfg) (ops : EmbOps E)
    (st : ClusterState E) (inp : AssignInput E) (now : ℚ) (vec : E)
    (hw : inp.wavLen ≠ 0) (he : embedWav ops inp = some vec) (hc : st.centroids ≠ []) :
    assign cfg ops st inp now = assignSteady cfg ops st vec (assignDuration cfg inp) now := by
  have hisEmpty : st.centroids.isEmpty = false := by
    cases hcl : st.centroids with
    | nil => exact absurd hcl hc
    | cons a l => rfl
  unfold assign
  rw [if_neg hw, he]
  dsimp only
  rw [hisEmpty]
  rw [show (cfg.mode == "auto" && false) = false from Bool.and_false _]
  rw [if_neg Bool.false_ne_true]
  rw [hisEmpty, if_neg Bool.false_ne_true]

/-- `assign` preserves the clusterer invariant (mode `auto`, `k_max ≥ 1`). -/
theorem assign_preserves_inv [Inhabited E] (cfg : ClusterCfg) (ops : EmbOps E)
    (st : ClusterState E) (inp : AssignInput E) (now : ℚ)
    (hmode : cfg.mode = "auto") (hk : 1 ≤ cfg.k_max) (hinv : ClusterInv cfg st) :
    ClusterInv cfg (assign cfg ops st inp now).2 := by
  obtain ⟨hlen, hlast, hboot⟩ := hinv
  by_cases hw : inp.wavLen = 0
  · rw [assign_unavailable cfg ops st inp now (Or.inl hw)]
    exact ⟨hlen, hlast, hboot⟩
  · cases he : embedWav ops inp with
    | none =>
      have hemb : inp.emb = none := by
        unfold embedWav at he
        rw [if_neg hw] at he
        simpa using he
      rw [assign_unavailable cfg ops st inp now (Or.inr hemb)]
      exact ⟨hlen, hlast, hboot⟩
    | some vec =>
      by_cases hc : st.centroids = []
      · obtain ⟨hb, hl⟩ := hboot hc
        unfold assign
        rw [if_neg hw, he]
        dsimp only
        have hcond : (cfg.mode == "auto" && st.centroids.isEmpty) = true := by
          simp [hmode, hc]
        rw [if_pos hcond]
        set stB : ClusterState E :=
          { st with boot := pushBoot st.boot (inp.startTs.getD 0, inp.endTs.getD 0, vec) }
          with hstB
        have hBcent : stB.centroids = [] := hc
        have hBboot : stB.boot = [(inp.startTs.getD 0, inp.endTs.getD 0, vec)] := by
          rw [hstB]
          simp [pushBoot, dequePush, hb]
        by_cases ht : now - stB.start_t ≥ cfg.boot_sec
        · rw [if_pos ht]
          rw [bootstrap_single cfg ops stB now _ hmode hBcent hBboot (not_lt.mpr ht)]
          set stC : ClusterState E :=
            { stB with centroids := [("S1", ops.l2 (inp.startTs.getD 0, inp.endTs.getD 0, vec).2.2)],
                       boot := [] } with hstC
          have hCne : stC.centroids ≠ [] := by simp [hstC]
          rw [if_neg (by simp [hstC])]
          exact (assignSteady_inv cfg ops stC vec (assignDuration cfg inp) now hCne
            (by simp [hstC]; omega)
            (by intro l hl2 _
                rw [show stC.last_spk = st.last_spk from rfl, hl] at hl2
                exact absurd hl2 (by simp))
            hmode).1
        · rw [if_neg ht]
          rw [if_pos (by simp [hc])]
          refine ⟨?_, ?_, ?_⟩
          · simpa [hc, alSet] using hk
          · intro l hl2 _
            injection hl2 with hl2
            subst hl2
            simp [hc, alSet, keysOf]
          · intro hcc
            simp [hc, alSet] at hcc
      · rw [assign_nonempty cfg ops st inp now vec hw he hc]
        exact (assignSteady_inv cfg ops st vec (assignDuration cfg inp) now hc hlen hlast hmode).1

/-- The invariant holds along any sequence of `assign` calls. -/
theorem runAssign_inv [Inhabited E] (cfg : ClusterCfg) (ops : EmbOps E)
    (hmode : cfg.mode = "auto") (hk : 1 ≤ cfg.k_max) :
    ∀ (inputs : List (AssignInput E × ℚ)) (st : ClusterState E),
    ClusterInv cfg st → ClusterInv cfg (runAssign cfg ops st inputs)
  | [], _, hinv => hinv
  | (inp, now) :: rest, st, hinv =>
    runAssign_inv cfg ops hmode hk rest _
      (assign_preserves_inv cfg ops st inp now hmode hk hinv)

/-- The freshly constructed clusterer satisfies the invariant. -/
theorem initCluster_inv (cfg : ClusterCfg) (t0 : ℚ) :
    ClusterInv cfg (initCluster (E := E) t0) := by
  refine ⟨by simp [initCluster], ?_, ?_⟩
  · intro l hl _
    simp [initCluster] at hl
  · intro _
    exact ⟨rfl, rfl⟩

/-- Either branch of `assignSteady` that does not take the new-cluster path
keeps the cluster count, so any growth certifies all the new-cluster gates. -/
theorem assignSteady_growth [Inhabited E] (cfg : ClusterCfg) (ops : EmbOps E)
    (st : ClusterState E) (vec : E) (duration now : ℚ)
    (hmode : cfg.mode = "auto") (hne : st.centroids ≠ [])
    (hlast : ∀ l, st.last_spk = some l → l ≠ "" → l ∈ keysOf st.centroids)
    (hgrow : st.centroids.length <
      (assignSteady cfg ops st vec duration now).2.centroids.length) :
    st.centroids.length < cfg.k_max ∧
    cfg.freeze_sec ≤ now - st.start_t ∧
    cfg.new_cooldown ≤ now - st.last_new_t ∧
    cfg.new_min_sec ≤ duration ∧
    bestSimOf ops st vec < cfg.same_spk_sim ∧
    (cfg.margin_strong ≤ marginOf ops st vec ∨ st.centroids.length < 2) := by
  have hbest : bestLabelOf ops st vec ∈ keysOf st.centroids := bestLabel_mem ops st vec hne
  unfold assignSteady at hgrow
  by_cases hshort : duration < cfg.min_short
  · rw [if_pos hshort] at hgrow
    dsimp only at hgrow
    exfalso
    have hchosen : (match st.last_spk with
        | none => bestLabelOf ops st vec
        | some l =>
          if l = "" then bestLabelOf ops st vec
          else if bestLabelOf ops st vec ≠ l ∧ bestSimOf ops st vec ≥ cfg.short_alt ∧
              bestSimOf ops st vec - lastSimOf ops st vec ≥ cfg.short_delta
          then bestLabelOf ops st vec else l) ∈ keysOf st.centroids := by
      cases hl : st.last_spk with
      | none => exact hbest
      | some l =>
        dsimp only
        by_cases he : l = ""
        · rw [if_pos he]; exact hbest
        · rw [if_neg he]
          by_cases hc : bestLabelOf ops st vec ≠ l ∧ bestSimOf ops st vec ≥ cfg.short_alt ∧
              bestSimOf ops st vec - lastSimOf ops st vec ≥ cfg.short_delta
          · rw [if_pos hc]; exact hbest
          · rw [if_neg hc]; exact hlast l hl he
    obtain ⟨h1, _, _⟩ := mergeOnto_props cfg ops st _ vec (bestSimOf ops st vec)
      duration now hchosen
    omega
  · rw [if_neg hshort] at hgrow
    by_cases hswitch : duration < cfg.min_switch ∧ pyTruthy st.last_spk
    · rw [if_pos hswitch] at hgrow
      dsimp only at hgrow
      exfalso
      have hchosen : (if bestSimOf ops st vec ≥ max cfg.sim_base cfg.short_alt ∧
          bestSimOf ops st vec - lastSimOf ops st vec ≥ cfg.short_delta
          then bestLabelOf ops st vec else st.last_spk.getD "") ∈ keysOf st.centroids := by
        by_cases hc : bestSimOf ops st vec ≥ max cfg.sim_base cfg.short_alt ∧
            bestSimOf ops st vec - lastSimOf ops st vec ≥ cfg.short_delta
        · rw [if_pos hc]; exact hbest
        · rw [if_neg hc]
          cases hl : st.last_spk with
          | none => rw [hl] at hswitch; simp [pyTruthy] at hswitch
          | some l =>
            have hle : l ≠ "" := by
              rw [hl] at hswitch
              simpa [pyTruthy] using hswitch.2
            simpa using hlast l hl hle
      obtain ⟨h1, _, _⟩ := mergeOnto_props cfg ops st _ vec (bestSimOf ops st vec)
        duration now hchosen
      omega
    · rw [if_neg hswitch] at hgrow
      dsimp only at hgrow
      set stR : ClusterState E := { st with streak_n := 0, streak_dur := 0 } with hstR
      have hchosen : (match st.last_spk with
          | none => bestLabelOf ops st vec
          | some l =>
            if l = "" then bestLabelOf ops st vec
            else if bestLabelOf ops st vec = l then bestLabelOf ops st vec
            else if bestSimOf ops st vec ≥ cfg.same_spk_sim ∧
                lastSimOf ops st vec ≥ cfg.same_spk_sim then l
            else if bestSimOf ops st vec - lastSimOf ops st vec < cfg.switch_delta ∨
                marginOf ops st vec < cfg.switch_delta then
              (if now - st.last_switch_ts < cfg.sticky_sec then l else bestLabelOf ops st vec)
            else if now - st.last_switch_ts < cfg.sticky_sec then l
            else bestLabelOf ops st vec) ∈ keysOf st.centroids := by
        cases hl : st.last_spk with
        | none => exact hbest
        | some l =>
          dsimp only
          by_cases he : l = ""
          · rw [if_pos he]; exact hbest
          · rw [if_neg he]
            have hlm : l ∈ keysOf st.centroids := hlast l hl he
            by_cases h1 : bestLabelOf ops st vec = l
            · rw [if_pos h1]; exact hbest
            · rw [if_neg h1]
              by_cases h2 : bestSimOf ops st vec ≥ cfg.same_spk_sim ∧
                  lastSimOf ops st vec ≥ cfg.same_spk_sim
              · rw [if_pos h2]; exact hlm
              · rw [if_neg h2]
                by_cases h3 : bestSimOf ops st vec - lastSimOf ops st vec < cfg.switch_delta ∨
                    marginOf ops st vec < cfg.switch_delta
                · rw [if_pos h3]
                  by_cases h4 : now - st.last_switch_ts < cfg.sticky_sec
                  · rw [if_pos h4]; exact hlm
                  · rw [if_neg h4]; exact hbest
                · rw [if_neg h3]
                  by_cases h4 : now - st.last_switch_ts < cfg.sticky_sec
                  · rw [if_pos h4]; exact hlm
                  · rw [if_neg h4]; exact hbest
      by_cases hnew : (canMakeNew cfg stR now ∧ duration ≥ cfg.new_min_sec ∧
          now - stR.last_new_t ≥ cfg.new_cooldown) ∧ bestSimOf ops st vec < cfg.same_spk_sim ∧
          (marginOf ops st vec ≥ cfg.margin_strong ∨ stR.centroids.length < 2)
      · obtain ⟨⟨hcmn, hdur, hcool⟩, hsim, hmargin⟩ := hnew
        obtain ⟨hlt, hfreeze, hcool2⟩ := canMakeNew_auto cfg stR now hmode hcmn
        exact ⟨hlt, hfreeze, hcool2, hdur, hsim, hmargin⟩
      · rw [if_neg hnew] at hgrow
        dsimp only at hgrow
        exfalso
        set ch := (match st.last_spk with
          | none => bestLabelOf ops st vec
          | some l =>
            if l = "" then bestLabelOf ops st vec
            else if bestLabelOf ops st vec = l then bestLabelOf ops st vec
            else if bestSimOf ops st vec ≥ cfg.same_spk_sim ∧
                lastSimOf ops st vec ≥ cfg.same_spk_sim then l
            else if bestSimOf ops st vec - lastSimOf ops st vec < cfg.switch_delta ∨
                marginOf ops st vec < cfg.switch_delta then
              (if now - st.last_switch_ts < cfg.sticky_sec then l else bestLabelOf ops st vec)
            else if now - st.last_switch_ts < cfg.sticky_sec then l
            else bestLabelOf ops st vec) with hch
        obtain ⟨m1, m2, m3⟩ := mergeOnto_props cfg ops stR ch vec (bestSimOf ops st vec)
          duration now hchosen
        obtain ⟨_, p2, _, _⟩ := pruneShortClusters_props cfg ops
          (mergeOnto cfg ops stR ch vec (bestSimOf ops st vec) duration now) ch
        have hRlen : stR.centroids.length = st.centroids.length := rfl
        omega

/-! ## Claim theorems for the online clusterer -/

/-- A concrete embedding kernel for witnesses and counterexamples.  Vectors
are tagged by naturals; equal tags model identical unit float vectors
(cosine exactly 1) and distinct tags model orthogonal unit float vectors
(cosine exactly 0); the EMA mix is observed only through `cos`. -/
def witOps : EmbOps ℕ where
  cos a b := if a = b then 1 else 0
  l2 := id
  mix _ x _ _ := x
  dist a b := if a = b then 0 else 1

/-- **C1.**  Bootstrap phase of the online clusterer.  The claim says that
while the cluster count is zero and the elapsed time is below `boot_sec`
every embedding is buffered *without creating a cluster*.  Evaluating
`assign` at the failing input (the very first valid embedding, observed
well inside the bootstrap window) shows the code buffers the sample and
*immediately* seeds cluster "S1" from it in the same call
(`online_cluster.py` lines 262-269 run unconditionally when `centroids` is
empty), so the AHC bootstrap can never accumulate more than one sample. -/
theorem claim_c1_bootstrap_eager_creation :
    ((0 : ℚ) - (initCluster (E := ℕ) 0).start_t < defaultClusterCfg.boot_sec ∧
      (initCluster (E := ℕ) 0).centroids = []) ∧
    (assign defaultClusterCfg witOps (initCluster 0)
      ⟨16000, some 0, some 1, some 7⟩ 0).1 = "S1" ∧
    keysOf (assign defaultClusterCfg witOps (initCluster 0)
      ⟨16000, some 0, some 1, some 7⟩ 0).2.centroids = ["S1"] ∧
    (assign defaultClusterCfg witOps (initCluster 0)
      ⟨16000, some 0, some 1, some 7⟩ 0).2.boot.length = 1 := by
  exact ⟨⟨by norm_num [initCluster, defaultClusterCfg], rfl⟩, by with_unfolding_all decide, by with_unfolding_all decide, by with_unfolding_all decide⟩

/-- **C2.**  For every sequence of `assign` calls on a freshly constructed
clusterer (mode `auto`, configured maximum at least 1), regardless of the
inputs and of their embeddings, the number of speaker clusters never
exceeds `k_max`. -/
theorem claim_c2_cluster_count_bounded [Inhabited E] (cfg : ClusterCfg) (ops : EmbOps E)
    (t0 : ℚ) (inputs : List (AssignInput E × ℚ))
    (hmode : cfg.mode = "auto") (hk : 1 ≤ cfg.k_max) :
    (runAssign cfg ops (initCluster t0) inputs).centroids.length ≤ cfg.k_max :=
  (runAssign_inv cfg ops hmode hk inputs (initCluster t0) (initCluster_inv cfg t0)).1

theorem claim_c2_witness :
    defaultClusterCfg.mode = "auto" ∧ 1 ≤ defaultClusterCfg.k_max ∧
    (runAssign defaultClusterCfg witOps (initCluster (E := ℕ) 0)
      [(⟨16000, some 0, some 1, some 1⟩, 0), (⟨48000, some 1, some 4, some 2⟩, 10),
       (⟨48000, some 4, some 7, some 3⟩, 20)]).centroids.length ≤
      defaultClusterCfg.k_max :=
  ⟨rfl, by with_unfolding_all decide,
    claim_c2_cluster_count_bounded defaultClusterCfg witOps 0 _ rfl (by with_unfolding_all decide)⟩

/-- **C4 (amended).**  Once at least one cluster exists, `assign` (mode
`auto`, on any reachable state) creates a new speaker cluster only if the
cluster count is below `k_max`, the freeze window and the new-speaker
cooldown have elapsed, the utterance lasts at least `new_min_sec`, the best
similarity to every existing centroid is below the same-speaker ceiling,
and the margin gate holds (best-minus-second at least `margin_strong`, or
fewer than 2 clusters).  The unamended claim is refuted by
`claim_c4_counterexample`: the *first* cluster is created with none of
these gates checked. -/
theorem claim_c4_new_cluster_gating [Inhabited E] (cfg : ClusterCfg) (ops : EmbOps E)
    (t0 : ℚ) (inputs : List (AssignInput E × ℚ)) (inp : AssignInput E) (now : ℚ) (vec : E)
    (hmode : cfg.mode = "auto") (hk : 1 ≤ cfg.k_max)
    (hw : inp.wavLen ≠ 0) (he : embedWav ops inp = some vec)
    (hne : (runAssign cfg ops (initCluster t0) inputs).centroids ≠ [])
    (hgrow : (runAssign cfg ops (initCluster t0) inputs).centroids.length <
      (assign cfg ops (runAssign cfg ops (initCluster t0) inputs) inp now).2.centroids.length) :
    (runAssign cfg ops (initCluster t0) inputs).centroids.length < cfg.k_max ∧
    cfg.freeze_sec ≤ now - (runAssign cfg ops (initCluster t0) inputs).start_t ∧
    cfg.new_cooldown ≤ now - (runAssign cfg ops (initCluster t0) inputs).last_new_t ∧
    cfg.new_min_sec ≤ assignDuration cfg inp ∧
    bestSimOf ops (runAssign cfg ops (initCluster t0) inputs) vec < cfg.same_spk_sim ∧
    (cfg.margin_strong ≤ marginOf ops (runAssign cfg ops (initCluster t0) inputs) vec ∨
      (runAssign cfg ops (initCluster t0) inputs).centroids.length < 2) := by
  have hinv := runAssign_inv cfg ops hmode hk inputs (initCluster t0) (initCluster_inv cfg t0)
  rw [assign_nonempty cfg ops _ inp now vec hw he hne] at hgrow
  exact assignSteady_growth cfg ops _ vec (assignDuration cfg inp) now hmode hne
    hinv.2.1 hgrow

/-- **C4 (counterexample to the claim as stated).**  From the fresh state,
the very first valid embedding creates a cluster although the elapsed time
is below the freeze window and the utterance is far shorter than
`new_min_sec`: "assign creates a new speaker cluster only if all of the
gates hold" is false for the first cluster. -/
theorem claim_c4_counterexample :
    (initCluster (E := ℕ) 0).centroids.length = 0 ∧
    (assign defaultClusterCfg witOps (initCluster 0)
      ⟨1600, some 0, some (1/10), some 5⟩ 0).2.centroids.length = 1 ∧
    (0 : ℚ) - (initCluster (E := ℕ) 0).start_t < defaultClusterCfg.freeze_sec ∧
    assignDuration defaultClusterCfg (⟨1600, some 0, some (1/10), some 5⟩ : AssignInput ℕ) <
      defaultClusterCfg.new_min_sec := by
  refine ⟨rfl, by with_unfolding_all decide, by norm_num [initCluster, defaultClusterCfg], by with_unfolding_all decide⟩

theorem claim_c4_witness :
    (runAssign defaultClusterCfg witOps (initCluster (E := ℕ) 0)
      [(⟨16000, some 0, some 1, some 1⟩, 0)]).centroids ≠ [] ∧
    (runAssign defaultClusterCfg witOps (initCluster (E := ℕ) 0)
      [(⟨16000, some 0, some 1, some 1⟩, 0)]).centroids.length <
      (assign defaultClusterCfg witOps
        (runAssign defaultClusterCfg witOps (initCluster (E := ℕ) 0)
          [(⟨16000, some 0, some 1, some 1⟩, 0)])
        ⟨48000, some 1, some 4, some 2⟩ 10).2.centroids.length ∧
    defaultClusterCfg.new_min_sec ≤
      assignDuration defaultClusterCfg (⟨48000, some 1, some 4, some 2⟩ : AssignInput ℕ) :=
  ⟨by with_unfolding_all decide, by with_unfolding_all decide,
    (claim_c4_new_cluster_gating defaultClusterCfg witOps 0
      [(⟨16000, some 0, some 1, some 1⟩, 0)] ⟨48000, some 1, some 4, some 2⟩ 10 2
      rfl (by with_unfolding_all decide) (by with_unfolding_all decide) (by with_unfolding_all decide) (by with_unfolding_all decide) (by with_unfolding_all decide)).2.2.2.1⟩

/-- **C6.**  Short-utterance rule: with at least one cluster and a previously
assigned label, an utterance shorter than `min_short` keeps the last label
unless the best match is clearly better (best similarity at least
`short_alt` and at least `short_delta` above the last label's similarity),
in which case the best label is returned. -/
theorem claim_c6_short_utterance [Inhabited E] (cfg : ClusterCfg) (ops : EmbOps E)
    (st : ClusterState E) (inp : AssignInput E) (now : ℚ) (l : String) (vec : E)
    (hne : st.centroids ≠ []) (hlast : st.last_spk = some l) (hl : l ≠ "")
    (hw : inp.wavLen ≠ 0) (he : embedWav ops inp = some vec)
    (hdur : assignDuration cfg inp < cfg.min_short) :
    (assign cfg ops st inp now).1 =
      if cfg.short_alt ≤ bestSimOf ops st vec ∧
         cfg.short_delta ≤ bestSimOf ops st vec - lastSimOf ops st vec
      then bestLabelOf ops st vec else l := by
  rw [assign_nonempty cfg ops st inp now vec hw he hne]
  unfold assignSteady
  rw [if_pos hdur]
  dsimp only
  rw [hlast]
  dsimp only
  rw [if_neg hl]
  by_cases hbl : bestLabelOf ops st vec = l
  · rw [if_neg (by
      rintro ⟨hne2, _, _⟩
      exact hne2 hbl)]
    by_cases hc2 : cfg.short_alt ≤ bestSimOf ops st vec ∧
        cfg.short_delta ≤ bestSimOf ops st vec - lastSimOf ops st vec
    · rw [if_pos hc2, hbl]
    · rw [if_neg hc2]
  · by_cases hc2 : cfg.short_alt ≤ bestSimOf ops st vec ∧
        cfg.short_delta ≤ bestSimOf ops st vec - lastSimOf ops st vec
    · rw [if_pos (⟨hbl, hc2.1, hc2.2⟩ : bestLabelOf ops st vec ≠ l ∧
        bestSimOf ops st vec ≥ cfg.short_alt ∧
        bestSimOf ops st vec - lastSimOf ops st vec ≥ cfg.short_delta), if_pos hc2]
    · rw [if_neg (by
        rintro ⟨_, ha, hb⟩
        exact hc2 ⟨ha, hb⟩), if_neg hc2]

def c6State : ClusterState ℕ :=
  { initCluster 0 with centroids := [("S1", 10), ("S2", 20)], last_spk := some "S1" }

theorem claim_c6_witness :
    (c6State.centroids ≠ [] ∧ c6State.last_spk = some "S1" ∧
      assignDuration defaultClusterCfg (⟨4800, some 0, some (3/10), some 20⟩ : AssignInput ℕ) <
        defaultClusterCfg.min_short) ∧
    (assign defaultClusterCfg witOps c6State ⟨4800, some 0, some (3/10), some 20⟩ 50).1 =
      if defaultClusterCfg.short_alt ≤ bestSimOf witOps c6State 20 ∧
         defaultClusterCfg.short_delta ≤
           bestSimOf witOps c6State 20 - lastSimOf witOps c6State 20
      then bestLabelOf witOps c6State 20 else "S1" :=
  ⟨⟨by with_unfolding_all decide, rfl, by with_unfolding_all decide⟩,
    claim_c6_short_utterance defaultClusterCfg witOps c6State
      ⟨4800, some 0, some (3/10), some 20⟩ 50 "S1" 20
      (by with_unfolding_all decide) rfl (by with_unfolding_all decide) (by with_unfolding_all decide) (by with_unfolding_all decide) (by with_unfolding_all decide)⟩

/-- **C9.**  Embedding-unavailability fallback: when the embedding is
unavailable (empty audio, backend failure, missing or non-finite vector),
`assign` returns the last-known label ("S1" when none) and leaves the
clusterer state — centroids, durations, active label, everything —
unchanged. -/
theorem claim_c9_embedding_fallback [Inhabited E] (cfg : ClusterCfg) (ops : EmbOps E)
    (st : ClusterState E) (inp : AssignInput E) (now : ℚ)
    (h : inp.wavLen = 0 ∨ inp.emb = none) :
    (assign cfg ops st inp now).1 = pyOrS st.last_spk "S1" ∧
    (assign cfg ops st inp now).2 = st := by
  rw [assign_unavailable cfg ops st inp now h]
  exact ⟨rfl, rfl⟩

def c9State : ClusterState ℕ :=
  { initCluster 0 with centroids := [("S1", 10), ("S3", 30)], last_spk := some "S3" }

theorem claim_c9_witness :
    ((⟨16000, some 0, some 1, none⟩ : AssignInput ℕ).emb = none) ∧
    (assign defaultClusterCfg witOps c9State ⟨16000, some 0, some 1, none⟩ 12).1 = "S3" ∧
    (assign defaultClusterCfg witOps c9State ⟨16000, some 0, some 1, none⟩ 12).2 = c9State :=
  ⟨rfl,
    (claim_c9_embedding_fallback defaultClusterCfg witOps c9State
      ⟨16000, some 0, some 1, none⟩ 12 (Or.inr rfl)).1,
    (claim_c9_embedding_fallback defaultClusterCfg witOps c9State
      ⟨16000, some 0, some 1, none⟩ 12 (Or.inr rfl)).2⟩

/-! ## StreamingDiarizer (the intra-segment tracker, online_cluster.py) -/

/-- `DiarDecision` (transient value object returned by `step`). -/
structure DiarDecision where
  label : String
  best_sim : ℚ
  second_sim : ℚ
  last_sim : ℚ
  margin : ℚ
  reason : String
  cut : Bool
  cut_backtrace_sec : ℚ
deriving DecidableEq

/-- Configuration attributes of `StreamingDiarizer.__init__`. -/
structure TrackerCfg where
  alpha : ℚ
  max_spk : ℕ
  margin_strong : ℚ
  weak_margin : ℚ
  long_switch_sec : ℚ
  weak_req_sec : ℚ
  weak_req_n : ℕ
  min_switch_sec : ℚ
  cut_backtrace_sec : ℚ
  cooldown_sec : ℚ
  sim_new_threshold : ℚ
deriving DecidableEq

def defaultTrackerCfg : TrackerCfg where
  alpha := 3/25
  max_spk := 3
  margin_strong := 1/10
  weak_margin := 1/20
  long_switch_sec := 9/5
  weak_req_sec := 1
  weak_req_n := 2
  min_switch_sec := 3/5
  cut_backtrace_sec := 9/20
  cooldown_sec := 5/2
  sim_new_threshold := 37/50 - 2/25

/-- Mutable attributes of a `StreamingDiarizer` instance (its `durations`
defaultdict is never written by any method and is omitted). -/
structure TrackerState (E : Type) where
  centroids : List (String × E)
  last_cut_ts : ℚ
  last_label : Option String
  opp_streak_sec : ℚ
  weak_hit_sec : ℚ
  weak_hit_count : ℕ
deriving DecidableEq

def initTracker {E : Type} : TrackerState E where
  centroids := []
  last_cut_ts := -1000000000
  last_label := none
  opp_streak_sec := 0
  weak_hit_sec := 0
  weak_hit_count := 0

/-- `StreamingDiarizer._update_centroid`. -/
def trkUpdateCentroid (tcfg : TrackerCfg) (ops : EmbOps E) (st : TrackerState E)
    (label : String) (vec : E) (conf : ℚ) : TrackerState E :=
  match alGet st.centroids label with
  | none => { st with centroids := alSet st.centroids label vec }
  | some base =>
    let alpha := max (1/20) (min (1/2) (tcfg.alpha * max (1/5) conf))
    { st with centroids := alSet st.centroids label (ops.l2 (ops.mix (1 - alpha) base alpha vec)) }

/-- `StreamingDiarizer._ensure_label`. -/
def ensureLabel (tcfg : TrackerCfg) (ops : EmbOps E) (st : TrackerState E) (vec : E) :
    String × TrackerState E :=
  if st.centroids.isEmpty then ("S1", { st with centroids := alSet st.centroids "S1" vec })
  else
    let sims := st.centroids.map (fun p => (p.1, ops.cos vec p.2))
    let bp := (pyMaxBySnd sims).getD ("S1", -1)
    if bp.2 < tcfg.sim_new_threshold ∧ st.centroids.length < tcfg.max_spk then
      let newLabel := "S" ++ toString (st.centroids.length + 1)
      (newLabel, { st with centroids := alSet st.centroids newLabel vec })
    else (bp.1, st)

/-- `max((v for k, v in sims.items() if k != best_label), default=-1.0)`. -/
def secondSimExcluding (sims : List (String × ℚ)) (bestLabel : String) : ℚ :=
  ((sims.filter (fun p => p.1 ≠ bestLabel)).map Prod.snd).foldl max (-1)

/-- `StreamingDiarizer.step` on an already-computed embedding (`none` models
`_embed` failure), at monotonic instant `now`. -/
def trackerStep (tcfg : TrackerCfg) (ops : EmbOps E) (st : TrackerState E)
    (vec? : Option E) (currentLabel : Option String) (segDur hop now : ℚ) :
    Option DiarDecision × TrackerState E :=
  match vec? with
  | none => (none, st)
  | some vec =>
    let lst := ensureLabel tcfg ops st vec
    let st := lst.2
    let sims := st.centroids.map (fun p => (p.1, ops.cos vec p.2))
    let bp := (pyMaxBySnd sims).getD (lst.1, -1)
    let best_label := bp.1
    let best_sim := bp.2
    let second_sim := secondSimExcluding sims best_label
    let last_sim := (alGet sims (pyOrS currentLabel (pyOrS st.last_label best_label))).getD (-1)
    let margin := best_sim - second_sim
    let st := if st.last_label = none then { st with last_label := some best_label } else st
    let st := trkUpdateCentroid tcfg ops st best_label vec best_sim
    let target_label := pyOrS currentLabel (pyOrS st.last_label best_label)
    let st :=
      if target_label ≠ "" ∧ best_label ≠ target_label then
        let st := { st with opp_streak_sec := st.opp_streak_sec + hop }
        if margin ≥ tcfg.weak_margin then
          { st with weak_hit_sec := st.weak_hit_sec + hop,
                    weak_hit_count := st.weak_hit_count + 1 }
        else st
      else
        let st : TrackerState E :=
          { st with opp_streak_sec := max 0 (st.opp_streak_sec - hop),
                    weak_hit_sec := max 0 (st.weak_hit_sec - hop / 2) }
        if 0 < st.weak_hit_count then { st with weak_hit_count := st.weak_hit_count - 1 } else st
    let rc : String × Bool :=
      if margin ≥ tcfg.margin_strong ∧ segDur ≥ tcfg.min_switch_sec then ("margin-strong", true)
      else if st.opp_streak_sec ≥ tcfg.long_switch_sec ∧ segDur ≥ tcfg.min_switch_sec then
        ("long-dominance", true)
      else if st.weak_hit_count ≥ tcfg.weak_req_n ∧ st.weak_hit_sec ≥ tcfg.weak_req_sec ∧
          segDur ≥ tcfg.min_switch_sec then ("weak-accum", true)
      else ("", false)
    let rc := if rc.2 ∧ now - st.last_cut_ts < tcfg.cooldown_sec then ("", false) else rc
    let st :=
      if rc.2 then
        { st with last_cut_ts := now, last_label := some best_label,
                  opp_streak_sec := 0, weak_hit_sec := 0, weak_hit_count := 0 }
      else { st with last_label := some (pyOrS currentLabel best_label) }
    (some { label := best_label, best_sim := best_sim, second_sim := second_sim,
            last_sim := last_sim, margin := margin, reason := rc.1, cut := rc.2,
            cut_backtrace_sec := if rc.2 then tcfg.cut_backtrace_sec else 0 }, st)

/-- `StreamingDiarizer.notify_segment_end`. -/
def trackerNotifySegmentEnd (st : TrackerState E) (label : Option String) : TrackerState E :=
  let st := if pyTruthy label then { st with last_label := label } else st
  { st with opp_streak_sec := 0, weak_hit_sec := 0, weak_hit_count := 0 }

/-! ## RealtimeASR (backend/asr/stream_jp.py) -/

/-- Configuration of `RealtimeASR.__init__` (environment driven; the
documented defaults are in `defaultEngineCfg`).  Derived sample counts
(`prepad_frames`, `tail_keep_samples`, window/hop samples, hang frames) are
stored as computed in the constructor.  The webrtc VAD backend is an
external binary classifier; this model covers the energy-gate configuration
(`_webrtc_vad is None`). -/
structure EngineCfg where
  sr : ℕ
  block : ℕ
  vad_enabled : Bool
  hang_start_frames : ℕ
  hang_stop_frames : ℕ
  bridge_frames : ℕ
  noise_rms0 : ℚ
  th_start_mul : ℚ
  th_stop_mul : ℚ
  th_min : ℚ
  th_max : ℚ
  noise_cal_frames : ℕ
  min_turn_sec : ℚ
  min_asr_sec : ℚ
  max_turn_sec : ℚ
  prepad_frames : ℕ
  tail_keep_samples : ℕ
  spk_split_min_sec : ℚ
  spk_split_min_cover : ℚ
  intraseg_enabled : Bool
  emb_win_sec : ℚ
  emb_hop_sec : ℚ
  emb_win_samples : ℕ
  emb_hop_samples : ℕ
  live_diar_enabled : Bool
  diar_dominant_min_sec : ℚ
  diar_win_samples : ℕ
  diar_hop_samples : ℕ
  diar_retention_samples : ℕ
  ccfg : ClusterCfg
  tcfg : TrackerCfg
deriving DecidableEq

/-- The documented environment defaults (block 320 = 20 ms at 16 kHz,
energy-gate thresholds, 240 ms pre-roll, 0.3 s tail carry, live
diarization at 1 s window / 0.5 s hop, 240 s timeline retention). -/
def defaultEngineCfg : EngineCfg where
  sr := 16000
  block := 320
  vad_enabled := true
  hang_start_frames := 8
  hang_stop_frames := 15
  bridge_frames := 0
  noise_rms0 := 1/500
  th_start_mul := 5
  th_stop_mul := 7/2
  th_min := 1/2000
  th_max := 1/50
  noise_cal_frames := 30
  min_turn_sec := 4/5
  min_asr_sec := 1
  max_turn_sec := 0
  prepad_frames := 12
  tail_keep_samples := 4800
  spk_split_min_sec := 6/5
  spk_split_min_cover := 17/20
  intraseg_enabled := false
  emb_win_sec := 1
  emb_hop_sec := 1/4
  emb_win_samples := 16000
  emb_hop_samples := 4000
  live_diar_enabled := true
  diar_dominant_min_sec := 4/5
  diar_win_samples := 16000
  diar_hop_samples := 8000
  diar_retention_samples := 3840000
  ccfg := defaultClusterCfg
  tcfg := defaultTrackerCfg

/-- Mutable attributes of a `RealtimeASR` instance.  Audio is held as lists
of float samples (`ℚ`); the queued result keeps the segment's float audio
(the PCM16 `tobytes` conversion at the end of `_emit_segment_chunk` is a
pure function of it). -/
structure EngineState (E : Type) where
  noise_rms : ℚ
  start_th : ℚ
  stop_th : ℚ
  noise_cal_values : List ℚ
  noise_calibrated : Bool
  pre_audio : List (List ℚ)
  pre_audio_samples : ℕ
  segment_audio : List (List ℚ)
  segment_start_sample : Option ℕ
  queue : List (ℚ × ℚ × String × List ℚ)
  last_text : Option String
  processed_samples : ℕ
  residual : List ℚ
  in_speech : Bool
  start_cnt : ℕ
  stop_cnt : ℕ
  gap_cnt : ℕ
  spk_tracker : Option (TrackerState E)
  current_speaker : Option String
  samples_since_embed : ℕ
  live_diarizer : Option (ClusterState E)
  diar_buffer : List ℚ
  diar_buffer_start_sample : ℕ
  diar_next_window_sample : ℕ
  diar_total_samples : ℕ
  diar_timeline : List (ℚ × ℚ × String)
  diar_recent_segments : List (ℚ × ℚ × String)
  diar_last_label : Option String
deriving DecidableEq

/-- External capabilities consumed by the engine: the sherpa ASR decoder,
the speaker-embedding backend (shared by the live diarizer and the
intra-segment tracker; `none` models failure or a non-finite vector), and
the frame RMS `np.sqrt(np.mean(f*f) + 1e-12)` (an irrational-valued
numeric kernel). -/
structure Oracles (E : Type) where
  decode : List ℚ → String
  embed : List ℚ → Option E
  rms : List ℚ → ℚ

/-- `RealtimeASR.__init__` at monotonic instant `t0`. -/
def initEngine (cfg : EngineCfg) (t0 : ℚ) : EngineState E where
  noise_rms := cfg.noise_rms0
  start_th := clampQ (cfg.noise_rms0 * cfg.th_start_mul) cfg.th_min cfg.th_max
  stop_th := clampQ (cfg.noise_rms0 * cfg.th_stop_mul) cfg.th_min cfg.th_max
  noise_cal_values := []
  noise_calibrated := false
  pre_audio := []
  pre_audio_samples := 0
  segment_audio := []
  segment_start_sample := none
  queue := []
  last_text := none
  processed_samples := 0
  residual := []
  in_speech := false
  start_cnt := 0
  stop_cnt := 0
  gap_cnt := 0
  spk_tracker := if cfg.intraseg_enabled then some initTracker else none
  current_speaker := none
  samples_since_embed := 0
  live_diarizer := if cfg.live_diar_enabled then some (initCluster t0) else none
  diar_buffer := []
  diar_buffer_start_sample := 0
  diar_next_window_sample := 0
  diar_total_samples := 0
  diar_timeline := []
  diar_recent_segments := []
  diar_last_label := none

/-- `RealtimeASR._update_energy_thresholds`. -/
def updateEnergyThresholds (cfg : EngineCfg) (s : EngineState E) : EngineState E :=
  { s with start_th := clampQ (s.noise_rms * cfg.th_start_mul) cfg.th_min cfg.th_max,
           stop_th := clampQ (s.noise_rms * cfg.th_stop_mul) cfg.th_min cfg.th_max }

/-- The idle-time noise-floor adaptation inside `_is_speech`: a quiet frame
drags the noise floor and refreshes both thresholds before the comparison. -/
def adaptNoise (cfg : EngineCfg) (orc : Oracles E) (s : EngineState E) (frame : List ℚ) :
    EngineState E :=
  if ¬s.in_speech ∧ orc.rms frame < s.stop_th * (9/10) then
    updateEnergyThresholds cfg
      { s with noise_rms := (98/100) * s.noise_rms + (2/100) * orc.rms frame }
  else s

/-- `RealtimeASR._is_speech` (energy gate; the webrtc backend is absent). -/
def isSpeech (cfg : EngineCfg) (orc : Oracles E) (s : EngineState E) (frame : List ℚ) :
    Bool × EngineState E :=
  let s := adaptNoise cfg orc s frame
  (decide (orc.rms frame ≥ (if s.in_speech then s.stop_th else s.start_th)), s)

/-- `RealtimeASR._maybe_calibrate`. -/
def maybeCalibrate (cfg : EngineCfg) (orc : Oracles E) (s : EngineState E) (frame : List ℚ) :
    EngineState E :=
  if s.noise_calibrated then s
  else
    let vals := s.noise_cal_values ++ [orc.rms frame]
    let s := { s with noise_cal_values := vals }
    if vals.length ≥ cfg.noise_cal_frames then
      let med := npMedian vals
      let p95 := npPercentile95 vals
      let s := { s with noise_rms := max cfg.th_min ((med + p95) / 2), noise_calibrated := true }
      let s := updateEnergyThresholds cfg s
      if s.start_th ≤ s.stop_th then
        let start2 := min cfg.th_max (s.stop_th * (11/10))
        { s with start_th := start2, stop_th := max cfg.th_min (start2 * (7/10)) }
      else s
    else s

/-- The while-loop of `_feed_live_diar_chunk`: slide fixed windows over the
buffered audio, labelling each through the live `VarKClustering.assign`.
Each iteration advances `diar_next_window_sample` by at least the hop, so
`diar_buffer.length + 2` fuel steps reproduce the unbounded loop whenever
the configured hop is at least one sample. -/
def feedLoop [Inhabited E] (cfg : EngineCfg) (ops : EmbOps E) (orc : Oracles E) (now : ℚ) :
    ℕ → EngineState E → EngineState E
  | 0, s => s
  | fuel + 1, s =>
    match s.live_diarizer with
    | none => s
    | some cl =>
      let bufferEnd := s.diar_buffer_start_sample + s.diar_buffer.length
      if s.diar_next_window_sample + cfg.diar_win_samples ≤ bufferEnd then
        let s :=
          if s.diar_next_window_sample < s.diar_buffer_start_sample then
            { s with diar_buffer_start_sample := s.diar_next_window_sample }
          else s
        let bufferEnd := s.diar_buffer_start_sample + s.diar_buffer.length
        if bufferEnd < s.diar_next_window_sample + cfg.diar_win_samples then s
        else
          let offset := s.diar_next_window_sample - s.diar_buffer_start_sample
          let window := (s.diar_buffer.drop offset).take cfg.diar_win_samples
          if window.length < cfg.diar_win_samples then s
          else
            let start_s : ℚ := (s.diar_next_window_sample : ℚ) / (cfg.sr : ℚ)
            let end_s : ℚ := ((s.diar_next_window_sample + cfg.diar_win_samples : ℕ) : ℚ) / (cfg.sr : ℚ)
            let inp : AssignInput E :=
              { wavLen := window.length, startTs := some start_s, endTs := some end_s,
                emb := orc.embed window }
            let res := assign cfg.ccfg ops cl inp now
            feedLoop cfg ops orc now fuel
              { s with live_diarizer := some res.2,
                       diar_timeline := s.diar_timeline ++ [(start_s, end_s, res.1)],
                       diar_last_label := some res.1,
                       diar_next_window_sample := s.diar_next_window_sample + cfg.diar_hop_samples }
      else s

/-- `RealtimeASR._shrink_diar_buffer`. -/
def shrinkDiarBuffer (cfg : EngineCfg) (s : EngineState E) : EngineState E :=
  if s.diar_buffer.isEmpty then s
  else
    let keepFrom := s.diar_next_window_sample - cfg.diar_win_samples
    if keepFrom ≤ s.diar_buffer_start_sample then s
    else
      let drop := keepFrom - s.diar_buffer_start_sample
      if s.diar_buffer.length ≤ drop then
        { s with diar_buffer := [], diar_buffer_start_sample := keepFrom }
      else
        { s with diar_buffer := s.diar_buffer.drop drop,
                 diar_buffer_start_sample := s.diar_buffer_start_sample + drop }

/-- `RealtimeASR._shrink_diar_timeline`. -/
def shrinkDiarTimeline (cfg : EngineCfg) (s : EngineState E) : EngineState E :=
  if s.diar_timeline.isEmpty then s
  else
    let minTime : ℚ :=
      ((s.diar_next_window_sample : ℚ) - (cfg.diar_retention_samples : ℚ)) / (cfg.sr : ℚ)
    { s with diar_timeline := s.diar_timeline.dropWhile (fun w => decide (w.2.1 < minTime)) }

/-- `RealtimeASR._feed_live_diar_chunk`. -/
def feedLiveDiarChunk [Inhabited E] (cfg : EngineCfg) (ops : EmbOps E) (orc : Oracles E)
    (s : EngineState E) (chunk : List ℚ) (now : ℚ) : EngineState E :=
  if s.live_diarizer.isNone || chunk.isEmpty then s
  else
    let s :=
      if s.diar_buffer.isEmpty then
        { s with diar_buffer := chunk, diar_buffer_start_sample := s.diar_total_samples }
      else { s with diar_buffer := s.diar_buffer ++ chunk }
    let s := { s with diar_total_samples := s.diar_total_samples + chunk.length }
    let s := feedLoop cfg ops orc now (s.diar_buffer.length + 2) s
    let s := shrinkDiarBuffer cfg s
    shrinkDiarTimeline cfg s

/-- The window scan of `_dominant_block_speaker`: accumulate the longest
contiguous same-label overlap run, with the source's early break once a
window starts at or after the segment end. -/
def dominantLoop (t0 t1 : ℚ) (best cur : Option String × ℚ) :
    List (ℚ × ℚ × String) → (Option String × ℚ) × (Option String × ℚ)
  | [] => (best, cur)
  | (w0, w1, spk) :: rest =>
    if w1 ≤ t0 then dominantLoop t0 t1 best cur rest
    else if w0 ≥ t1 then (best, cur)
    else
      let overlap := min t1 w1 - max t0 w0
      if overlap ≤ 0 then dominantLoop t0 t1 best cur rest
      else if cur.1 = some spk then dominantLoop t0 t1 best (cur.1, cur.2 + overlap) rest
      else
        let best2 := if pyTruthy cur.1 ∧ cur.2 > best.2 then cur else best
        dominantLoop t0 t1 best2 (some spk, overlap) rest

/-- `RealtimeASR._dominant_block_speaker`. -/
def dominantBlockSpeaker (cfg : EngineCfg) (s : EngineState E) (t0 t1 : ℚ) : Option String :=
  if s.diar_timeline.isEmpty then none
  else
    let bc := dominantLoop t0 t1 (none, 0) (none, 0) s.diar_timeline
    let best := if pyTruthy bc.2.1 ∧ bc.2.2 > bc.1.2 then bc.2 else bc.1
    if pyTruthy best.1 ∧ best.2 ≥ cfg.diar_dominant_min_sec then best.1 else none

/-- The accumulation loop of `_majority_speaker_from_timeline`: per-label
overlap totals over the retained windows, with the source's early break. -/
def majTotals (t0 t1 : ℚ) : List (ℚ × ℚ × String) → List (String × ℚ) → List (String × ℚ)
  | [], acc => acc
  | (w0, w1, spk) :: rest, acc =>
    if w1 ≤ t0 then majTotals t0 t1 rest acc
    else if w0 ≥ t1 then acc
    else
      let overlap := min t1 w1 - max t0 w0
      if overlap ≤ 0 then majTotals t0 t1 rest acc
      else majTotals t0 t1 rest (alAdd acc spk overlap)

/-- `RealtimeASR._majority_speaker_from_timeline`. -/
def majoritySpeakerFromTimeline (s : EngineState E) (t0 t1 : ℚ) : Option String :=
  if s.diar_timeline.isEmpty then none
  else
    let totals := majTotals t0 t1 s.diar_timeline []
    if totals.isEmpty then none
    else (pyMaxBySnd totals).map Prod.fst

/-- `RealtimeASR._cache_segment_speaker` (`deque(maxlen=64)`). -/
def cacheSegmentSpeaker (s : EngineState E) (start_s end_s : ℚ) (label : String) :
    EngineState E :=
  { s with diar_recent_segments := dequePush 64 s.diar_recent_segments (start_s, end_s, label) }

/-- `RealtimeASR._lookup_cached_speaker` (first match scanning the recent
segments newest-first, with a 0.02 s tolerance on both boundaries). -/
def lookupCachedSpeaker (s : EngineState E) (start_s end_s : ℚ) : Option String :=
  (s.diar_recent_segments.reverse.find? (fun seg =>
    decide (|seg.1 - start_s| < 1/50) && decide (|seg.2.1 - end_s| < 1/50))).map
    (fun seg => seg.2.2)

/-- `RealtimeASR.majority_speaker`. -/
def majoritySpeaker (cfg : EngineCfg) (s : EngineState E) (start_s end_s : ℚ) :
    Option String :=
  let cached := lookupCachedSpeaker s start_s end_s
  if pyTruthy cached then cached
  else if s.live_diarizer.isSome then
    let label := majoritySpeakerFromTimeline s start_s end_s
    if pyTruthy label then label
    else
      let dominant := dominantBlockSpeaker cfg s start_s end_s
      if pyTruthy dominant then dominant
      else s.diar_last_label
  else s.current_speaker

/-- `RealtimeASR._infer_segment_speaker`. -/
def inferSegmentSpeaker (cfg : EngineCfg) (s : EngineState E) (start_s end_s : ℚ) : String :=
  pyOrS (majoritySpeaker cfg s start_s end_s) (pyOrS s.current_speaker "S1")

/-- The window scan of `_segment_diar_windows`: clip each retained window to
the segment range, with the source's early break. -/
def segWindowsLoop (t0 t1 : ℚ) : List (ℚ × ℚ × String) → List (ℚ × ℚ × String)
  | [] => []
  | (w0, w1, spk) :: rest =>
    if w1 ≤ t0 then segWindowsLoop t0 t1 rest
    else if w0 ≥ t1 then []
    else
      let beg := max t0 w0
      let en := min t1 w1
      if en ≤ beg then segWindowsLoop t0 t1 rest
      else (beg, en, spk) :: segWindowsLoop t0 t1 rest

/-- `RealtimeASR._segment_diar_windows`. -/
def segmentDiarWindows (s : EngineState E) (t0 t1 : ℚ) : List (ℚ × ℚ × String) :=
  if s.diar_timeline.isEmpty then [] else segWindowsLoop t0 t1 s.diar_timeline

/-- One insertion step of the stable `windows.sort(key=start)`. -/
def insertByStart (p : ℚ × ℚ × String) : List (ℚ × ℚ × String) → List (ℚ × ℚ × String)
  | [] => [p]
  | q :: rest => if q.1 ≤ p.1 then q :: insertByStart p rest else p :: q :: rest

/-- Python's stable `list.sort(key=lambda item: item[0])`. -/
def sortByStart (l : List (ℚ × ℚ × String)) : List (ℚ × ℚ × String) :=
  l.foldl (fun acc w => insertByStart w acc) []

/-- The span-merge loop of `_speaker_spans_for_segment`: fuse consecutive
same-label windows that touch within 1 ms. -/
def mergeSpansLoop (cur : ℚ × ℚ × String) : List (ℚ × ℚ × String) → List (ℚ × ℚ × String)
  | [] => [cur]
  | (ws, we, wl) :: rest =>
    if wl = cur.2.2 ∧ ws ≤ cur.2.1 + 1/1000 then
      mergeSpansLoop (cur.1, max cur.2.1 we, cur.2.2) rest
    else cur :: mergeSpansLoop (ws, we, wl) rest

/-- `clipped[0] = (seg_t0, first_end, first_label)` when the first span
starts after the segment start. -/
def extendFirst (t0 : ℚ) : List (ℚ × ℚ × String) → List (ℚ × ℚ × String)
  | [] => []
  | (a, b, l) :: rest => if a > t0 then (t0, b, l) :: rest else (a, b, l) :: rest

/-- `clipped[-1] = (last_start, seg_t1, last_label)` when the last span ends
before the segment end. -/
def extendLast (t1 : ℚ) : List (ℚ × ℚ × String) → List (ℚ × ℚ × String)
  | [] => []
  | [(a, b, l)] => if b < t1 then [(a, t1, l)] else [(a, b, l)]
  | p :: q :: rest => p :: extendLast t1 (q :: rest)

/-- The gap-filling pass of `_speaker_spans_for_segment`: extend the previous
span's end to the next span's start. -/
def normalizeLoop (prev : ℚ × ℚ × String) : List (ℚ × ℚ × String) → List (ℚ × ℚ × String)
  | [] => [prev]
  | (a, b, l) :: rest =>
    if a > prev.2.1 then (prev.1, a, prev.2.2) :: normalizeLoop (a, b, l) rest
    else prev :: normalizeLoop (a, b, l) rest

def normalizeSpans : List (ℚ × ℚ × String) → List (ℚ × ℚ × String)
  | [] => []
  | p :: rest => normalizeLoop p rest

/-- `RealtimeASR._speaker_spans_for_segment`. -/
def speakerSpansForSegment (cfg : EngineCfg) (s : EngineState E) (t0 t1 : ℚ) :
    List (ℚ × ℚ × String) :=
  let windows := segmentDiarWindows s t0 t1
  if windows.isEmpty then []
  else if ((windows.map (fun w => w.2.2)).dedup).length ≤ 1 then []
  else
    let sorted := sortByStart windows
    let spans :=
      match sorted with
      | [] => []
      | w :: rest => mergeSpansLoop w rest
    let clipped : List (ℚ × ℚ × String) := spans.filterMap (fun sp =>
      let a := max t0 sp.1
      let b := min t1 sp.2.1
      if b - a ≤ 0 then none else some (a, b, sp.2.2))
    if clipped.length ≤ 1 then []
    else if clipped.any (fun c => decide (c.2.1 - c.1 < cfg.spk_split_min_sec)) then []
    else
      let coverage := (clipped.map (fun c => c.2.1 - c.1)).sum
      let total := max (t1 - t0) (1/1000000)
      if coverage < total * cfg.spk_split_min_cover then []
      else normalizeSpans (extendLast t1 (extendFirst t0 clipped))

/-- `RealtimeASR._split_segment_audio`. -/
def splitSegmentAudio (cfg : EngineCfg) (s : EngineState E) (audio : List ℚ) (t0 t1 : ℚ) :
    List (List ℚ × ℚ × ℚ × String) :=
  let spans := speakerSpansForSegment cfg s t0 t1
  if spans.isEmpty then []
  else
    let totalDur := t1 - t0
    let result := spans.filterMap (fun sp =>
      let relStart := max 0 (sp.1 - t0)
      let relEnd := min totalDur (sp.2.1 - t0)
      let beg := (pyRound (relStart * (cfg.sr : ℚ))).toNat
      let en := (pyRound (relEnd * (cfg.sr : ℚ))).toNat
      if en ≤ beg ∨ audio.length ≤ beg then none
      else
        let en := min en audio.length
        let chunk := (audio.drop beg).take (en - beg)
        if chunk.isEmpty then none
        else some (chunk, sp.1, sp.2.1, sp.2.2))
    if result.length ≤ 1 then [] else result

/-- `_pad_to_len(x, sec, sr)`. -/
def padToLen (x : List ℚ) (sec : ℚ) (sr : ℕ) : List ℚ :=
  let need : ℤ := ⌊max 0 sec * (sr : ℚ)⌋ - x.length
  if need ≤ 0 then x else x ++ List.replicate need.toNat 0

/-- `RealtimeASR._emit_segment_chunk` (returns whether a result was
enqueued). -/
def emitSegmentChunk (cfg : EngineCfg) (orc : Oracles E) (s : EngineState E)
    (audio : List ℚ) (start_s end_s : ℚ) (speakerHint : Option String) :
    Bool × EngineState E :=
  let padded := padToLen audio cfg.min_asr_sec cfg.sr
  let text := (orc.decode padded).trim
  if text = "" then (false, s)
  else
    let speaker := pyOrS speakerHint (inferSegmentSpeaker cfg s start_s end_s)
    let s := if speaker ≠ "" then cacheSegmentSpeaker s start_s end_s speaker else s
    (true, { s with queue := s.queue ++ [(start_s, end_s, text, audio)],
                    last_text := some text })

/-- Split tail audio into block-sized pieces (`range(0, tail.size, block)`). -/
def chunkList (block : ℕ) : List ℚ → List (List ℚ)
  | [] => []
  | x :: rest =>
    if _hb : block = 0 then []
    else (x :: rest).take block :: chunkList block ((x :: rest).drop block)
  termination_by l => l.length
  decreasing_by
    simp only [List.length_drop, List.length_cons]
    omega

/-- `RealtimeASR._reset_segment_state`. -/
def resetSegmentState (cfg : EngineCfg) (s : EngineState E) (tail : List ℚ) : EngineState E :=
  let s : EngineState E :=
    { s with segment_audio := [], segment_start_sample := none, samples_since_embed := 0,
             in_speech := false, start_cnt := 0, stop_cnt := 0, gap_cnt := 0,
             current_speaker := none, pre_audio := [], pre_audio_samples := 0 }
  if tail.length = 0 then s
  else
    let maxSamples := cfg.prepad_frames * cfg.block
    let t := if maxSamples < tail.length then tail.drop (tail.length - maxSamples) else tail
    { s with pre_audio := (chunkList cfg.block t).foldl (dequePush cfg.prepad_frames) [],
             pre_audio_samples := min t.length maxSamples }

/-- `RealtimeASR._current_segment_duration`. -/
def segTotal (s : EngineState E) : ℕ := (s.segment_audio.map List.length).sum

def currentSegmentDuration (cfg : EngineCfg) (s : EngineState E) : ℚ :=
  if s.segment_audio.isEmpty then 0 else (segTotal s : ℚ) / (cfg.sr : ℚ)

/-- `RealtimeASR._collect_recent_audio`: the last `sampleCount` samples of
the accumulated segment audio (the source walks the chunk list from the
end and concatenates; the result is exactly this suffix). -/
def collectRecentAudio (s : EngineState E) (sampleCount : ℕ) : List ℚ :=
  if s.segment_audio.isEmpty || sampleCount = 0 then []
  else
    let raw := s.segment_audio.flatten
    raw.drop (raw.length - sampleCount)

/-- The backtrace split `_finalize_segment` applies to the raw segment
audio: `(kept, remainder)` where the remainder seeds the next segment. -/
def backtraceSplit (cfg : EngineCfg) (raw : List ℚ) (cutSec : ℚ) : List ℚ × List ℚ :=
  let cutSamples : ℤ := pyRound (cutSec * (cfg.sr : ℚ))
  if 0 < cutSamples ∧ cutSamples < (raw.length : ℤ) then
    let keep := raw.length - cutSamples.toNat
    (raw.take keep, raw.drop keep)
  else if (raw.length : ℤ) ≤ cutSamples then ([], raw)
  else (raw, [])

/-- `RealtimeASR._finalize_segment`. -/
def finalizeSegment [Inhabited E] (cfg : EngineCfg) (orc : Oracles E)
    (s : EngineState E) (cutBacktraceSec : ℚ) : EngineState E :=
  if s.segment_audio.isEmpty then s
  else
    let raw := s.segment_audio.flatten
    if raw.length = 0 then { s with segment_audio := [] }
    else
      let rr := backtraceSplit cfg raw cutBacktraceSec
      let raw2 := rr.1
      let remainder := rr.2
      let dur : ℚ := (raw2.length : ℚ) / (cfg.sr : ℚ)
      if dur < max (1/10) (cfg.min_turn_sec * (1/2)) then
        resetSegmentState cfg s (raw2 ++ remainder)
      else
        let startSample : ℕ :=
          match s.segment_start_sample with
          | some st => if st ≠ 0 then st else s.processed_samples - raw2.length
          | none => s.processed_samples - raw2.length
        let start_s : ℚ := (startSample : ℚ) / (cfg.sr : ℚ)
        let segEnd := start_s + dur
        let chunks := splitSegmentAudio cfg s raw2 start_s segEnd
        let es : Bool × EngineState E :=
          if ¬chunks.isEmpty then
            chunks.foldl (fun (acc : Bool × EngineState E) c =>
              let r := emitSegmentChunk cfg orc acc.2 c.1 c.2.1 c.2.2.1 (some c.2.2.2)
              (r.1 || acc.1, r.2)) (false, s)
          else emitSegmentChunk cfg orc s raw2 start_s segEnd none
        let s := es.2
        if ¬es.1 then resetSegmentState cfg s remainder
        else
          let s :=
            if s.spk_tracker.isSome ∧ pyTruthy s.current_speaker then
              { s with spk_tracker :=
                s.spk_tracker.map (fun t => trackerNotifySegmentEnd t s.current_speaker) }
            else s
          let tail :=
            if remainder.length < cfg.tail_keep_samples ∧ cfg.tail_keep_samples ≤ raw2.length
            then raw2.drop (raw2.length - cfg.tail_keep_samples)
            else remainder
          resetSegmentState cfg s tail

/-- `RealtimeASR._append_pre_audio`. -/
def appendPreAudio (cfg : EngineCfg) (s : EngineState E) (frame : List ℚ) : EngineState E :=
  { s with pre_audio := dequePush cfg.prepad_frames s.pre_audio frame,
           pre_audio_samples :=
             min (cfg.prepad_frames * cfg.block) (s.pre_audio_samples + frame.length) }

/-- `RealtimeASR._seed_segment_from_pre`. -/
def seedSegmentFromPre (s : EngineState E) : EngineState E :=
  let preSamples := (s.pre_audio.map List.length).sum
  { s with segment_audio := s.pre_audio,
           segment_start_sample := some (s.processed_samples - preSamples),
           pre_audio := [], pre_audio_samples := 0, samples_since_embed := 0 }

/-- `RealtimeASR._append_segment_frame`. -/
def appendSegmentFrame (cfg : EngineCfg) (s : EngineState E) (frame : List ℚ) : EngineState E :=
  let s := { s with segment_audio := s.segment_audio ++ [frame] }
  if cfg.intraseg_enabled then
    { s with samples_since_embed := s.samples_since_embed + frame.length }
  else s

/-- `RealtimeASR._maybe_run_intraseg`. -/
def maybeRunIntraseg [Inhabited E] (cfg : EngineCfg) (ops : EmbOps E) (orc : Oracles E)
    (s : EngineState E) (now : ℚ) : EngineState E :=
  if ¬cfg.intraseg_enabled then s
  else
    match s.spk_tracker with
    | none => s
    | some trk =>
      let segDur := currentSegmentDuration cfg s
      if segDur < max (cfg.min_turn_sec * (1/2)) (cfg.emb_win_sec * (4/5)) then s
      else if s.samples_since_embed < cfg.emb_hop_samples then s
      else
        let pcm := collectRecentAudio s cfg.emb_win_samples
        if pcm.length < cfg.emb_win_samples then s
        else
          let s := { s with samples_since_embed := 0 }
          let vec? : Option E := if pcm.isEmpty then none else (orc.embed pcm).map ops.l2
          let dt := trackerStep cfg.tcfg ops trk vec? s.current_speaker segDur
            cfg.emb_hop_sec now
          let s := { s with spk_tracker := some dt.2 }
          match dt.1 with
          | none => s
          | some d =>
            let s := { s with current_speaker := some d.label }
            if d.cut then
              let s := finalizeSegment cfg orc s d.cut_backtrace_sec
              let s := { s with spk_tracker :=
                s.spk_tracker.map (fun t => trackerNotifySegmentEnd t (some d.label)) }
              { s with current_speaker := some d.label }
            else s

/-- `RealtimeASR._process_frame` at monotonic instant `now`. -/
def processFrame [Inhabited E] (cfg : EngineCfg) (ops : EmbOps E) (orc : Oracles E)
    (s : EngineState E) (frame : List ℚ) (now : ℚ) : EngineState E :=
  let s := { s with processed_samples := s.processed_samples + frame.length }
  if ¬cfg.vad_enabled then
    let s := appendSegmentFrame cfg s frame
    if 0 < cfg.max_turn_sec ∧ cfg.max_turn_sec ≤ currentSegmentDuration cfg s then
      finalizeSegment cfg orc s 0
    else if cfg.intraseg_enabled then maybeRunIntraseg cfg ops orc s now
    else s
  else
    let s := maybeCalibrate cfg orc s frame
    let bs := isSpeech cfg orc s frame
    let speech := bs.1
    let s := bs.2
    if ¬s.in_speech then
      let s := appendPreAudio cfg s frame
      if speech then
        let s := { s with start_cnt := s.start_cnt + 1 }
        if cfg.hang_start_frames ≤ s.start_cnt then
          seedSegmentFromPre { s with in_speech := true }
        else s
      else { s with start_cnt := 0 }
    else
      let s := appendSegmentFrame cfg s frame
      let s :=
        if speech then { s with stop_cnt := 0, gap_cnt := 0 }
        else { s with stop_cnt := s.stop_cnt + 1, gap_cnt := s.gap_cnt + 1 }
      if cfg.max_turn_sec ≠ 0 ∧ cfg.max_turn_sec ≤ currentSegmentDuration cfg s then
        finalizeSegment cfg orc s 0
      else if cfg.hang_stop_frames ≤ s.stop_cnt ∧ cfg.bridge_frames < s.gap_cnt then
        finalizeSegment cfg orc s 0
      else if cfg.intraseg_enabled then maybeRunIntraseg cfg ops orc s now
      else s

/-- `RealtimeASR.accept_chunk` on the float samples decoded from the PCM16
bytes, at monotonic instant `now`. -/
def acceptChunk [Inhabited E] (cfg : EngineCfg) (ops : EmbOps E) (orc : Oracles E)
    (s : EngineState E) (chunk : List ℚ) (now : ℚ) : EngineState E :=
  if chunk.isEmpty then s
  else
    let s := feedLiveDiarChunk cfg ops orc s chunk now
    let arr := if s.residual.isEmpty then chunk else s.residual ++ chunk
    let s := { s with residual := [] }
    if arr.isEmpty then s
    else
      let frames := arr.length / cfg.block
      let s := (List.range frames).foldl (fun s i =>
        processFrame cfg ops orc s ((arr.drop (i * cfg.block)).take cfg.block) now) s
      let rem := arr.drop (frames * cfg.block)
      if rem.isEmpty then s else { s with residual := rem }

/-- `RealtimeASR.try_finalize`: pop the oldest pending result. -/
def tryFinalize (s : EngineState E) : Option (ℚ × ℚ × String × List ℚ) × EngineState E :=
  match s.queue with
  | [] => (none, s)
  | q :: rest => (some q, { s with queue := rest })

/-- Feed a whole stream of chunks (each with its observed monotonic
instant). -/
def runEngine [Inhabited E] (cfg : EngineCfg) (ops : EmbOps E) (orc : Oracles E) :
    EngineState E → List (List ℚ × ℚ) → EngineState E
  | s, [] => s
  | s, (chunk, now) :: rest => runEngine cfg ops orc (acceptChunk cfg ops orc s chunk now) rest

/-- The finalized (start, end, text, speaker) tuples as the websocket layer
produces them: it drains `try_finalize` and attributes each segment via
`majority_speaker(start, end)` (`api/ws.py` lines 467-486). -/
def finalizedWithSpeakers (cfg : EngineCfg) (s : EngineState E) :
    List (ℚ × ℚ × String × Option String) :=
  s.queue.map (fun q => (q.1, q.2.1, q.2.2.1, majoritySpeaker cfg s q.1 q.2.1))

/-! ## Claim C5: majority_speaker -/

theorem mem_keys_alAdd (l : List (String × ℚ)) (k : String) (v : ℚ) (x : String)
    (h : x ∈ keysOf (alAdd l k v)) : x = k ∨ x ∈ keysOf l := by
  unfold alAdd at h
  exact (mem_keys_alSet l k _ x).mp h

theorem alAdd_ne_nil (l : List (String × ℚ)) (k : String) (v : ℚ) : alAdd l k v ≠ [] :=
  alSet_ne_nil l k _

/-- Every label totalled by `majTotals` is either already in the
accumulator or the label of a window overlapping `[t0, t1)`. -/
theorem majTotals_keys (t0 t1 : ℚ) :
    ∀ (ws : List (ℚ × ℚ × String)) (acc : List (String × ℚ)) (k : String),
    k ∈ keysOf (majTotals t0 t1 ws acc) →
    k ∈ keysOf acc ∨ ∃ w ∈ ws, w.2.2 = k ∧ t0 < w.2.1 ∧ w.1 < t1
  | [], acc, k, h => Or.inl h
  | (w0, w1, spk) :: rest, acc, k, h => by
    unfold majTotals at h
    by_cases h1 : w1 ≤ t0
    · rw [if_pos h1] at h
      rcases majTotals_keys t0 t1 rest acc k h with hx | ⟨w, hw, he⟩
      · exact Or.inl hx
      · exact Or.inr ⟨w, List.mem_cons_of_mem _ hw, he⟩
    · rw [if_neg h1] at h
      by_cases h2 : w0 ≥ t1
      · rw [if_pos h2] at h
        exact Or.inl h
      · rw [if_neg h2] at h
        dsimp only at h
        by_cases h3 : min t1 w1 - max t0 w0 ≤ 0
        · rw [if_pos h3] at h
          rcases majTotals_keys t0 t1 rest acc k h with hx | ⟨w, hw, he⟩
          · exact Or.inl hx
          · exact Or.inr ⟨w, List.mem_cons_of_mem _ hw, he⟩
        · rw [if_neg h3] at h
          rcases majTotals_keys t0 t1 rest _ k h with hx | ⟨w, hw, he⟩
          · rcases mem_keys_alAdd acc spk _ k hx with hk | hx2
            · exact Or.inr ⟨(w0, w1, spk), List.mem_cons_self _ _,
                hk.symm, lt_of_not_le h1, lt_of_not_le h2⟩
            · exact Or.inl hx2
          · exact Or.inr ⟨w, List.mem_cons_of_mem _ hw, he⟩

/-- `majTotals` never discards a nonempty accumulator. -/
theorem majTotals_ne_nil (t0 t1 : ℚ) :
    ∀ (ws : List (ℚ × ℚ × String)) (acc : List (String × ℚ)),
    acc ≠ [] → majTotals t0 t1 ws acc ≠ []
  | [], acc, h => h
  | (w0, w1, spk) :: rest, acc, h => by
    unfold majTotals
    by_cases h1 : w1 ≤ t0
    · rw [if_pos h1]
      exact majTotals_ne_nil t0 t1 rest acc h
    · rw [if_neg h1]
      by_cases h2 : w0 ≥ t1
      · rw [if_pos h2]
        exact h
      · rw [if_neg h2]
        dsimp only
        by_cases h3 : min t1 w1 - max t0 w0 ≤ 0
        · rw [if_pos h3]
          exact majTotals_ne_nil t0 t1 rest acc h
        · rw [if_neg h3]
          exact majTotals_ne_nil t0 t1 rest _ (alAdd_ne_nil acc spk _)

/-- With the retained windows in chronological (nondecreasing-start) order,
any proper window overlapping `[t0, t1)` guarantees a nonempty total: the
source's early break cannot skip it. -/
theorem majTotals_overlap_ne_nil (t0 t1 : ℚ) (ht : t0 < t1) :
    ∀ (ws : List (ℚ × ℚ × String)) (acc : List (String × ℚ)),
    ws.Pairwise (fun a b => a.1 ≤ b.1) →
    (∃ w ∈ ws, t0 < w.2.1 ∧ w.1 < t1 ∧ w.1 < w.2.1) →
    majTotals t0 t1 ws acc ≠ []
  | [], _, _, hov => by simp at hov
  | (w0, w1, spk) :: rest, acc, hchain, hov => by
    obtain ⟨hhead, htail⟩ := List.pairwise_cons.mp hchain
    unfold majTotals
    by_cases h1 : w1 ≤ t0
    · rw [if_pos h1]
      obtain ⟨w, hw, hov1, hov2, hov3⟩ := hov
      rcases List.mem_cons.mp hw with rfl | hw2
      · exact absurd hov1 (not_lt.mpr h1)
      · exact majTotals_overlap_ne_nil t0 t1 ht rest acc htail ⟨w, hw2, hov1, hov2, hov3⟩
    · rw [if_neg h1]
      by_cases h2 : w0 ≥ t1
      · obtain ⟨w, hw, hov1, hov2, hov3⟩ := hov
        rcases List.mem_cons.mp hw with rfl | hw2
        · exact absurd hov2 (not_lt.mpr h2)
        · exact absurd hov2 (not_lt.mpr (le_trans h2 (hhead w hw2)))
      · rw [if_neg h2]
        dsimp only
        by_cases h3 : min t1 w1 - max t0 w0 ≤ 0
        · rw [if_pos h3]
          obtain ⟨w, hw, hov1, hov2, hov3⟩ := hov
          rcases List.mem_cons.mp hw with rfl | hw2
          · exfalso
            have hpos : max t0 w0 < min t1 w1 :=
              max_lt (lt_min ht (lt_of_not_le h1)) (lt_min (lt_of_not_le h2) hov3)
            linarith
          · exact majTotals_overlap_ne_nil t0 t1 ht rest acc htail ⟨w, hw2, hov1, hov2, hov3⟩
        · rw [if_neg h3]
          exact majTotals_ne_nil t0 t1 rest _ (alAdd_ne_nil acc spk _)

/-- **C5 (amended).**  When no cached recent-segment entry matches `(t0, t1)`
(within the 0.02 s tolerance), the live diarizer is active, and the
retained windows are proper (start < end, nonempty label) and in
chronological order, `majority_speaker(t0, t1)` with `t0 < t1` returns a
label occurring in at least one retained window overlapping `[t0, t1)`
whenever such a window exists.  The unamended claim is refuted by
`claim_c5_counterexample`: the recent-segment cache is consulted first and
can answer with a label absent from every overlapping window. -/
theorem claim_c5_majority_speaker (cfg : EngineCfg) (s : EngineState E) (t0 t1 : ℚ)
    (ht : t0 < t1)
    (hcache : pyTruthy (lookupCachedSpeaker s t0 t1) = false)
    (hlive : s.live_diarizer.isSome = true)
    (hsorted : s.diar_timeline.Pairwise (fun a b => a.1 ≤ b.1))
    (hwf : ∀ w ∈ s.diar_timeline, w.1 < w.2.1 ∧ w.2.2 ≠ "")
    (hov : ∃ w ∈ s.diar_timeline, t0 < w.2.1 ∧ w.1 < t1) :
    ∃ l, majoritySpeaker cfg s t0 t1 = some l ∧
      ∃ w ∈ s.diar_timeline, t0 < w.2.1 ∧ w.1 < t1 ∧ w.2.2 = l := by
  obtain ⟨w, hw, hov1, hov2⟩ := hov
  have hov3 : w.1 < w.2.1 := (hwf w hw).1
  have htne : s.diar_timeline ≠ [] := by
    intro hc
    rw [hc] at hw
    simp at hw
  have htotne : majTotals t0 t1 s.diar_timeline [] ≠ [] :=
    majTotals_overlap_ne_nil t0 t1 ht s.diar_timeline [] hsorted ⟨w, hw, hov1, hov2, hov3⟩
  obtain ⟨p, hp⟩ := Option.isSome_iff_exists.mp (pyMaxBySnd_isSome _ htotne)
  have hpk : p.1 ∈ keysOf (majTotals t0 t1 s.diar_timeline []) := by
    have hmem := pyMaxBySnd_mem _ _ hp
    simp only [keysOf, List.mem_map]
    exact ⟨p, hmem, rfl⟩
  rcases majTotals_keys t0 t1 s.diar_timeline [] p.1 hpk with hx | ⟨w2, hw2, he2, hee⟩
  · simp [keysOf] at hx
  · have hmaj : majoritySpeakerFromTimeline s t0 t1 = some p.1 := by
      unfold majoritySpeakerFromTimeline
      rw [if_neg (fun hc => htne (List.isEmpty_iff.mp hc))]
      rw [if_neg (fun hc => htotne (List.isEmpty_iff.mp hc))]
      rw [hp]
      rfl
    have hlne : p.1 ≠ "" := by
      rw [← he2]
      exact (hwf w2 hw2).2
    refine ⟨p.1, ?_, w2, hw2, hee.1, hee.2, he2⟩
    unfold majoritySpeaker
    dsimp only
    rw [hcache]
    simp only [Bool.false_eq_true, if_false]
    rw [if_pos hlive, hmaj]
    have : pyTruthy (some p.1) = true := by
      simp [pyTruthy, hlne]
    rw [this]
    simp

/-- The state of the cache counterexample: a finalized segment cached with
label "S2" over `[1, 2)`, while the only retained timeline window over the
same range is labelled "S1". -/
def c5State : EngineState ℕ :=
  { initEngine defaultEngineCfg 0 with
    diar_timeline := [(1, 2, "S1")],
    diar_recent_segments := [(1, 2, "S2")] }

/-- **C5 (counterexample to the claim as stated).**  A retained window
overlaps `[1, 2)` yet `majority_speaker 1 2` answers from the
recent-segment cache with "S2", a label occurring in no overlapping
window. -/
theorem claim_c5_counterexample :
    (1 : ℚ) < 2 ∧
    ((1 : ℚ), (2 : ℚ), "S1") ∈ c5State.diar_timeline ∧ (1 : ℚ) < 2 ∧ (1 : ℚ) < 2 ∧
    majoritySpeaker defaultEngineCfg c5State 1 2 = some "S2" ∧
    (∀ w ∈ c5State.diar_timeline, (1 < w.2.1 ∧ w.1 < 2) → w.2.2 ≠ "S2") := by
  refine ⟨by norm_num, by simp [c5State], by norm_num, by norm_num, ?_, ?_⟩
  · with_unfolding_all decide
  · intro w hw _
    simp only [c5State] at hw
    simp only [List.mem_singleton] at hw
    subst hw
    decide

def c5WitState : EngineState ℕ :=
  { initEngine defaultEngineCfg 0 with diar_timeline := [(1, 2, "S1"), (2, 3, "S1")] }

theorem claim_c5_witness :
    ((1 : ℚ) < 2 ∧ pyTruthy (lookupCachedSpeaker c5WitState 1 2) = false ∧
      c5WitState.live_diarizer.isSome = true ∧
      (∃ w ∈ c5WitState.diar_timeline, (1 : ℚ) < w.2.1 ∧ w.1 < 2)) ∧
    ∃ l, majoritySpeaker defaultEngineCfg c5WitState 1 2 = some l ∧
      ∃ w ∈ c5WitState.diar_timeline, (1 : ℚ) < w.2.1 ∧ w.1 < 2 ∧ w.2.2 = l :=
  ⟨⟨by norm_num, by with_unfolding_all decide, by decide,
    ⟨(1, 2, "S1"), by simp [c5WitState], by norm_num⟩⟩,
    claim_c5_majority_speaker defaultEngineCfg c5WitState 1 2 (by norm_num)
      (by with_unfolding_all decide) (by decide)
      (by with_unfolding_all decide)
      (by with_unfolding_all decide)
      ⟨(1, 2, "S1"), by simp [c5WitState], by norm_num⟩⟩

/-! ## Claim C10: silence never transitions the gate to speaking -/

/-- The post-calibration, post-adaptation state whose thresholds the
idle-time energy-gate comparison actually uses for this frame. -/
def decisionState (cfg : EngineCfg) (orc : Oracles E) (s : EngineState E)
    (frame : List ℚ) : EngineState E :=
  adaptNoise cfg orc (maybeCalibrate cfg orc s frame) frame

/-- Continuous silence: each frame's RMS stays below both energy thresholds
in effect at that frame's gate decision. -/
def SilentFrames [Inhabited E] (cfg : EngineCfg) (ops : EmbOps E) (orc : Oracles E) :
    EngineState E → List (List ℚ × ℚ) → Prop
  | _, [] => True
  | s, (frame, now) :: rest =>
    (orc.rms frame < (decisionState cfg orc
        { s with processed_samples := s.processed_samples + frame.length } frame).start_th ∧
     orc.rms frame < (decisionState cfg orc
        { s with processed_samples := s.processed_samples + frame.length } frame).stop_th) ∧
    SilentFrames cfg ops orc (processFrame cfg ops orc s frame now) rest

/-- Frame-level run of `_process_frame`. -/
def runFrames [Inhabited E] (cfg : EngineCfg) (ops : EmbOps E) (orc : Oracles E) :
    EngineState E → List (List ℚ × ℚ) → EngineState E
  | s, [] => s
  | s, (frame, now) :: rest => runFrames cfg ops orc (processFrame cfg ops orc s frame now) rest

theorem maybeCalibrate_gate_fields (cfg : EngineCfg) (orc : Oracles E)
    (s : EngineState E) (f : List ℚ) :
    (maybeCalibrate cfg orc s f).in_speech = s.in_speech ∧
    (maybeCalibrate cfg orc s f).segment_audio = s.segment_audio ∧
    (maybeCalibrate cfg orc s f).queue = s.queue ∧
    (maybeCalibrate cfg orc s f).segment_start_sample = s.segment_start_sample := by
  unfold maybeCalibrate
  split
  · exact ⟨rfl, rfl, rfl, rfl⟩
  · dsimp only
    split
    · split
      · exact ⟨rfl, rfl, rfl, rfl⟩
      · exact ⟨rfl, rfl, rfl, rfl⟩
    · exact ⟨rfl, rfl, rfl, rfl⟩

theorem adaptNoise_gate_fields (cfg : EngineCfg) (orc : Oracles E)
    (s : EngineState E) (f : List ℚ) :
    (adaptNoise cfg orc s f).in_speech = s.in_speech ∧
    (adaptNoise cfg orc s f).segment_audio = s.segment_audio ∧
    (adaptNoise cfg orc s f).queue = s.queue ∧
    (adaptNoise cfg orc s f).segment_start_sample = s.segment_start_sample := by
  unfold adaptNoise updateEnergyThresholds
  split
  · exact ⟨rfl, rfl, rfl, rfl⟩
  · exact ⟨rfl, rfl, rfl, rfl⟩

/-- One silent frame in the idle state: the gate stays idle, the segment,
queue and segment start are untouched. -/
theorem processFrame_silent [Inhabited E] (cfg : EngineCfg) (ops : EmbOps E)
    (orc : Oracles E) (s : EngineState E) (f : List ℚ) (now : ℚ)
    (hvad : cfg.vad_enabled = true) (hidle : s.in_speech = false)
    (hsil : orc.rms f < (decisionState cfg orc
      { s with processed_samples := s.processed_samples + f.length } f).start_th) :
    (processFrame cfg ops orc s f now).in_speech = false ∧
    (processFrame cfg ops orc s f now).segment_audio = s.segment_audio ∧
    (processFrame cfg ops orc s f now).queue = s.queue ∧
    (processFrame cfg ops orc s f now).segment_start_sample = s.segment_start_sample := by
  unfold processFrame
  rw [if_neg (by simp [hvad])]
  dsimp only
  set s1 : EngineState E := { s with processed_samples := s.processed_samples + f.length }
    with hs1
  obtain ⟨c1, c2, c3, c4⟩ := maybeCalibrate_gate_fields cfg orc s1 f
  obtain ⟨a1, a2, a3, a4⟩ := adaptNoise_gate_fields cfg orc (maybeCalibrate cfg orc s1 f) f
  have hd : decisionState cfg orc s1 f = adaptNoise cfg orc (maybeCalibrate cfg orc s1 f) f :=
    rfl
  have hidle2 : (adaptNoise cfg orc (maybeCalibrate cfg orc s1 f) f).in_speech = false := by
    rw [a1, c1]
    exact hidle
  rw [show isSpeech cfg orc (maybeCalibrate cfg orc s1 f) f =
    (decide (orc.rms f ≥ (if (adaptNoise cfg orc (maybeCalibrate cfg orc s1 f) f).in_speech
      then (adaptNoise cfg orc (maybeCalibrate cfg orc s1 f) f).stop_th
      else (adaptNoise cfg orc (maybeCalibrate cfg orc s1 f) f).start_th)),
      adaptNoise cfg orc (maybeCalibrate cfg orc s1 f) f) from rfl]
  dsimp only
  rw [hidle2]
  simp only [Bool.false_eq_true, if_false, not_false_eq_true, if_true]
  have hspeech : decide (orc.rms f ≥
      (adaptNoise cfg orc (maybeCalibrate cfg orc s1 f) f).start_th) = false := by
    rw [decide_eq_false_iff_not]
    rw [hd] at hsil
    exact not_le.mpr hsil
  rw [hspeech]
  simp only [Bool.false_eq_true, if_false]
  unfold appendPreAudio
  refine ⟨?_, ?_, ?_, ?_⟩
  · dsimp only
    rw [a1, c1]
    exact hidle
  · dsimp only
    rw [a2, c2]
  · dsimp only
    rw [a3, c3]
  · dsimp only
    rw [a4, c4]

/-- **C10.**  With the energy classifier active, a gate that is idle never
transitions to speaking on continuous silence: across any frame sequence
whose every frame stays below the thresholds in effect, the in-speech
flag remains false, no segment is ever seeded, and nothing is emitted. -/
theorem claim_c10_silence_never_speaks [Inhabited E] (cfg : EngineCfg) (ops : EmbOps E)
    (orc : Oracles E) (hvad : cfg.vad_enabled = true) :
    ∀ (inputs : List (List ℚ × ℚ)) (s : EngineState E),
    s.in_speech = false → SilentFrames cfg ops orc s inputs →
    (runFrames cfg ops orc s inputs).in_speech = false ∧
    (runFrames cfg ops orc s inputs).segment_audio = s.segment_audio ∧
    (runFrames cfg ops orc s inputs).queue = s.queue ∧
    (runFrames cfg ops orc s inputs).segment_start_sample = s.segment_start_sample
  | [], s, hidle, _ => ⟨hidle, rfl, rfl, rfl⟩
  | (frame, now) :: rest, s, hidle, hsil => by
    obtain ⟨⟨h1, _⟩, hrest⟩ := hsil
    obtain ⟨p1, p2, p3, p4⟩ := processFrame_silent cfg ops orc s frame now hvad hidle h1
    obtain ⟨r1, r2, r3, r4⟩ := claim_c10_silence_never_speaks cfg ops orc hvad rest
      (processFrame cfg ops orc s frame now) p1 hrest
    simp only [runFrames]
    exact ⟨r1, by rw [r2, p2], by rw [r3, p3], by rw [r4, p4]⟩

/-- Oracles for the silence witness: silent frames (zero RMS), no decode
output, no embeddings. -/
def c10Orc : Oracles ℕ where
  decode _ := ""
  embed _ := none
  rms _ := 0

theorem c10SilentWitness :
    SilentFrames defaultEngineCfg witOps c10Orc (initEngine defaultEngineCfg 0)
      [(List.replicate 320 0, 0), (List.replicate 320 0, 1)] := by
  simp only [SilentFrames]
  exact ⟨⟨by with_unfolding_all decide, by with_unfolding_all decide⟩,
    ⟨by with_unfolding_all decide, by with_unfolding_all decide⟩, trivial⟩

theorem claim_c10_witness :
    defaultEngineCfg.vad_enabled = true ∧
    (initEngine defaultEngineCfg 0 : EngineState ℕ).in_speech = false ∧
    SilentFrames defaultEngineCfg witOps c10Orc (initEngine defaultEngineCfg 0)
      [(List.replicate 320 0, 0), (List.replicate 320 0, 1)] ∧
    (runFrames defaultEngineCfg witOps c10Orc (initEngine defaultEngineCfg 0)
      [(List.replicate 320 0, 0), (List.replicate 320 0, 1)]).in_speech = false :=
  ⟨rfl, rfl, c10SilentWitness,
    (claim_c10_silence_never_speaks defaultEngineCfg witOps c10Orc rfl
      [(List.replicate 320 0, 0), (List.replicate 320 0, 1)]
      (initEngine defaultEngineCfg 0) rfl c10SilentWitness).1⟩

/-! ## Claim C8: short segments are discarded but their audio is preserved -/

theorem chunkList_flatten (block : ℕ) (hb : block ≠ 0) :
    ∀ (l : List ℚ), (chunkList block l).flatten = l
  | [] => by simp [chunkList]
  | x :: rest => by
    unfold chunkList
    rw [dif_neg hb]
    have hlt : ((x :: rest).drop block).length < (x :: rest).length := by
      simp only [List.length_drop, List.length_cons]
      omega
    rw [List.flatten_cons, chunkList_flatten block hb ((x :: rest).drop block)]
    exact List.take_append_drop block (x :: rest)
  termination_by l => l.length
  decreasing_by
    simp only [List.length_drop, List.length_cons]
    omega

theorem chunkList_count (block : ℕ) (hb : block ≠ 0) :
    ∀ (l : List ℚ) (n : ℕ), l.length ≤ n * block → (chunkList block l).length ≤ n
  | [], n, _ => by simp [chunkList]
  | x :: rest, n, h => by
    unfold chunkList
    rw [dif_neg hb]
    cases n with
    | zero =>
      exfalso
      simp at h
    | succ m =>
      simp only [List.length_cons]
      have hdrop : ((x :: rest).drop block).length ≤ m * block := by
        simp only [List.length_drop, List.length_cons]
        have := h
        simp only [List.length_cons] at this
        have hmul : (m + 1) * block = m * block + block := by ring
        omega
      have := chunkList_count block hb ((x :: rest).drop block) m hdrop
      omega
  termination_by l => l.length
  decreasing_by
    simp only [List.length_drop, List.length_cons]
    omega

/-- Pushing at most the capacity into an empty deque never drops. -/
theorem dequePush_foldl {α : Type} (maxlen : ℕ) :
    ∀ (chunks acc : List (List α)), acc.length + chunks.length ≤ maxlen →
    chunks.foldl (dequePush maxlen) acc = acc ++ chunks
  | [], acc, _ => by simp
  | c :: rest, acc, h => by
    simp only [List.foldl_cons]
    have hlen : acc.length < maxlen := by
      simp only [List.length_cons] at h
      omega
    have hpush : dequePush maxlen acc c = acc ++ [c] := by
      unfold dequePush
      rw [if_neg (by omega), if_neg (by omega)]
    rw [hpush, dequePush_foldl maxlen rest (acc ++ [c]) (by simp at h ⊢; omega)]
    simp

/-- **C8.**  When the segment audio kept after the backtrace cut is shorter
than `min_turn_sec * 0.5`, `_finalize_segment` enqueues nothing, and the
kept audio together with the backtrace remainder is preserved as the tail
that seeds the next segment's pre-roll ring buffer (capped to the
buffer's capacity, keeping the most recent samples). -/
theorem claim_c8_short_segment_discard [Inhabited E] (cfg : EngineCfg) (orc : Oracles E)
    (s : EngineState E) (cut : ℚ)
    (hne : s.segment_audio.flatten.length ≠ 0) (hblock : cfg.block ≠ 0)
    (hshort : ((backtraceSplit cfg s.segment_audio.flatten cut).1.length : ℚ) / (cfg.sr : ℚ) <
      cfg.min_turn_sec * (1/2)) :
    (finalizeSegment cfg orc s cut).queue = s.queue ∧
    (finalizeSegment cfg orc s cut).pre_audio.flatten =
      ((backtraceSplit cfg s.segment_audio.flatten cut).1 ++
        (backtraceSplit cfg s.segment_audio.flatten cut).2).drop
        (((backtraceSplit cfg s.segment_audio.flatten cut).1 ++
          (backtraceSplit cfg s.segment_audio.flatten cut).2).length -
          min (((backtraceSplit cfg s.segment_audio.flatten cut).1 ++
            (backtraceSplit cfg s.segment_audio.flatten cut).2).length)
            (cfg.prepad_frames * cfg.block)) ∧
    (finalizeSegment cfg orc s cut).segment_audio = [] ∧
    (finalizeSegment cfg orc s cut).in_speech = false := by
  have hnil : ¬s.segment_audio.isEmpty = true := by
    intro hc
    rw [List.isEmpty_iff.mp hc] at hne
    simp at hne
  unfold finalizeSegment
  rw [if_neg hnil, if_neg hne]
  dsimp only
  have hbranch : ((backtraceSplit cfg s.segment_audio.flatten cut).1.length : ℚ) /
      (cfg.sr : ℚ) < max (1/10) (cfg.min_turn_sec * (1/2)) :=
    lt_of_lt_of_le hshort (le_max_right _ _)
  rw [if_pos hbranch]
  set t := (backtraceSplit cfg s.segment_audio.flatten cut).1 ++
    (backtraceSplit cfg s.segment_audio.flatten cut).2 with hT
  unfold resetSegmentState
  by_cases hz : t.length = 0
  · rw [if_pos hz]
    refine ⟨rfl, ?_, rfl, rfl⟩
    simp [hz, List.length_eq_zero.mp hz]
  · rw [if_neg hz]
    dsimp only
    set cap := cfg.prepad_frames * cfg.block with hcap
    set t2 := if cap < t.length then t.drop (t.length - cap) else t with ht2
    have ht2len : t2.length ≤ cap := by
      rw [ht2]
      by_cases hc : cap < t.length
      · rw [if_pos hc]
        simp only [List.length_drop]
        omega
      · rw [if_neg hc]
        omega
    have hcount : (chunkList cfg.block t2).length ≤ cfg.prepad_frames := by
      apply chunkList_count cfg.block hblock
      rw [hcap] at ht2len
      calc t2.length ≤ cfg.prepad_frames * cfg.block := ht2len
        _ = cfg.prepad_frames * cfg.block := rfl
    have hfold := dequePush_foldl cfg.prepad_frames (chunkList cfg.block t2) []
      (by simpa using hcount)
    refine ⟨rfl, ?_, rfl, rfl⟩
    dsimp only
    rw [hfold]
    simp only [List.nil_append]
    rw [chunkList_flatten cfg.block hblock t2]
    rw [ht2]
    by_cases hc : cap < t.length
    · rw [if_pos hc]
      congr 1
      omega
    · rw [if_neg hc]
      have : t.length - min t.length cap = 0 := by omega
      rw [this]
      simp

/-- Embedding/decoder oracles for the C8 instantiation (irrelevant to the
discard branch, which consults none of them). -/
def c8Orc : Oracles ℕ where
  decode _ := ""
  embed _ := none
  rms _ := 0

/-- A fresh engine holding a 3-sample segment: at 16 kHz that is far below
`min_turn_sec * 0.5 = 0.4 s`, so closing it must discard. -/
def c8State : EngineState ℕ :=
  { initEngine defaultEngineCfg 0 with segment_audio := [[1, 2, 3]] }

/-- Concrete instantiation of the C8 theorem: the 3-sample segment is
dropped from the queue and survives in full as the pre-roll buffer. -/
theorem claim_c8_witness :
    c8State.segment_audio.flatten.length ≠ 0 ∧
    defaultEngineCfg.block ≠ 0 ∧
    (((backtraceSplit defaultEngineCfg c8State.segment_audio.flatten 0).1.length : ℚ) /
      (defaultEngineCfg.sr : ℚ) < defaultEngineCfg.min_turn_sec * (1/2)) ∧
    ((finalizeSegment defaultEngineCfg c8Orc c8State 0).queue = c8State.queue ∧
     (finalizeSegment defaultEngineCfg c8Orc c8State 0).pre_audio.flatten =
       ((backtraceSplit defaultEngineCfg c8State.segment_audio.flatten 0).1 ++
         (backtraceSplit defaultEngineCfg c8State.segment_audio.flatten 0).2).drop
         (((backtraceSplit defaultEngineCfg c8State.segment_audio.flatten 0).1 ++
           (backtraceSplit defaultEngineCfg c8State.segment_audio.flatten 0).2).length -
           min (((backtraceSplit defaultEngineCfg c8State.segment_audio.flatten 0).1 ++
             (backtraceSplit defaultEngineCfg c8State.segment_audio.flatten 0).2).length)
             (defaultEngineCfg.prepad_frames * defaultEngineCfg.block)) ∧
     (finalizeSegment defaultEngineCfg c8Orc c8State 0).segment_audio = [] ∧
     (finalizeSegment defaultEngineCfg c8Orc c8State 0).in_speech = false) :=
  ⟨by with_unfolding_all decide, by with_unfolding_all decide,
   by with_unfolding_all decide,
   claim_c8_short_segment_discard defaultEngineCfg c8Orc c8State 0
     (by with_unfolding_all decide) (by with_unfolding_all decide)
     (by with_unfolding_all decide)⟩

/-! ## Claim C3: replay determinism -/

/-- Clusterer configuration for the replay experiment: a long bootstrap
window (so the C1 eager-seed path governs the first cluster), a 2 s freeze
window and short cooldown/duration gates, pruning disabled. -/
def c3Ccfg : ClusterCfg :=
  { defaultClusterCfg with
      sr := 1, boot_sec := 100, freeze_sec := 2,
      new_cooldown := 1, new_min_sec := 1/2, min_short := 1/2, min_switch := 1/2,
      prune_sec := 0 }

/-- Engine configuration for the replay experiment: 1 Hz audio with
1-sample frames and diarization windows so each chunk is one second and
one diarization window, energy gate off, 3 s max-turn cut. -/
def c3Cfg : EngineCfg :=
  { defaultEngineCfg with
      sr := 1, block := 1, vad_enabled := false,
      max_turn_sec := 3, min_turn_sec := 0, min_asr_sec := 0,
      tail_keep_samples := 0, spk_split_min_sec := 1, spk_split_min_cover := 1/2,
      diar_win_samples := 1, diar_hop_samples := 1, diar_retention_samples := 1000000,
      ccfg := c3Ccfg }

/-- Oracles for the replay experiment: every window decodes to `"a"`, and
the two distinct 1-sample windows embed to two orthogonal vectors. -/
def c3Orc : Oracles ℕ where
  decode _ := "a"
  embed w := if w = [1] then some 1 else if w = [2] then some 2 else none
  rms _ := 0

/-- Three chunks of the same audio, observed with a 10 s pause before the
second chunk. -/
def c3InputsA : List (List ℚ × ℚ) := [([1], 0), ([2], 10), ([2], 11)]

/-- The same three chunks of audio, observed back-to-back. -/
def c3InputsB : List (List ℚ × ℚ) := [([1], 0), ([2], 1), ([2], 3/2)]

/-- Refutation of C3 as stated: the same PCM chunk sequence fed twice into
a fresh engine yields different finalized segments when only the
wall-clock pacing differs, because the clusterer's freeze, cooldown and
sticky gates compare `time.monotonic()` stamps: the paced run splits the
3 s turn into an S1 and an S2 segment, the fast run emits one S1 segment. -/
theorem claim_c3_counterexample :
    c3InputsA.map Prod.fst = c3InputsB.map Prod.fst ∧
    finalizedWithSpeakers c3Cfg (runEngine c3Cfg witOps c3Orc (initEngine c3Cfg 0) c3InputsA) ≠
      finalizedWithSpeakers c3Cfg (runEngine c3Cfg witOps c3Orc (initEngine c3Cfg 0) c3InputsB) := by
  constructor
  · rfl
  · with_unfolding_all decide

/-- Two pair lists with the same first and the same second projections are
equal. -/
theorem pairList_ext {α β : Type} : ∀ (l1 l2 : List (α × β)),
    l1.map Prod.fst = l2.map Prod.fst → l1.map Prod.snd = l2.map Prod.snd → l1 = l2
  | [], [], _, _ => rfl
  | [], _ :: _, h, _ => by simp at h
  | _ :: _, [], h, _ => by simp at h
  | (a, b) :: r1, (c, d) :: r2, h1, h2 => by
    simp only [List.map_cons, List.cons.injEq] at h1 h2
    rw [h1.1, h2.1, pairList_ext r1 r2 h1.2 h2.2]

/-- **C3 (amended).**  Replay determinism holds only when the wall-clock
observation instants are replayed along with the audio: two runs from
freshly constructed engines that see the same chunk sequence at the same
monotonic instants produce identical finalized (start, end, text, speaker)
tuples.  With the chunks alone equal the property fails
(`claim_c3_counterexample`): the clusterer's freeze, cooldown and sticky
gates read `time.monotonic()`, so pacing leaks into labels. -/
theorem claim_c3_replay_determinism [Inhabited E] (cfg : EngineCfg) (ops : EmbOps E)
    (orc : Oracles E) (t0 : ℚ) (inputs1 inputs2 : List (List ℚ × ℚ))
    (hchunks : inputs1.map Prod.fst = inputs2.map Prod.fst)
    (htimes : inputs1.map Prod.snd = inputs2.map Prod.snd) :
    finalizedWithSpeakers cfg (runEngine cfg ops orc (initEngine cfg t0) inputs1) =
      finalizedWithSpeakers cfg (runEngine cfg ops orc (initEngine cfg t0) inputs2) := by
  rw [pairList_ext inputs1 inputs2 hchunks htimes]

/-- Concrete instantiation of the amended C3 theorem on the back-to-back
input stream. -/
theorem claim_c3_witness :
    c3InputsB.map Prod.fst = c3InputsB.map Prod.fst ∧
    c3InputsB.map Prod.snd = c3InputsB.map Prod.snd ∧
    finalizedWithSpeakers c3Cfg (runEngine c3Cfg witOps c3Orc (initEngine c3Cfg 0) c3InputsB) =
      finalizedWithSpeakers c3Cfg (runEngine c3Cfg witOps c3Orc (initEngine c3Cfg 0) c3InputsB) :=
  ⟨rfl, rfl, claim_c3_replay_determinism c3Cfg witOps c3Orc 0 c3InputsB c3InputsB rfl rfl⟩

/-! ## Claim C7: finalized segments are emitted in time order -/

/-- Total samples currently held in the pre-roll ring buffer. -/
def preTotal (s : EngineState E) : ℕ := (s.pre_audio.map List.length).sum

/-- The pre-roll buffer's sample capacity (`prepad_frames * block`). -/
def capOf (cfg : EngineCfg) : ℕ := cfg.prepad_frames * cfg.block

/-- A lower bound (in samples) on the start of any future emission: the
frozen segment anchor while a segment is open, else the processed count
minus the larger of the accumulated segment audio and the pre-roll cap. -/
def lowOf (cfg : EngineCfg) (s : EngineState E) : ℤ :=
  match s.segment_start_sample with
  | some st => (st : ℤ)
  | none => (s.processed_samples : ℤ) - max (segTotal s) (capOf cfg)

/-- The state components the emission-order invariant depends on. -/
def coreOf (s : EngineState E) :
    List (ℚ × ℚ × String × List ℚ) × ℕ × List (List ℚ) × Option ℕ × List (List ℚ) × Bool :=
  (s.queue, s.processed_samples, s.segment_audio, s.segment_start_sample, s.pre_audio,
   s.in_speech)

/-- Configuration side conditions for the emission-order invariant: a
positive sample rate, and a pre-roll capacity of at most the shortest
emittable segment (`max(0.1, min_turn*0.5)` seconds) and at most the
per-speaker split's minimum span. -/
structure C7Cfg (cfg : EngineCfg) : Prop where
  sr_pos : 0 < cfg.sr
  cap_floor : ((capOf cfg : ℕ) : ℚ) ≤ max (1/10) (cfg.min_turn_sec * (1/2)) * (cfg.sr : ℚ)
  cap_split : ((capOf cfg : ℕ) : ℚ) ≤ cfg.spk_split_min_sec * (cfg.sr : ℚ)

/-- The emission-order invariant. -/
structure EmitInv (cfg : EngineCfg) (s : EngineState E) : Prop where
  sorted : List.Pairwise (· ≤ ·) (s.queue.map (fun q => q.1))
  low_bound : ∀ q ∈ s.queue, q.1 * (cfg.sr : ℚ) ≤ ((lowOf cfg s : ℤ) : ℚ)
  proc_bound : ∀ q ∈ s.queue,
    q.1 * (cfg.sr : ℚ) + ((capOf cfg : ℕ) : ℚ) ≤ (s.processed_samples : ℚ)
  seg_anchor : ∀ st, s.segment_start_sample = some st → st + segTotal s = s.processed_samples
  seg_le : segTotal s ≤ s.processed_samples
  pre_le : preTotal s ≤ s.processed_samples
  pre_entries : ∀ c ∈ s.pre_audio, c.length ≤ cfg.block
  pre_count : s.pre_audio.length ≤ cfg.prepad_frames
  idle_none : s.in_speech = false → s.segment_start_sample = none

theorem inv_of_core_eq (cfg : EngineCfg) (s s' : EngineState E)
    (hc : coreOf s' = coreOf s) (h : EmitInv cfg s) : EmitInv cfg s' := by
  have hq : s'.queue = s.queue := congrArg (fun t => t.1) hc
  have hp : s'.processed_samples = s.processed_samples := congrArg (fun t => t.2.1) hc
  have hsa : s'.segment_audio = s.segment_audio := congrArg (fun t => t.2.2.1) hc
  have hss : s'.segment_start_sample = s.segment_start_sample :=
    congrArg (fun t => t.2.2.2.1) hc
  have hpa : s'.pre_audio = s.pre_audio := congrArg (fun t => t.2.2.2.2.1) hc
  have his : s'.in_speech = s.in_speech := congrArg (fun t => t.2.2.2.2.2) hc
  have hst : segTotal s' = segTotal s := by unfold segTotal; rw [hsa]
  have hpt : preTotal s' = preTotal s := by unfold preTotal; rw [hpa]
  have hlo : lowOf cfg s' = lowOf cfg s := by unfold lowOf; rw [hss, hp, hst]
  exact ⟨hq ▸ h.sorted, by rw [hq, hlo]; exact h.low_bound,
    by rw [hq, hp]; exact h.proc_bound,
    by rw [hss, hst, hp]; exact h.seg_anchor,
    by rw [hst, hp]; exact h.seg_le, by rw [hpt, hp]; exact h.pre_le,
    by rw [hpa]; exact h.pre_entries, by rw [hpa]; exact h.pre_count,
    by rw [his, hss]; exact h.idle_none⟩

theorem dequePush_length_le {α : Type} (maxlen : ℕ) (l : List α) (x : α)
    (h : l.length ≤ maxlen) : (dequePush maxlen l x).length ≤ maxlen := by
  unfold dequePush
  by_cases h0 : maxlen = 0
  · rw [if_pos h0]; simp [h0]
  · rw [if_neg h0]
    by_cases hge : l.length ≥ maxlen
    · rw [if_pos hge]
      rcases l with _ | ⟨a, t⟩
      · simp at hge; omega
      · simp at h ⊢; omega
    · rw [if_neg hge]; simp; omega

theorem dequePush_mem {α : Type} (maxlen : ℕ) (l : List α) (x c : α)
    (h : c ∈ dequePush maxlen l x) : c ∈ l ∨ c = x := by
  unfold dequePush at h
  by_cases h0 : maxlen = 0
  · rw [if_pos h0] at h; simp at h
  · rw [if_neg h0] at h
    by_cases hge : l.length ≥ maxlen
    · rw [if_pos hge] at h
      rcases List.mem_append.mp h with h' | h'
      · exact Or.inl (List.mem_of_mem_tail h')
      · exact Or.inr (List.mem_singleton.mp h')
    · rw [if_neg hge] at h
      rcases List.mem_append.mp h with h' | h'
      · exact Or.inl h'
      · exact Or.inr (List.mem_singleton.mp h')

theorem dequePush_sum_le (maxlen : ℕ) (l : List (List ℚ)) (x : List ℚ) :
    ((dequePush maxlen l x).map List.length).sum ≤ (l.map List.length).sum + x.length := by
  unfold dequePush
  by_cases h0 : maxlen = 0
  · rw [if_pos h0]; simp
  · rw [if_neg h0]
    by_cases hge : l.length ≥ maxlen
    · rw [if_pos hge]
      rcases l with _ | ⟨a, t⟩
      · simp
      · simp
    · rw [if_neg hge]; simp

theorem preTotal_le_cap {l : List (List ℚ)} {b n : ℕ}
    (h1 : ∀ c ∈ l, c.length ≤ b) (h2 : l.length ≤ n) :
    (l.map List.length).sum ≤ n * b := by
  induction l generalizing n with
  | nil => simp
  | cons a t ih =>
    rcases n with _ | m
    · simp at h2
    · have hh := ih (fun c hc => h1 c (List.mem_cons_of_mem a hc)) (by simpa using h2)
      have ha := h1 a (List.mem_cons_self a t)
      simp only [List.map_cons, List.sum_cons]
      calc a.length + (t.map List.length).sum ≤ b + m * b := by omega
        _ = (m + 1) * b := by ring
        _ = Nat.succ m * b := rfl

theorem emit_fields (cfg : EngineCfg) (orc : Oracles E) (s : EngineState E)
    (audio : List ℚ) (start_s end_s : ℚ) (hint : Option String) :
    (emitSegmentChunk cfg orc s audio start_s end_s hint).2.processed_samples =
        s.processed_samples ∧
    (emitSegmentChunk cfg orc s audio start_s end_s hint).2.segment_audio = s.segment_audio ∧
    (emitSegmentChunk cfg orc s audio start_s end_s hint).2.segment_start_sample =
        s.segment_start_sample ∧
    (emitSegmentChunk cfg orc s audio start_s end_s hint).2.pre_audio = s.pre_audio ∧
    (emitSegmentChunk cfg orc s audio start_s end_s hint).2.in_speech = s.in_speech ∧
    (emitSegmentChunk cfg orc s audio start_s end_s hint).2.spk_tracker = s.spk_tracker ∧
    (emitSegmentChunk cfg orc s audio start_s end_s hint).2.current_speaker =
        s.current_speaker := by
  unfold emitSegmentChunk cacheSegmentSpeaker
  dsimp only
  split
  · exact ⟨rfl, rfl, rfl, rfl, rfl, rfl, rfl⟩
  · split <;> exact ⟨rfl, rfl, rfl, rfl, rfl, rfl, rfl⟩

theorem emit_queue_spec (cfg : EngineCfg) (orc : Oracles E) (s : EngineState E)
    (audio : List ℚ) (start_s end_s : ℚ) (hint : Option String) :
    (emitSegmentChunk cfg orc s audio start_s end_s hint).2.queue = s.queue ∨
    (emitSegmentChunk cfg orc s audio start_s end_s hint).2.queue =
      s.queue ++ [(start_s, end_s,
        (orc.decode (padToLen audio cfg.min_asr_sec cfg.sr)).trim, audio)] := by
  unfold emitSegmentChunk cacheSegmentSpeaker
  dsimp only
  split
  · exact Or.inl rfl
  · split <;> exact Or.inr rfl

theorem pairwise_filterMap_rel {α β : Type} (R : α → α → Prop) (S : β → β → Prop)
    (f : α → Option β) (l : List α) (h : List.Pairwise R l)
    (hf : ∀ a b x y, R a b → f a = some x → f b = some y → S x y) :
    List.Pairwise S (l.filterMap f) := by
  induction l with
  | nil => simp
  | cons a t ih =>
    rcases List.pairwise_cons.mp h with ⟨ha, ht⟩
    cases hfa : f a with
    | none => simpa [List.filterMap_cons, hfa] using ih ht
    | some x =>
      simp only [List.filterMap_cons, hfa]
      refine List.pairwise_cons.mpr ⟨?_, ih ht⟩
      intro y hy
      obtain ⟨b, hb, hfb⟩ := List.mem_filterMap.mp hy
      exact hf a b x y (ha b hb) hfa hfb

theorem insertByStart_mem (p x : ℚ × ℚ × String) (l : List (ℚ × ℚ × String))
    (h : x ∈ insertByStart p l) : x = p ∨ x ∈ l := by
  induction l with
  | nil =>
    simp only [insertByStart, List.mem_singleton] at h
    exact Or.inl h
  | cons q rest ih =>
    simp only [insertByStart] at h
    split at h
    · rcases List.mem_cons.mp h with h' | h'
      · exact Or.inr (List.mem_cons.mpr (Or.inl h'))
      · rcases ih h' with h'' | h''
        · exact Or.inl h''
        · exact Or.inr (List.mem_cons.mpr (Or.inr h''))
    · rcases List.mem_cons.mp h with h' | h'
      · exact Or.inl h'
      · exact Or.inr h'

theorem insertByStart_sorted (p : ℚ × ℚ × String) (l : List (ℚ × ℚ × String))
    (h : List.Pairwise (fun a b : ℚ × ℚ × String => a.1 ≤ b.1) l) :
    List.Pairwise (fun a b : ℚ × ℚ × String => a.1 ≤ b.1) (insertByStart p l) := by
  induction l with
  | nil => simp [insertByStart]
  | cons q rest ih =>
    rcases List.pairwise_cons.mp h with ⟨hq, hrest⟩
    simp only [insertByStart]
    split
    · refine List.pairwise_cons.mpr ⟨?_, ih hrest⟩
      intro x hx
      rcases insertByStart_mem p x rest hx with h' | h'
      · rw [h']; assumption
      · exact hq x h'
    · rename_i hc
      refine List.pairwise_cons.mpr ⟨?_, h⟩
      intro x hx
      have hpq : p.1 ≤ q.1 := le_of_lt (lt_of_not_le hc)
      rcases List.mem_cons.mp hx with h' | h'
      · rw [h']; exact hpq
      · exact le_trans hpq (hq x h')

theorem sortByStart_sorted_aux (l acc : List (ℚ × ℚ × String))
    (hacc : List.Pairwise (fun a b : ℚ × ℚ × String => a.1 ≤ b.1) acc) :
    List.Pairwise (fun a b : ℚ × ℚ × String => a.1 ≤ b.1)
      (l.foldl (fun acc w => insertByStart w acc) acc) := by
  induction l generalizing acc with
  | nil => simpa using hacc
  | cons w rest ih => exact ih (insertByStart w acc) (insertByStart_sorted w acc hacc)

theorem sortByStart_sorted (l : List (ℚ × ℚ × String)) :
    List.Pairwise (fun a b : ℚ × ℚ × String => a.1 ≤ b.1) (sortByStart l) :=
  sortByStart_sorted_aux l [] (List.Pairwise.nil)

theorem mergeSpans_props (l : List (ℚ × ℚ × String)) :
    ∀ cur : ℚ × ℚ × String, (∀ w ∈ l, cur.1 ≤ w.1) →
    List.Pairwise (fun a b : ℚ × ℚ × String => a.1 ≤ b.1) l →
    List.Pairwise (fun a b : ℚ × ℚ × String => a.1 ≤ b.1) (mergeSpansLoop cur l) ∧
      ∀ x ∈ mergeSpansLoop cur l, cur.1 ≤ x.1 := by
  induction l with
  | nil =>
    intro cur _ _
    refine ⟨List.pairwise_singleton .., ?_⟩
    intro x hx
    rw [List.mem_singleton.mp hx]
  | cons w rest ih =>
    intro cur h1 h2
    rcases List.pairwise_cons.mp h2 with ⟨hw, hrest⟩
    rcases w with ⟨ws, we, wl⟩
    simp only [mergeSpansLoop]
    split
    · exact ih (cur.1, max cur.2.1 we, cur.2.2)
        (fun v hv => h1 v (List.mem_cons_of_mem _ hv)) hrest
    · have hcw : cur.1 ≤ ws := h1 (ws, we, wl) (List.mem_cons_self _ _)
      obtain ⟨hp, hm⟩ := ih (ws, we, wl) hw hrest
      constructor
      · refine List.pairwise_cons.mpr ⟨?_, hp⟩
        intro x hx
        exact le_trans hcw (hm x hx)
      · intro x hx
        rcases List.mem_cons.mp hx with h' | h'
        · rw [h']
        · exact le_trans hcw (hm x h')

theorem extendLast_startsOf (t1 : ℚ) : ∀ l : List (ℚ × ℚ × String),
    (extendLast t1 l).map Prod.fst = l.map Prod.fst
  | [] => rfl
  | [(a, b, lb)] => by
    simp only [extendLast]
    split <;> rfl
  | p :: q :: rest => by
    simp only [extendLast, List.map_cons]
    rw [show (extendLast t1 (q :: rest)).map Prod.fst = (q :: rest).map Prod.fst from
      extendLast_startsOf t1 (q :: rest)]
    rfl

theorem normalizeLoop_startsOf : ∀ (l : List (ℚ × ℚ × String)) (p : ℚ × ℚ × String),
    (normalizeLoop p l).map Prod.fst = p.1 :: l.map Prod.fst
  | [], p => rfl
  | (a, b, lb) :: rest, p => by
    simp only [normalizeLoop]
    split
    · simp only [List.map_cons, normalizeLoop_startsOf rest (a, b, lb)]
    · simp only [List.map_cons, normalizeLoop_startsOf rest (a, b, lb)]

/-- Well-formedness of a speaker-span list for a segment `[t0, t1)`:
starts are nondecreasing, at least `split` before the segment end, and not
before the segment start. -/
def SpanOK (split t0 t1 : ℚ) (l : List (ℚ × ℚ × String)) : Prop :=
  List.Pairwise (· ≤ ·) (l.map Prod.fst) ∧
  ∀ a ∈ l.map Prod.fst, t0 ≤ a ∧ a + split ≤ t1

theorem spanOK_nil (split t0 t1 : ℚ) : SpanOK split t0 t1 [] := ⟨by simp, by simp⟩

theorem speakerSpans_ok (cfg : EngineCfg) (s : EngineState E) (t0 t1 : ℚ) :
    SpanOK cfg.spk_split_min_sec t0 t1 (speakerSpansForSegment cfg s t0 t1) := by
  unfold speakerSpansForSegment
  dsimp only
  split
  · exact spanOK_nil _ _ _
  split
  · exact spanOK_nil _ _ _
  rcases hs : sortByStart (segmentDiarWindows s t0 t1) with _ | ⟨w, rest⟩
  · dsimp only [List.filterMap_nil]
    rw [if_pos (by simp)]
    exact spanOK_nil _ _ _
  have hsort := sortByStart_sorted (segmentDiarWindows s t0 t1)
  rw [hs] at hsort
  rcases List.pairwise_cons.mp hsort with ⟨hw, hrest⟩
  obtain ⟨hspansP, _⟩ := mergeSpans_props rest w hw hrest
  dsimp only
  have hCmem : ∀ c ∈ (mergeSpansLoop w rest).filterMap (fun sp =>
      if min t1 sp.2.1 - max t0 sp.1 ≤ 0 then none
      else some (max t0 sp.1, min t1 sp.2.1, sp.2.2)),
      t0 ≤ c.1 ∧ c.2.1 ≤ t1 := by
    intro c hc
    obtain ⟨sp, _, hfc⟩ := List.mem_filterMap.mp hc
    split at hfc
    · exact absurd hfc (by simp)
    · cases Option.some.inj hfc
      exact ⟨le_max_left _ _, min_le_left _ _⟩
  have hCsorted : List.Pairwise (fun a b : ℚ × ℚ × String => a.1 ≤ b.1)
      ((mergeSpansLoop w rest).filterMap (fun sp =>
        if min t1 sp.2.1 - max t0 sp.1 ≤ 0 then none
        else some (max t0 sp.1, min t1 sp.2.1, sp.2.2))) := by
    refine pairwise_filterMap_rel (fun a b : ℚ × ℚ × String => a.1 ≤ b.1) _ _ _ hspansP ?_
    intro a b x y hab hx hy
    split at hx
    · exact absurd hx (by simp)
    split at hy
    · exact absurd hy (by simp)
    cases Option.some.inj hx
    cases Option.some.inj hy
    exact max_le_max le_rfl hab
  split
  · exact spanOK_nil _ _ _
  split
  · exact spanOK_nil _ _ _
  rename_i hlen hany
  have hCsp : ∀ c ∈ (mergeSpansLoop w rest).filterMap (fun sp =>
      if min t1 sp.2.1 - max t0 sp.1 ≤ 0 then none
      else some (max t0 sp.1, min t1 sp.2.1, sp.2.2)),
      cfg.spk_split_min_sec ≤ c.2.1 - c.1 := by
    intro c hc
    by_contra hlt
    exact hany (List.any_eq_true.mpr ⟨c, hc, by simpa using not_le.mp hlt⟩)
  split
  · exact spanOK_nil _ _ _
  -- the split branch proper
  revert hCmem hCsorted hCsp hlen
  generalize (mergeSpansLoop w rest).filterMap (fun sp =>
      if min t1 sp.2.1 - max t0 sp.1 ≤ 0 then none
      else some (max t0 sp.1, min t1 sp.2.1, sp.2.2)) = C
  intro hCmem hCsorted hlen hCsp
  have hEfacts : (∀ a ∈ (extendFirst t0 C).map Prod.fst,
      t0 ≤ a ∧ a + cfg.spk_split_min_sec ≤ t1) ∧
      List.Pairwise (fun a b : ℚ × ℚ × String => a.1 ≤ b.1) (extendFirst t0 C) := by
    rcases C with _ | ⟨⟨a1, b1, l1⟩, crest⟩
    · simp at hlen
    have htail : ∀ c ∈ crest, (t0 ≤ c.1 ∧ c.1 + cfg.spk_split_min_sec ≤ t1) := by
      intro c hc
      have h1 := hCmem c (List.mem_cons_of_mem _ hc)
      have h2 := hCsp c (List.mem_cons_of_mem _ hc)
      exact ⟨h1.1, by linarith [h1.2]⟩
    have hhead := hCmem (a1, b1, l1) (List.mem_cons_self _ _)
    have hheadsp := hCsp (a1, b1, l1) (List.mem_cons_self _ _)
    rcases List.pairwise_cons.mp hCsorted with ⟨hc1, hcrest⟩
    simp only [extendFirst]
    split
    · constructor
      · intro a ha
        rcases List.mem_map.mp ha with ⟨c, hc, hca⟩
        rcases List.mem_cons.mp hc with h' | h'
        · rw [← hca, h']
          refine ⟨le_refl _, ?_⟩
          dsimp only at hhead hheadsp ⊢
          linarith [hhead.1, hhead.2]
        · rw [← hca]; exact htail c h'
      · refine List.pairwise_cons.mpr ⟨?_, hcrest⟩
        intro c hc
        exact (htail c hc).1
    · constructor
      · intro a ha
        rcases List.mem_map.mp ha with ⟨c, hc, hca⟩
        rcases List.mem_cons.mp hc with h' | h'
        · rw [← hca, h']
          dsimp only at hhead hheadsp ⊢
          exact ⟨hhead.1, by linarith [hhead.2]⟩
        · rw [← hca]; exact htail c h'
      · exact hCsorted
  have hLfst : (extendLast t1 (extendFirst t0 C)).map Prod.fst =
      (extendFirst t0 C).map Prod.fst := extendLast_startsOf t1 _
  rcases hLL : extendLast t1 (extendFirst t0 C) with _ | ⟨p, r⟩
  · simp only [normalizeSpans]
    exact spanOK_nil _ _ _
  simp only [normalizeSpans]
  have hNfst : (normalizeLoop p r).map Prod.fst = (extendFirst t0 C).map Prod.fst := by
    rw [normalizeLoop_startsOf r p, ← hLfst, hLL]
    rfl
  constructor
  · rw [hNfst]
    exact List.pairwise_map.mpr hEfacts.2
  · intro a ha
    rw [hNfst] at ha
    exact hEfacts.1 a ha

/-- Well-formedness of the per-speaker chunk list `_split_segment_audio`
returns: chunk starts are nondecreasing, within the segment, and at least
`split` before the segment end. -/
def ChunkOK (split t0 t1 : ℚ) (l : List (List ℚ × ℚ × ℚ × String)) : Prop :=
  List.Pairwise (· ≤ ·) (l.map (fun c => c.2.1)) ∧
  ∀ c ∈ l, t0 ≤ c.2.1 ∧ c.2.1 + split ≤ t1

theorem chunkOK_nil (split t0 t1 : ℚ) : ChunkOK split t0 t1 [] := ⟨by simp, by simp⟩

theorem chunkOK_of_filterMap (split t0 t1 : ℚ) (spans : List (ℚ × ℚ × String))
    (g : (ℚ × ℚ × String) → Option (List ℚ × ℚ × ℚ × String))
    (hg : ∀ sp c, g sp = some c → c.2.1 = sp.1)
    (hok : SpanOK split t0 t1 spans) :
    ChunkOK split t0 t1 (spans.filterMap g) := by
  constructor
  · apply List.pairwise_map.mpr
    refine pairwise_filterMap_rel (fun a b : ℚ × ℚ × String => a.1 ≤ b.1) _ _ _
      (List.pairwise_map.mp hok.1) ?_
    intro a b x y hab hx hy
    rw [hg a x hx, hg b y hy]
    exact hab
  · intro c hc
    obtain ⟨sp, hsp, hfc⟩ := List.mem_filterMap.mp hc
    rw [hg sp c hfc]
    exact hok.2 sp.1 (List.mem_map_of_mem _ hsp)

theorem splitAudio_ok (cfg : EngineCfg) (s : EngineState E) (audio : List ℚ) (t0 t1 : ℚ) :
    ChunkOK cfg.spk_split_min_sec t0 t1 (splitSegmentAudio cfg s audio t0 t1) := by
  have hok := speakerSpans_ok cfg s t0 t1
  unfold splitSegmentAudio
  dsimp only
  split
  · exact chunkOK_nil _ _ _
  split
  · exact chunkOK_nil _ _ _
  refine chunkOK_of_filterMap _ _ _ _ _ ?_ hok
  intro sp c h
  split at h
  · exact absurd h (by simp)
  split at h
  · exact absurd h (by simp)
  cases Option.some.inj h
  rfl

theorem chunkList_entry_le (block : ℕ) : ∀ (l : List ℚ), ∀ c ∈ chunkList block l,
    c.length ≤ block
  | [] => by simp [chunkList]
  | x :: rest => by
    intro c hc
    unfold chunkList at hc
    by_cases hb : block = 0
    · rw [dif_pos hb] at hc
      simp at hc
    · rw [dif_neg hb] at hc
      rcases List.mem_cons.mp hc with h' | h'
      · rw [h']
        simp only [List.length_take]
        omega
      · exact chunkList_entry_le block ((x :: rest).drop block) c h'
  termination_by l => l.length
  decreasing_by
    simp only [List.length_drop, List.length_cons]
    omega

theorem chunkList_sum_le (block : ℕ) : ∀ (l : List ℚ),
    ((chunkList block l).map List.length).sum ≤ l.length
  | [] => by simp [chunkList]
  | x :: rest => by
    unfold chunkList
    by_cases hb : block = 0
    · rw [dif_pos hb]; simp
    · rw [dif_neg hb]
      simp only [List.map_cons, List.sum_cons]
      have h := chunkList_sum_le block ((x :: rest).drop block)
      simp only [List.length_take, List.length_drop, List.length_cons] at h ⊢
      omega
  termination_by l => l.length
  decreasing_by
    simp only [List.length_drop, List.length_cons]
    omega

theorem foldl_dequePush_length {α : Type} (maxlen : ℕ) :
    ∀ (chunks acc : List (List α)), acc.length ≤ maxlen →
    (chunks.foldl (dequePush maxlen) acc).length ≤ maxlen
  | [], acc, h => h
  | c :: rest, acc, h => by
    simp only [List.foldl_cons]
    exact foldl_dequePush_length maxlen rest _ (dequePush_length_le maxlen acc c h)

theorem foldl_dequePush_mem {α : Type} (maxlen : ℕ) :
    ∀ (chunks acc : List (List α)), ∀ x ∈ chunks.foldl (dequePush maxlen) acc,
    x ∈ acc ∨ x ∈ chunks
  | [], acc, x, hx => Or.inl hx
  | c :: rest, acc, x, hx => by
    simp only [List.foldl_cons] at hx
    rcases foldl_dequePush_mem maxlen rest _ x hx with h' | h'
    · rcases dequePush_mem maxlen acc c x h' with h'' | h''
      · exact Or.inl h''
      · exact Or.inr (List.mem_cons.mpr (Or.inl h''))
    · exact Or.inr (List.mem_cons.mpr (Or.inr h'))

theorem foldl_dequePush_sum (maxlen : ℕ) :
    ∀ (chunks acc : List (List ℚ)),
    ((chunks.foldl (dequePush maxlen) acc).map List.length).sum ≤
      (acc.map List.length).sum + (chunks.map List.length).sum
  | [], acc => by simp
  | c :: rest, acc => by
    simp only [List.foldl_cons, List.map_cons, List.sum_cons]
    have h1 := foldl_dequePush_sum maxlen rest (dequePush maxlen acc c)
    have h2 := dequePush_sum_le maxlen acc c
    omega

theorem reset_inv (cfg : EngineCfg) (s : EngineState E) (tail : List ℚ)
    (hq_sorted : List.Pairwise (· ≤ ·) (s.queue.map (fun q => q.1)))
    (hq_hi : ∀ q ∈ s.queue,
      q.1 * (cfg.sr : ℚ) + ((capOf cfg : ℕ) : ℚ) ≤ (s.processed_samples : ℚ))
    (htail : tail.length ≤ s.processed_samples) :
    EmitInv cfg (resetSegmentState cfg s tail) := by
  unfold resetSegmentState
  dsimp only
  have hlow : ∀ t : EngineState E, t.segment_start_sample = none → segTotal t = 0 →
      t.processed_samples = s.processed_samples →
      ∀ q ∈ s.queue, q.1 * (cfg.sr : ℚ) ≤ ((lowOf cfg t : ℤ) : ℚ) := by
    intro t h1 h2 h3 q hq
    have hcast := hq_hi q hq
    unfold lowOf
    rw [h1]
    dsimp only
    rw [h2, h3, max_eq_right (Nat.zero_le _)]
    unfold capOf at hcast ⊢
    push_cast
    push_cast at hcast
    linarith
  split
  · exact ⟨hq_sorted, hlow _ rfl rfl rfl, hq_hi, fun st h => by simp at h,
      by simp [segTotal], by simp [preTotal], by simp, by simp, fun _ => rfl⟩
  · rename_i hne
    refine ⟨hq_sorted, hlow _ rfl rfl rfl, hq_hi, fun st h => by simp at h,
      by simp [segTotal], ?_, ?_, ?_, fun _ => rfl⟩
    · show ((((chunkList cfg.block _).foldl (dequePush cfg.prepad_frames) []).map
        List.length).sum ≤ s.processed_samples)
      have h1 := foldl_dequePush_sum cfg.prepad_frames
        (chunkList cfg.block (if cfg.prepad_frames * cfg.block < tail.length then
          tail.drop (tail.length - cfg.prepad_frames * cfg.block) else tail)) []
      have h2 := chunkList_sum_le cfg.block
        (if cfg.prepad_frames * cfg.block < tail.length then
          tail.drop (tail.length - cfg.prepad_frames * cfg.block) else tail)
      have h3 : (if cfg.prepad_frames * cfg.block < tail.length then
          tail.drop (tail.length - cfg.prepad_frames * cfg.block) else tail).length ≤
          tail.length := by
        split
        · simp only [List.length_drop]
          omega
        · exact le_refl _
      simp only [List.map_nil, List.sum_nil, Nat.zero_add] at h1
      omega
    · intro c hc
      rcases foldl_dequePush_mem cfg.prepad_frames _ [] c hc with h' | h'
      · simp at h'
      · exact chunkList_entry_le cfg.block _ c h'
    · exact foldl_dequePush_length cfg.prepad_frames _ [] (by simp)

/-- The non-queue components of `coreOf`. -/
def coreNoQ (s : EngineState E) :
    ℕ × List (List ℚ) × Option ℕ × List (List ℚ) × Bool :=
  (s.processed_samples, s.segment_audio, s.segment_start_sample, s.pre_audio, s.in_speech)

theorem emit_fold_inv (cfg : EngineCfg) (orc : Oracles E) :
    ∀ (cs : List (List ℚ × ℚ × ℚ × String)) (b : Bool) (s : EngineState E),
    List.Pairwise (· ≤ ·) (s.queue.map (fun q => q.1)) →
    (∀ q ∈ s.queue,
      q.1 * (cfg.sr : ℚ) + ((capOf cfg : ℕ) : ℚ) ≤ (s.processed_samples : ℚ)) →
    (∀ q ∈ s.queue, ∀ c ∈ cs, q.1 ≤ c.2.1) →
    List.Pairwise (· ≤ ·) (cs.map (fun c => c.2.1)) →
    (∀ c ∈ cs,
      c.2.1 * (cfg.sr : ℚ) + ((capOf cfg : ℕ) : ℚ) ≤ (s.processed_samples : ℚ)) →
    List.Pairwise (· ≤ ·)
      (((cs.foldl (fun (acc : Bool × EngineState E) c =>
          let r := emitSegmentChunk cfg orc acc.2 c.1 c.2.1 c.2.2.1 (some c.2.2.2)
          (r.1 || acc.1, r.2)) (b, s)).2.queue).map (fun q => q.1)) ∧
    (∀ q ∈ (cs.foldl (fun (acc : Bool × EngineState E) c =>
          let r := emitSegmentChunk cfg orc acc.2 c.1 c.2.1 c.2.2.1 (some c.2.2.2)
          (r.1 || acc.1, r.2)) (b, s)).2.queue,
      q.1 * (cfg.sr : ℚ) + ((capOf cfg : ℕ) : ℚ) ≤ (s.processed_samples : ℚ)) ∧
    coreNoQ ((cs.foldl (fun (acc : Bool × EngineState E) c =>
          let r := emitSegmentChunk cfg orc acc.2 c.1 c.2.1 c.2.2.1 (some c.2.2.2)
          (r.1 || acc.1, r.2)) (b, s)).2) = coreNoQ s
  | [], b, s => by
    intro h1 h2 _ _ _
    exact ⟨h1, h2, rfl⟩
  | c :: rest, b, s => by
    intro hq_sorted hq_hi hcross hcs_sorted hcs_hi
    simp only [List.foldl_cons]
    obtain ⟨hp, hsa, hss, hpa, his, htr, hcs⟩ :=
      emit_fields cfg orc s c.1 c.2.1 c.2.2.1 (some c.2.2.2)
    have hqspec := emit_queue_spec cfg orc s c.1 c.2.1 c.2.2.1 (some c.2.2.2)
    set s1 := (emitSegmentChunk cfg orc s c.1 c.2.1 c.2.2.1 (some c.2.2.2)).2 with hs1
    have hq1_sorted : List.Pairwise (· ≤ ·) (s1.queue.map (fun q => q.1)) := by
      rcases hqspec with h' | h'
      · rw [h']; exact hq_sorted
      · rw [h', List.map_append, List.pairwise_append]
        refine ⟨hq_sorted, by simp, ?_⟩
        intro a ha bb hb
        simp only [List.map_cons, List.map_nil, List.mem_singleton] at hb
        obtain ⟨q, hqm, hqa⟩ := List.mem_map.mp ha
        rw [hb, ← hqa]
        exact hcross q hqm c (List.mem_cons_self _ _)
    have hq1_hi : ∀ q ∈ s1.queue,
        q.1 * (cfg.sr : ℚ) + ((capOf cfg : ℕ) : ℚ) ≤ (s1.processed_samples : ℚ) := by
      rw [hp]
      rcases hqspec with h' | h'
      · rw [h']; exact hq_hi
      · rw [h']
        intro q hq
        rcases List.mem_append.mp hq with h'' | h''
        · exact hq_hi q h''
        · rw [List.mem_singleton.mp h'']
          exact hcs_hi c (List.mem_cons_self _ _)
    have hq1_cross : ∀ q ∈ s1.queue, ∀ c' ∈ rest, q.1 ≤ c'.2.1 := by
      rcases hqspec with h' | h'
      · rw [h']
        intro q hq c' hc'
        exact hcross q hq c' (List.mem_cons_of_mem _ hc')
      · rw [h']
        intro q hq c' hc'
        rcases List.mem_append.mp hq with h'' | h''
        · exact hcross q h'' c' (List.mem_cons_of_mem _ hc')
        · rw [List.mem_singleton.mp h'']
          exact (List.pairwise_cons.mp (List.pairwise_map.mp hcs_sorted)).1 c' hc'
    have hcs' := hcs_sorted
    rw [List.map_cons] at hcs'
    have hrec := emit_fold_inv cfg orc rest
      ((emitSegmentChunk cfg orc s c.1 c.2.1 c.2.2.1 (some c.2.2.2)).1 || b) s1
      hq1_sorted hq1_hi hq1_cross
      (List.pairwise_cons.mp hcs').2
      (by
        intro c' hc'
        rw [hp]
        exact hcs_hi c' (List.mem_cons_of_mem _ hc'))
    refine ⟨hrec.1, ?_, ?_⟩
    · intro q hq
      have := hrec.2.1 q hq
      rwa [hp] at this
    · rw [hrec.2.2]
      unfold coreNoQ
      rw [hp, hsa, hss, hpa, his]

theorem segTotal_flatten (s : EngineState E) : segTotal s = s.segment_audio.flatten.length := by
  unfold segTotal
  rw [List.length_flatten]

theorem backtraceSplit_parts (cfg : EngineCfg) (raw : List ℚ) (cut : ℚ) :
    (backtraceSplit cfg raw cut).1.length + (backtraceSplit cfg raw cut).2.length =
      raw.length ∧
    (backtraceSplit cfg raw cut).1.length ≤ raw.length := by
  unfold backtraceSplit
  dsimp only
  split
  · rename_i h
    simp only [List.length_take, List.length_drop]
    omega
  split
  · simp
  · simp

theorem emit_es_facts (cfg : EngineCfg) (orc : Oracles E) (s : EngineState E)
    (raw2 : List ℚ) (start_s segEnd : ℚ)
    (hInv : EmitInv cfg s)
    (hsr : (0 : ℚ) < (cfg.sr : ℚ))
    (hstart_lo : ∀ q ∈ s.queue, q.1 * (cfg.sr : ℚ) ≤ start_s * (cfg.sr : ℚ))
    (hstart_hi : start_s * (cfg.sr : ℚ) + ((capOf cfg : ℕ) : ℚ) ≤ (s.processed_samples : ℚ))
    (hsplit_sr : ((capOf cfg : ℕ) : ℚ) ≤ cfg.spk_split_min_sec * (cfg.sr : ℚ))
    (hend_hi : segEnd * (cfg.sr : ℚ) ≤ (s.processed_samples : ℚ)) :
    List.Pairwise (· ≤ ·)
      (((if ¬(splitSegmentAudio cfg s raw2 start_s segEnd).isEmpty then
          (splitSegmentAudio cfg s raw2 start_s segEnd).foldl
            (fun (acc : Bool × EngineState E) c =>
              let r := emitSegmentChunk cfg orc acc.2 c.1 c.2.1 c.2.2.1 (some c.2.2.2)
              (r.1 || acc.1, r.2)) (false, s)
        else emitSegmentChunk cfg orc s raw2 start_s segEnd none).2.queue).map
        (fun q => q.1)) ∧
    (∀ q ∈ (if ¬(splitSegmentAudio cfg s raw2 start_s segEnd).isEmpty then
          (splitSegmentAudio cfg s raw2 start_s segEnd).foldl
            (fun (acc : Bool × EngineState E) c =>
              let r := emitSegmentChunk cfg orc acc.2 c.1 c.2.1 c.2.2.1 (some c.2.2.2)
              (r.1 || acc.1, r.2)) (false, s)
        else emitSegmentChunk cfg orc s raw2 start_s segEnd none).2.queue,
      q.1 * (cfg.sr : ℚ) + ((capOf cfg : ℕ) : ℚ) ≤ (s.processed_samples : ℚ)) ∧
    coreNoQ ((if ¬(splitSegmentAudio cfg s raw2 start_s segEnd).isEmpty then
          (splitSegmentAudio cfg s raw2 start_s segEnd).foldl
            (fun (acc : Bool × EngineState E) c =>
              let r := emitSegmentChunk cfg orc acc.2 c.1 c.2.1 c.2.2.1 (some c.2.2.2)
              (r.1 || acc.1, r.2)) (false, s)
        else emitSegmentChunk cfg orc s raw2 start_s segEnd none).2) = coreNoQ s := by
  obtain ⟨hcs_sorted, hcs_facts⟩ := splitAudio_ok cfg s raw2 start_s segEnd
  have hchi : ∀ c ∈ splitSegmentAudio cfg s raw2 start_s segEnd,
      c.2.1 * (cfg.sr : ℚ) + ((capOf cfg : ℕ) : ℚ) ≤ (s.processed_samples : ℚ) := by
    intro c hc
    obtain ⟨_, h2⟩ := hcs_facts c hc
    have : (c.2.1 + cfg.spk_split_min_sec) * (cfg.sr : ℚ) ≤ segEnd * (cfg.sr : ℚ) :=
      mul_le_mul_of_nonneg_right h2 (le_of_lt hsr)
    nlinarith [hsplit_sr, hend_hi]
  have hcross : ∀ q ∈ s.queue, ∀ c ∈ splitSegmentAudio cfg s raw2 start_s segEnd,
      q.1 ≤ c.2.1 := by
    intro q hq c hc
    obtain ⟨h1, _⟩ := hcs_facts c hc
    have hq1 := hstart_lo q hq
    have : start_s * (cfg.sr : ℚ) ≤ c.2.1 * (cfg.sr : ℚ) :=
      mul_le_mul_of_nonneg_right h1 (le_of_lt hsr)
    have hle : q.1 * (cfg.sr : ℚ) ≤ c.2.1 * (cfg.sr : ℚ) := le_trans hq1 this
    exact le_of_mul_le_mul_right hle hsr
  split
  · exact emit_fold_inv cfg orc _ false s hInv.sorted hInv.proc_bound hcross
      hcs_sorted hchi
  · obtain ⟨hp, hsa, hss, hpa, his, _, _⟩ :=
      emit_fields cfg orc s raw2 start_s segEnd none
    have hqspec := emit_queue_spec cfg orc s raw2 start_s segEnd none
    refine ⟨?_, ?_, ?_⟩
    · rcases hqspec with h' | h'
      · rw [h']; exact hInv.sorted
      · rw [h', List.map_append, List.pairwise_append]
        refine ⟨hInv.sorted, by simp, ?_⟩
        intro a ha bb hb
        simp only [List.map_cons, List.map_nil, List.mem_singleton] at hb
        obtain ⟨q, hqm, hqa⟩ := List.mem_map.mp ha
        rw [hb, ← hqa]
        have := hstart_lo q hqm
        exact le_of_mul_le_mul_right this hsr
    · rcases hqspec with h' | h'
      · rw [h']; exact hInv.proc_bound
      · rw [h']
        intro q hq
        rcases List.mem_append.mp hq with h'' | h''
        · exact hInv.proc_bound q h''
        · rw [List.mem_singleton.mp h'']
          exact hstart_hi
    · unfold coreNoQ
      rw [hp, hsa, hss, hpa, his]

theorem finalize_emit_tail_inv (cfg : EngineCfg) (orc : Oracles E) (s : EngineState E)
    (raw2 remainder : List ℚ) (SS : ℕ)
    (hc7 : C7Cfg cfg) (hInv : EmitInv cfg s)
    (hcap_le : capOf cfg ≤ raw2.length)
    (hSS_hi : SS + raw2.length ≤ s.processed_samples)
    (hlow_le : lowOf cfg s ≤ (SS : ℤ))
    (hrem : remainder.length ≤ s.processed_samples) :
    EmitInv cfg (
      let start_s : ℚ := (SS : ℚ) / (cfg.sr : ℚ)
      let segEnd := start_s + (raw2.length : ℚ) / (cfg.sr : ℚ)
      let chunks := splitSegmentAudio cfg s raw2 start_s segEnd
      let es : Bool × EngineState E :=
        if ¬chunks.isEmpty then
          chunks.foldl (fun (acc : Bool × EngineState E) c =>
            let r := emitSegmentChunk cfg orc acc.2 c.1 c.2.1 c.2.2.1 (some c.2.2.2)
            (r.1 || acc.1, r.2)) (false, s)
        else emitSegmentChunk cfg orc s raw2 start_s segEnd none
      let s := es.2
      if ¬es.1 then resetSegmentState cfg s remainder
      else
        let s :=
          if s.spk_tracker.isSome ∧ pyTruthy s.current_speaker then
            { s with spk_tracker :=
              s.spk_tracker.map (fun t => trackerNotifySegmentEnd t s.current_speaker) }
          else s
        let tail :=
          if remainder.length < cfg.tail_keep_samples ∧ cfg.tail_keep_samples ≤ raw2.length
          then raw2.drop (raw2.length - cfg.tail_keep_samples)
          else remainder
        resetSegmentState cfg s tail) := by
  have hsr : (0 : ℚ) < (cfg.sr : ℚ) := by exact_mod_cast hc7.sr_pos
  have hstart_mul : ((SS : ℚ) / (cfg.sr : ℚ)) * (cfg.sr : ℚ) = (SS : ℚ) :=
    div_mul_cancel₀ _ (ne_of_gt hsr)
  have hend_mul : ((SS : ℚ) / (cfg.sr : ℚ) + (raw2.length : ℚ) / (cfg.sr : ℚ)) *
      (cfg.sr : ℚ) = (SS : ℚ) + (raw2.length : ℚ) := by
    rw [add_mul, hstart_mul, div_mul_cancel₀ _ (ne_of_gt hsr)]
  have hSS_hiQ : (SS : ℚ) + (raw2.length : ℚ) ≤ (s.processed_samples : ℚ) := by
    exact_mod_cast hSS_hi
  have hcapQ : ((capOf cfg : ℕ) : ℚ) ≤ (raw2.length : ℚ) := by exact_mod_cast hcap_le
  have hstart_lo : ∀ q ∈ s.queue,
      q.1 * (cfg.sr : ℚ) ≤ ((SS : ℚ) / (cfg.sr : ℚ)) * (cfg.sr : ℚ) := by
    intro q hq
    rw [hstart_mul]
    have h1 := hInv.low_bound q hq
    have h2 : ((lowOf cfg s : ℤ) : ℚ) ≤ ((SS : ℚ)) := by exact_mod_cast hlow_le
    linarith
  have hstart_hi : ((SS : ℚ) / (cfg.sr : ℚ)) * (cfg.sr : ℚ) + ((capOf cfg : ℕ) : ℚ) ≤
      (s.processed_samples : ℚ) := by
    rw [hstart_mul]
    linarith
  have hend_hi : ((SS : ℚ) / (cfg.sr : ℚ) + (raw2.length : ℚ) / (cfg.sr : ℚ)) *
      (cfg.sr : ℚ) ≤ (s.processed_samples : ℚ) := by
    rw [hend_mul]
    exact hSS_hiQ
  have hes := emit_es_facts cfg orc s raw2 ((SS : ℚ) / (cfg.sr : ℚ))
    ((SS : ℚ) / (cfg.sr : ℚ) + (raw2.length : ℚ) / (cfg.sr : ℚ))
    hInv hsr hstart_lo hstart_hi hc7.cap_split hend_hi
  dsimp only
  obtain ⟨hes1, hes2, hes3⟩ := hes
  set ES := (if ¬(splitSegmentAudio cfg s raw2 ((SS : ℚ) / (cfg.sr : ℚ))
      ((SS : ℚ) / (cfg.sr : ℚ) + (raw2.length : ℚ) / (cfg.sr : ℚ))).isEmpty then
      (splitSegmentAudio cfg s raw2 ((SS : ℚ) / (cfg.sr : ℚ))
        ((SS : ℚ) / (cfg.sr : ℚ) + (raw2.length : ℚ) / (cfg.sr : ℚ))).foldl
        (fun (acc : Bool × EngineState E) c =>
          let r := emitSegmentChunk cfg orc acc.2 c.1 c.2.1 c.2.2.1 (some c.2.2.2)
          (r.1 || acc.1, r.2)) (false, s)
    else emitSegmentChunk cfg orc s raw2 ((SS : ℚ) / (cfg.sr : ℚ))
      ((SS : ℚ) / (cfg.sr : ℚ) + (raw2.length : ℚ) / (cfg.sr : ℚ)) none) with hES
  have hproc : ES.2.processed_samples = s.processed_samples :=
    congrArg (fun t => t.1) hes3
  split
  · refine reset_inv cfg _ remainder hes1 ?_ ?_
    · rw [hproc]
      exact hes2
    · rw [hproc]
      exact hrem
  · set W := (if ES.2.spk_tracker.isSome ∧ pyTruthy ES.2.current_speaker then
        { ES.2 with spk_tracker :=
          ES.2.spk_tracker.map (fun t => trackerNotifySegmentEnd t ES.2.current_speaker) }
      else ES.2) with hW
    have hwq : W.queue = ES.2.queue := by
      rw [hW]; split <;> rfl
    have hwp : W.processed_samples = ES.2.processed_samples := by
      rw [hW]; split <;> rfl
    refine reset_inv cfg W _ ?_ ?_ ?_
    · rw [hwq]
      exact hes1
    · rw [hwq, hwp, hproc]
      exact hes2
    · rw [hwp, hproc]
      split
      · simp only [List.length_drop]
        omega
      · exact hrem

theorem inv_of_fields (cfg : EngineCfg) (s s' : EngineState E)
    (hq : s'.queue = s.queue)
    (hp : s'.processed_samples = s.processed_samples)
    (hst : segTotal s' = segTotal s)
    (hss : s'.segment_start_sample = s.segment_start_sample)
    (hpa : s'.pre_audio = s.pre_audio)
    (his : s'.in_speech = s.in_speech)
    (h : EmitInv cfg s) : EmitInv cfg s' := by
  have hpt : preTotal s' = preTotal s := by unfold preTotal; rw [hpa]
  have hlo : lowOf cfg s' = lowOf cfg s := by unfold lowOf; rw [hss, hp, hst]
  exact ⟨hq ▸ h.sorted, by rw [hq, hlo]; exact h.low_bound,
    by rw [hq, hp]; exact h.proc_bound,
    by rw [hss, hst, hp]; exact h.seg_anchor,
    by rw [hst, hp]; exact h.seg_le, by rw [hpt, hp]; exact h.pre_le,
    by rw [hpa]; exact h.pre_entries, by rw [hpa]; exact h.pre_count,
    by rw [his, hss]; exact h.idle_none⟩

theorem finalize_inv [Inhabited E] (cfg : EngineCfg) (orc : Oracles E) (s : EngineState E)
    (cut : ℚ)
    (hc7 : C7Cfg cfg) (hInv : EmitInv cfg s) :
    EmitInv cfg (finalizeSegment cfg orc s cut) := by
  unfold finalizeSegment
  by_cases hnil : s.segment_audio.isEmpty
  · rw [if_pos hnil]; exact hInv
  rw [if_neg hnil]
  dsimp only
  by_cases hz : s.segment_audio.flatten.length = 0
  · rw [if_pos hz]
    have hst0 : segTotal s = 0 := by rw [segTotal_flatten]; exact hz
    refine inv_of_fields cfg s _ rfl rfl ?_ rfl rfl rfl hInv
    rw [hst0]
    rfl
  rw [if_neg hz]
  obtain ⟨hparts, hfst_le⟩ := backtraceSplit_parts cfg s.segment_audio.flatten cut
  have hflat : segTotal s = s.segment_audio.flatten.length := segTotal_flatten s
  have hsegproc : segTotal s ≤ s.processed_samples := hInv.seg_le
  by_cases hdur : ((backtraceSplit cfg s.segment_audio.flatten cut).1.length : ℚ) /
      (cfg.sr : ℚ) < max (1/10) (cfg.min_turn_sec * (1/2))
  · rw [if_pos hdur]
    refine reset_inv cfg s _ hInv.sorted hInv.proc_bound ?_
    rw [List.length_append]
    omega
  rw [if_neg hdur]
  have hsr : (0 : ℚ) < (cfg.sr : ℚ) := by exact_mod_cast hc7.sr_pos
  have hcapraw : capOf cfg ≤ (backtraceSplit cfg s.segment_audio.flatten cut).1.length := by
    have h1 : max (1/10) (cfg.min_turn_sec * (1/2)) ≤
        ((backtraceSplit cfg s.segment_audio.flatten cut).1.length : ℚ) / (cfg.sr : ℚ) :=
      not_lt.mp hdur
    have h2 : max (1/10) (cfg.min_turn_sec * (1/2)) * (cfg.sr : ℚ) ≤
        ((backtraceSplit cfg s.segment_audio.flatten cut).1.length : ℚ) := by
      have := mul_le_mul_of_nonneg_right h1 (le_of_lt hsr)
      rwa [div_mul_cancel₀ _ (ne_of_gt hsr)] at this
    have h3 : ((capOf cfg : ℕ) : ℚ) ≤
        ((backtraceSplit cfg s.segment_audio.flatten cut).1.length : ℚ) :=
      le_trans hc7.cap_floor h2
    exact_mod_cast h3
  have hraw2proc : (backtraceSplit cfg s.segment_audio.flatten cut).1.length ≤
      s.processed_samples := le_trans (hflat ▸ hfst_le) hsegproc
  have hremproc : (backtraceSplit cfg s.segment_audio.flatten cut).2.length ≤
      s.processed_samples := by omega
  rcases hss : s.segment_start_sample with _ | st
  · dsimp only
    refine finalize_emit_tail_inv cfg orc s _ _ _ hc7 hInv hcapraw ?_ ?_ hremproc
    · omega
    · unfold lowOf
      rw [hss]
      dsimp only
      have h1 : (backtraceSplit cfg s.segment_audio.flatten cut).1.length ≤ segTotal s :=
        hflat ▸ hfst_le
      have h2 : segTotal s ≤ max (segTotal s) (capOf cfg) := le_max_left _ _
      omega
  · dsimp only
    have hanchor := hInv.seg_anchor st hss
    by_cases hst0 : st ≠ 0
    · rw [if_pos hst0]
      refine finalize_emit_tail_inv cfg orc s _ _ _ hc7 hInv hcapraw ?_ ?_ hremproc
      · have h1 : (backtraceSplit cfg s.segment_audio.flatten cut).1.length ≤ segTotal s :=
          hflat ▸ hfst_le
        omega
      · unfold lowOf
        rw [hss]
    · rw [if_neg hst0]
      refine finalize_emit_tail_inv cfg orc s _ _ _ hc7 hInv hcapraw ?_ ?_ hremproc
      · omega
      · unfold lowOf
        rw [hss]
        dsimp only
        have h0 : st = 0 := by omega
        rw [h0]
        omega

theorem appendFrame_base (cfg : EngineCfg) (s : EngineState E) (frame : List ℚ)
    (hInv : EmitInv cfg s) :
    EmitInv cfg { s with
      processed_samples := s.processed_samples + frame.length,
      segment_audio := s.segment_audio ++ [frame] } := by
  have hst : segTotal { s with
      processed_samples := s.processed_samples + frame.length,
      segment_audio := s.segment_audio ++ [frame] } = segTotal s + frame.length := by
    unfold segTotal
    simp
  have hmono : lowOf cfg s ≤ lowOf cfg { s with
      processed_samples := s.processed_samples + frame.length,
      segment_audio := s.segment_audio ++ [frame] } := by
    unfold lowOf
    dsimp only
    rw [hst]
    cases s.segment_start_sample with
    | none =>
      dsimp only
      push_cast
      omega
    | some st => exact le_refl _
  refine ⟨hInv.sorted, ?_, ?_, ?_, ?_, ?_, hInv.pre_entries, hInv.pre_count, hInv.idle_none⟩
  · intro q hq
    refine le_trans (hInv.low_bound q hq) ?_
    exact_mod_cast hmono
  · intro q hq
    have h1 := hInv.proc_bound q hq
    dsimp only
    have : (s.processed_samples : ℚ) ≤ ((s.processed_samples + frame.length : ℕ) : ℚ) := by
      push_cast
      linarith
    linarith
  · intro st h
    have := hInv.seg_anchor st h
    rw [hst]
    dsimp only
    omega
  · rw [hst]
    have := hInv.seg_le
    dsimp only
    omega
  · have h1 : preTotal { s with
        processed_samples := s.processed_samples + frame.length,
        segment_audio := s.segment_audio ++ [frame] } = preTotal s := rfl
    rw [h1]
    have := hInv.pre_le
    dsimp only
    omega

theorem bump_idle_inv (cfg : EngineCfg) (s : EngineState E) (n : ℕ)
    (hInv : EmitInv cfg s) (hnone : s.segment_start_sample = none) :
    EmitInv cfg { s with processed_samples := s.processed_samples + n } := by
  have hstb : segTotal { s with processed_samples := s.processed_samples + n } =
      segTotal s := rfl
  have hmono : lowOf cfg s ≤
      lowOf cfg { s with processed_samples := s.processed_samples + n } := by
    unfold lowOf
    dsimp only
    rw [hstb, hnone]
    dsimp only
    push_cast
    omega
  refine ⟨hInv.sorted, ?_, ?_, ?_, ?_, ?_, hInv.pre_entries, hInv.pre_count, ?_⟩
  · intro q hq
    refine le_trans (hInv.low_bound q hq) ?_
    exact_mod_cast hmono
  · intro q hq
    have h1 := hInv.proc_bound q hq
    dsimp only
    have : (s.processed_samples : ℚ) ≤ ((s.processed_samples + n : ℕ) : ℚ) := by
      push_cast
      linarith
    linarith
  · intro st h
    dsimp only at h
    rw [hnone] at h
    simp at h
  · rw [hstb]
    have := hInv.seg_le
    dsimp only
    omega
  · have hptb : preTotal { s with processed_samples := s.processed_samples + n } =
        preTotal s := rfl
    rw [hptb]
    have := hInv.pre_le
    dsimp only
    omega
  · intro _
    exact hnone

theorem appendPre_inv (cfg : EngineCfg) (s : EngineState E) (frame : List ℚ)
    (hInv : EmitInv cfg s) (hfr : frame.length ≤ cfg.block)
    (hpre : preTotal s + frame.length ≤ s.processed_samples) :
    EmitInv cfg (appendPreAudio cfg s frame) := by
  unfold appendPreAudio
  refine ⟨hInv.sorted, ?_, hInv.proc_bound, hInv.seg_anchor, hInv.seg_le, ?_, ?_, ?_,
    hInv.idle_none⟩
  · intro q hq
    have h1 := hInv.low_bound q hq
    unfold lowOf at h1 ⊢
    exact h1
  · have h1 := dequePush_sum_le cfg.prepad_frames s.pre_audio frame
    show ((dequePush cfg.prepad_frames s.pre_audio frame).map List.length).sum ≤
      s.processed_samples
    unfold preTotal at h1 hpre
    omega
  · intro c hc
    rcases dequePush_mem cfg.prepad_frames s.pre_audio frame c hc with h' | h'
    · exact hInv.pre_entries c h'
    · rw [h']; exact hfr
  · exact dequePush_length_le cfg.prepad_frames s.pre_audio frame hInv.pre_count

theorem seed_inv (cfg : EngineCfg) (s : EngineState E)
    (hInv : EmitInv cfg s) (hnone : s.segment_start_sample = none) :
    EmitInv cfg (seedSegmentFromPre { s with in_speech := true }) := by
  unfold seedSegmentFromPre
  dsimp only
  have hcap : preTotal s ≤ capOf cfg := preTotal_le_cap hInv.pre_entries hInv.pre_count
  have hple : preTotal s ≤ s.processed_samples := hInv.pre_le
  have hst : ((s.pre_audio.map List.length).sum) = preTotal s := rfl
  refine ⟨hInv.sorted, ?_, hInv.proc_bound, ?_, ?_, by simp [preTotal], by simp, by simp, ?_⟩
  · intro q hq
    have h1 := hInv.low_bound q hq
    unfold lowOf at h1 ⊢
    rw [hnone] at h1
    dsimp only at h1 ⊢
    have hcast : ((s.processed_samples : ℤ) - max (segTotal s) (capOf cfg) : ℤ) ≤
        ((s.processed_samples - (s.pre_audio.map List.length).sum : ℕ) : ℤ) := by
      rw [hst]
      have : capOf cfg ≤ max (segTotal s) (capOf cfg) := le_max_right _ _
      push_cast [Nat.cast_sub hple]
      push_cast at this
      omega
    calc q.1 * (cfg.sr : ℚ) ≤ _ := h1
      _ ≤ _ := by exact_mod_cast hcast
  · intro st h
    dsimp only at h
    cases Option.some.inj h
    show s.processed_samples - (s.pre_audio.map List.length).sum +
      (s.pre_audio.map List.length).sum = s.processed_samples
    rw [hst]
    omega
  · show segTotal { s with
      segment_audio := s.pre_audio,
      segment_start_sample := some (s.processed_samples - (s.pre_audio.map List.length).sum),
      pre_audio := [], pre_audio_samples := 0, samples_since_embed := 0,
      in_speech := true } ≤ s.processed_samples
    unfold segTotal
    dsimp only
    rw [hst]
    exact hple
  · intro h
    simp at h

theorem inv_of_fields2 (cfg : EngineCfg) (s : EngineState E) (h : EmitInv cfg s)
    (s' : EngineState E)
    (hq : s'.queue = s.queue)
    (hp : s'.processed_samples = s.processed_samples)
    (hst : segTotal s' = segTotal s)
    (hss : s'.segment_start_sample = s.segment_start_sample)
    (hpa : s'.pre_audio = s.pre_audio)
    (his : s'.in_speech = s.in_speech) : EmitInv cfg s' :=
  inv_of_fields cfg s s' hq hp hst hss hpa his h

theorem adaptNoise_core (cfg : EngineCfg) (orc : Oracles E) (s : EngineState E)
    (frame : List ℚ) : coreOf (adaptNoise cfg orc s frame) = coreOf s := by
  unfold adaptNoise updateEnergyThresholds
  split <;> rfl

theorem maybeCalibrate_core (cfg : EngineCfg) (orc : Oracles E) (s : EngineState E)
    (frame : List ℚ) : coreOf (maybeCalibrate cfg orc s frame) = coreOf s := by
  unfold maybeCalibrate updateEnergyThresholds
  dsimp only
  split
  · rfl
  split
  · split <;> rfl
  · rfl

theorem isSpeech_snd_core (cfg : EngineCfg) (orc : Oracles E) (s : EngineState E)
    (frame : List ℚ) : coreOf (isSpeech cfg orc s frame).2 = coreOf s := by
  unfold isSpeech
  dsimp only
  exact adaptNoise_core cfg orc s frame

theorem appendSegmentFrame_fields (cfg : EngineCfg) (t : EngineState E) (frame : List ℚ) :
    coreOf (appendSegmentFrame cfg t frame) =
      (t.queue, t.processed_samples, t.segment_audio ++ [frame], t.segment_start_sample,
       t.pre_audio, t.in_speech) := by
  unfold appendSegmentFrame
  dsimp only
  split <;> rfl

theorem appendFrame_inv2 (cfg : EngineCfg) (t t0 : EngineState E) (frame : List ℚ)
    (hc : coreOf t =
      coreOf { t0 with processed_samples := t0.processed_samples + frame.length })
    (h0 : EmitInv cfg t0) : EmitInv cfg (appendSegmentFrame cfg t frame) := by
  have e1 : t.queue = t0.queue := congrArg (fun c => c.1) hc
  have e2 : t.processed_samples = t0.processed_samples + frame.length :=
    congrArg (fun c => c.2.1) hc
  have e3 : t.segment_audio = t0.segment_audio := congrArg (fun c => c.2.2.1) hc
  have e4 : t.segment_start_sample = t0.segment_start_sample :=
    congrArg (fun c => c.2.2.2.1) hc
  have e5 : t.pre_audio = t0.pre_audio := congrArg (fun c => c.2.2.2.2.1) hc
  have e6 : t.in_speech = t0.in_speech := congrArg (fun c => c.2.2.2.2.2) hc
  refine inv_of_core_eq cfg
    { t0 with
        processed_samples := t0.processed_samples + frame.length,
        segment_audio := t0.segment_audio ++ [frame] } _ ?_
    (appendFrame_base cfg t0 frame h0)
  rw [appendSegmentFrame_fields, e1, e2, e3, e4, e5, e6]
  rfl

theorem maybeRunIntraseg_inv [Inhabited E] (cfg : EngineCfg) (ops : EmbOps E)
    (orc : Oracles E) (s : EngineState E) (now : ℚ)
    (hc7 : C7Cfg cfg) (hInv : EmitInv cfg s) :
    EmitInv cfg (maybeRunIntraseg cfg ops orc s now) := by
  unfold maybeRunIntraseg
  split
  · exact hInv
  split
  · exact hInv
  rename_i trk htrk
  dsimp only
  split
  · exact hInv
  split
  · exact hInv
  split
  · exact hInv
  have key : ∀ (V : Option E) (d : DiarDecision),
      EmitInv cfg { { finalizeSegment cfg orc { s with
          samples_since_embed := 0,
          spk_tracker := some (trackerStep cfg.tcfg ops trk V s.current_speaker
            (currentSegmentDuration cfg s) cfg.emb_hop_sec now).2,
          current_speaker := some d.label } d.cut_backtrace_sec with
        spk_tracker := (finalizeSegment cfg orc { s with
          samples_since_embed := 0,
          spk_tracker := some (trackerStep cfg.tcfg ops trk V s.current_speaker
            (currentSegmentDuration cfg s) cfg.emb_hop_sec now).2,
          current_speaker := some d.label } d.cut_backtrace_sec).spk_tracker.map
            (fun t => trackerNotifySegmentEnd t (some d.label)) } with
        current_speaker := some d.label } := by
    intro V d
    have hA : EmitInv cfg { s with
        samples_since_embed := 0,
        spk_tracker := some (trackerStep cfg.tcfg ops trk V s.current_speaker
          (currentSegmentDuration cfg s) cfg.emb_hop_sec now).2,
        current_speaker := some d.label } := by
      refine inv_of_core_eq cfg s _ ?_ hInv
      rfl
    have hB := finalize_inv cfg orc _ d.cut_backtrace_sec hc7 hA
    refine inv_of_core_eq cfg _ _ ?_ hB
    rfl
  by_cases hpcm : (collectRecentAudio s cfg.emb_win_samples).isEmpty = true
  · rw [if_pos hpcm]
    split
    · refine inv_of_core_eq cfg s _ ?_ hInv
      rfl
    · rename_i d hd
      split
      · exact key none d
      · refine inv_of_core_eq cfg s _ ?_ hInv
        rfl
  · rw [if_neg hpcm]
    split
    · refine inv_of_core_eq cfg s _ ?_ hInv
      rfl
    · rename_i d hd
      split
      · exact key ((orc.embed (collectRecentAudio s cfg.emb_win_samples)).map ops.l2) d
      · refine inv_of_core_eq cfg s _ ?_ hInv
        rfl

theorem processFrame_inv [Inhabited E] (cfg : EngineCfg) (ops : EmbOps E) (orc : Oracles E)
    (s : EngineState E) (frame : List ℚ) (now : ℚ)
    (hc7 : C7Cfg cfg) (hfr : frame.length ≤ cfg.block) (hInv : EmitInv cfg s) :
    EmitInv cfg (processFrame cfg ops orc s frame now) := by
  unfold processFrame
  dsimp only
  have hA0 : EmitInv cfg (appendSegmentFrame cfg
      { s with processed_samples := s.processed_samples + frame.length } frame) :=
    appendFrame_inv2 cfg _ s frame rfl hInv
  split
  · split
    · exact finalize_inv cfg orc _ 0 hc7 hA0
    split
    · exact maybeRunIntraseg_inv cfg ops orc _ now hc7 hA0
    · exact hA0
  · have hcore : coreOf ((isSpeech cfg orc (maybeCalibrate cfg orc
        { s with processed_samples := s.processed_samples + frame.length } frame) frame).2) =
        coreOf { s with processed_samples := s.processed_samples + frame.length } :=
      (isSpeech_snd_core cfg orc _ frame).trans (maybeCalibrate_core cfg orc _ frame)
    have hS2is : (isSpeech cfg orc (maybeCalibrate cfg orc
        { s with processed_samples := s.processed_samples + frame.length } frame)
        frame).2.in_speech = s.in_speech :=
      congrArg (fun c => c.2.2.2.2.2) hcore
    have hS2ss : (isSpeech cfg orc (maybeCalibrate cfg orc
        { s with processed_samples := s.processed_samples + frame.length } frame)
        frame).2.segment_start_sample = s.segment_start_sample :=
      congrArg (fun c => c.2.2.2.1) hcore
    have hS2p : (isSpeech cfg orc (maybeCalibrate cfg orc
        { s with processed_samples := s.processed_samples + frame.length } frame)
        frame).2.processed_samples = s.processed_samples + frame.length :=
      congrArg (fun c => c.2.1) hcore
    have hS2pa : (isSpeech cfg orc (maybeCalibrate cfg orc
        { s with processed_samples := s.processed_samples + frame.length } frame)
        frame).2.pre_audio = s.pre_audio :=
      congrArg (fun c => c.2.2.2.2.1) hcore
    split
    · rename_i hns
      have hfalse : s.in_speech = false := by
        rw [← hS2is]
        exact Bool.not_eq_true _ ▸ Bool.of_not_eq_true hns
      have hnone := hInv.idle_none hfalse
      have hBInv := bump_idle_inv cfg s frame.length hInv hnone
      have hS2 : EmitInv cfg (isSpeech cfg orc (maybeCalibrate cfg orc
          { s with processed_samples := s.processed_samples + frame.length } frame)
          frame).2 :=
        inv_of_core_eq cfg _ _ hcore hBInv
      have hpre : preTotal (isSpeech cfg orc (maybeCalibrate cfg orc
          { s with processed_samples := s.processed_samples + frame.length } frame)
          frame).2 + frame.length ≤ (isSpeech cfg orc (maybeCalibrate cfg orc
          { s with processed_samples := s.processed_samples + frame.length } frame)
          frame).2.processed_samples := by
        have h1 : preTotal (isSpeech cfg orc (maybeCalibrate cfg orc
            { s with processed_samples := s.processed_samples + frame.length } frame)
            frame).2 = preTotal s := by
          unfold preTotal
          rw [hS2pa]
        rw [h1, hS2p]
        have := hInv.pre_le
        omega
      have hP := appendPre_inv cfg _ frame hS2 hfr hpre
      have hPss : (appendPreAudio cfg (isSpeech cfg orc (maybeCalibrate cfg orc
          { s with processed_samples := s.processed_samples + frame.length } frame)
          frame).2 frame).segment_start_sample = none := by
        rw [show (appendPreAudio cfg (isSpeech cfg orc (maybeCalibrate cfg orc
          { s with processed_samples := s.processed_samples + frame.length } frame)
          frame).2 frame).segment_start_sample = (isSpeech cfg orc (maybeCalibrate cfg orc
          { s with processed_samples := s.processed_samples + frame.length } frame)
          frame).2.segment_start_sample from rfl, hS2ss]
        exact hnone
      split
      · split
        · refine inv_of_core_eq cfg _ _ ?_ (seed_inv cfg _ hP hPss)
          rfl
        · exact inv_of_fields2 cfg _ hP _ rfl rfl rfl rfl rfl rfl
      · exact inv_of_fields2 cfg _ hP _ rfl rfl rfl rfl rfl rfl
    · have hA : EmitInv cfg (appendSegmentFrame cfg (isSpeech cfg orc (maybeCalibrate cfg orc
          { s with processed_samples := s.processed_samples + frame.length } frame)
          frame).2 frame) :=
        appendFrame_inv2 cfg _ s frame hcore hInv
      split
      · split
        · exact finalize_inv cfg orc _ 0 hc7
            (inv_of_fields2 cfg _ hA _ rfl rfl rfl rfl rfl rfl)
        split
        · exact finalize_inv cfg orc _ 0 hc7
            (inv_of_fields2 cfg _ hA _ rfl rfl rfl rfl rfl rfl)
        split
        · exact maybeRunIntraseg_inv cfg ops orc _ now hc7
            (inv_of_fields2 cfg _ hA _ rfl rfl rfl rfl rfl rfl)
        · exact inv_of_fields2 cfg _ hA _ rfl rfl rfl rfl rfl rfl
      · split
        · exact finalize_inv cfg orc _ 0 hc7
            (inv_of_fields2 cfg _ hA _ rfl rfl rfl rfl rfl rfl)
        split
        · exact finalize_inv cfg orc _ 0 hc7
            (inv_of_fields2 cfg _ hA _ rfl rfl rfl rfl rfl rfl)
        split
        · exact maybeRunIntraseg_inv cfg ops orc _ now hc7
            (inv_of_fields2 cfg _ hA _ rfl rfl rfl rfl rfl rfl)
        · exact inv_of_fields2 cfg _ hA _ rfl rfl rfl rfl rfl rfl

theorem feedLoop_core [Inhabited E] (cfg : EngineCfg) (ops : EmbOps E) (orc : Oracles E)
    (now : ℚ) : ∀ (fuel : ℕ) (s : EngineState E),
    coreOf (feedLoop cfg ops orc now fuel s) = coreOf s
  | 0, _ => rfl
  | fuel + 1, s => by
    unfold feedLoop
    have hrec : ∀ t : EngineState E, coreOf (feedLoop cfg ops orc now fuel t) = coreOf t :=
      fun t => feedLoop_core cfg ops orc now fuel t
    split
    · rfl
    · dsimp only
      by_cases hadj : s.diar_next_window_sample < s.diar_buffer_start_sample
      · rw [if_pos hadj]
        split
        · split
          · rfl
          · split
            · rfl
            · rw [hrec]
              rfl
        · rfl
      · rw [if_neg hadj]
        split
        · split
          · rfl
          · split
            · rfl
            · rw [hrec]
              rfl
        · rfl

theorem shrinkDiarBuffer_core (cfg : EngineCfg) (s : EngineState E) :
    coreOf (shrinkDiarBuffer cfg s) = coreOf s := by
  unfold shrinkDiarBuffer
  dsimp only
  split
  · rfl
  split
  · rfl
  split <;> rfl

theorem shrinkDiarTimeline_core (cfg : EngineCfg) (s : EngineState E) :
    coreOf (shrinkDiarTimeline cfg s) = coreOf s := by
  unfold shrinkDiarTimeline
  split <;> rfl

theorem feedLiveDiarChunk_core [Inhabited E] (cfg : EngineCfg) (ops : EmbOps E)
    (orc : Oracles E) (s : EngineState E) (chunk : List ℚ) (now : ℚ) :
    coreOf (feedLiveDiarChunk cfg ops orc s chunk now) = coreOf s := by
  unfold feedLiveDiarChunk
  split
  · rfl
  dsimp only
  rw [shrinkDiarTimeline_core, shrinkDiarBuffer_core, feedLoop_core]
  split <;> rfl

theorem foldl_processFrame_inv [Inhabited E] (cfg : EngineCfg) (ops : EmbOps E)
    (orc : Oracles E) (now : ℚ) (arr : List ℚ) (hc7 : C7Cfg cfg) :
    ∀ (l : List ℕ) (s : EngineState E), EmitInv cfg s →
    EmitInv cfg (l.foldl (fun s i =>
      processFrame cfg ops orc s ((arr.drop (i * cfg.block)).take cfg.block) now) s)
  | [], _, h => h
  | i :: rest, s, h => by
    simp only [List.foldl_cons]
    exact foldl_processFrame_inv cfg ops orc now arr hc7 rest _
      (processFrame_inv cfg ops orc s _ now hc7
        (by rw [List.length_take]; exact min_le_left _ _) h)

theorem acceptChunk_inv [Inhabited E] (cfg : EngineCfg) (ops : EmbOps E) (orc : Oracles E)
    (s : EngineState E) (chunk : List ℚ) (now : ℚ)
    (hc7 : C7Cfg cfg) (hInv : EmitInv cfg s) :
    EmitInv cfg (acceptChunk cfg ops orc s chunk now) := by
  unfold acceptChunk
  split
  · exact hInv
  dsimp only
  have hfeed : EmitInv cfg (feedLiveDiarChunk cfg ops orc s chunk now) :=
    inv_of_core_eq cfg s _ (feedLiveDiarChunk_core cfg ops orc s chunk now) hInv
  have h2 : EmitInv cfg
      { feedLiveDiarChunk cfg ops orc s chunk now with residual := [] } := by
    refine inv_of_core_eq cfg _ _ ?_ hfeed
    rfl
  by_cases hres : (feedLiveDiarChunk cfg ops orc s chunk now).residual.isEmpty = true
  · rw [if_pos hres]
    split
    · exact h2
    split
    · exact foldl_processFrame_inv cfg ops orc now _ hc7 _ _ h2
    · have h3 := foldl_processFrame_inv cfg ops orc now chunk hc7
        (List.range (chunk.length / cfg.block)) _ h2
      refine inv_of_core_eq cfg _ _ ?_ h3
      rfl
  · rw [if_neg hres]
    split
    · exact h2
    split
    · exact foldl_processFrame_inv cfg ops orc now _ hc7 _ _ h2
    · have h3 := foldl_processFrame_inv cfg ops orc now
        ((feedLiveDiarChunk cfg ops orc s chunk now).residual ++ chunk) hc7
        (List.range (((feedLiveDiarChunk cfg ops orc s chunk now).residual ++
          chunk).length / cfg.block)) _ h2
      refine inv_of_core_eq cfg _ _ ?_ h3
      rfl

theorem initEngine_inv (cfg : EngineCfg) (t0 : ℚ) :
    EmitInv cfg (initEngine cfg t0 : EngineState E) := by
  refine ⟨by simp [initEngine], ?_, ?_, ?_, ?_, ?_, ?_, ?_, fun _ => rfl⟩
  · intro q hq
    simp [initEngine] at hq
  · intro q hq
    simp [initEngine] at hq
  · intro st h
    simp [initEngine] at h
  · exact le_refl 0
  · exact le_refl 0
  · intro c hc
    simp [initEngine] at hc
  · simp [initEngine]

theorem runEngine_inv [Inhabited E] (cfg : EngineCfg) (ops : EmbOps E) (orc : Oracles E)
    (hc7 : C7Cfg cfg) : ∀ (inputs : List (List ℚ × ℚ)) (s : EngineState E),
    EmitInv cfg s → EmitInv cfg (runEngine cfg ops orc s inputs)
  | [], _, h => h
  | (chunk, now) :: rest, s, h => by
    simp only [runEngine]
    exact runEngine_inv cfg ops orc hc7 rest _
      (acceptChunk_inv cfg ops orc s chunk now hc7 h)

/-- **C7.**  Finalized segments are emitted in time order: over any input
chunk stream fed to a freshly constructed engine, the pending-result queue
(which `try_finalize` drains front-first, so the drain order is the queue
order) always has non-decreasing start times — across max-turn cuts,
energy-gate stops, intra-segment speaker-change cuts with tail carry-over,
and per-speaker splits of one segment.  The three configuration side
conditions hold at the engine's documented defaults (a 0.24 s pre-roll
against a 0.4 s minimum emitted segment and a 1.2 s minimum split span at
16 kHz). -/
theorem claim_c7_nondecreasing_starts [Inhabited E] (cfg : EngineCfg) (ops : EmbOps E)
    (orc : Oracles E) (t0 : ℚ) (inputs : List (List ℚ × ℚ))
    (hsr : 0 < cfg.sr)
    (hfloor : ((cfg.prepad_frames * cfg.block : ℕ) : ℚ) ≤
      max (1/10) (cfg.min_turn_sec * (1/2)) * (cfg.sr : ℚ))
    (hsplit : ((cfg.prepad_frames * cfg.block : ℕ) : ℚ) ≤
      cfg.spk_split_min_sec * (cfg.sr : ℚ)) :
    List.Pairwise (· ≤ ·)
      ((runEngine cfg ops orc (initEngine cfg t0) inputs).queue.map (fun q => q.1)) :=
  (runEngine_inv cfg ops orc ⟨hsr, hfloor, hsplit⟩ inputs _ (initEngine_inv cfg t0)).sorted

/-- Engine configuration for the C7 instantiation: 1 Hz audio, 1-sample
frames, no pre-roll, 1 s max-turn cut, diarization off. -/
def c7Cfg : EngineCfg :=
  { defaultEngineCfg with
      sr := 1, block := 1, vad_enabled := false,
      max_turn_sec := 1, min_turn_sec := 0, min_asr_sec := 0,
      prepad_frames := 0, tail_keep_samples := 0,
      live_diar_enabled := false }

/-- Oracles for the C7 instantiation: every segment decodes to `"a"`. -/
def c7Orc : Oracles ℕ where
  decode _ := "a"
  embed _ := none
  rms _ := 0

/-- Three one-second chunks: each closes a max-turn segment. -/
def c7Inputs : List (List ℚ × ℚ) := [([1], 0), ([2], 0), ([3], 0)]

/-- Concrete instantiation of the C7 theorem: the three emitted segments
start at 0, 1 and 2 seconds, a nondecreasing sequence. -/
theorem claim_c7_witness :
    0 < c7Cfg.sr ∧
    ((c7Cfg.prepad_frames * c7Cfg.block : ℕ) : ℚ) ≤
      max (1/10) (c7Cfg.min_turn_sec * (1/2)) * (c7Cfg.sr : ℚ) ∧
    ((c7Cfg.prepad_frames * c7Cfg.block : ℕ) : ℚ) ≤
      c7Cfg.spk_split_min_sec * (c7Cfg.sr : ℚ) ∧
    List.Pairwise (· ≤ ·)
      ((runEngine c7Cfg witOps c7Orc (initEngine c7Cfg 0) c7Inputs).queue.map
        (fun q => q.1)) :=
  ⟨by with_unfolding_all decide, by with_unfolding_all decide,
   by with_unfolding_all decide,
   claim_c7_nondecreasing_starts c7Cfg witOps c7Orc 0 c7Inputs
     (by with_unfolding_all decide) (by with_unfolding_all decide)
     (by with_unfolding_all decide)⟩

end LocalMinutes
